import Mathlib

/-!
# Golang_study: the concurrent task-processing core

A shallow embedding of the concurrency units of the repository
(`05_concurrency_basics`, `06_concurrency_advanced`), of the order
system, the bank accounts and the student records of
`02_functions_and_methods` and of the score manager of
`03_composite_types`, and the properties its specification states about
them.

Conventions of the embedding.

* Sequential Go code becomes a Lean function; a loop over a channel
  (`for x := range ch`) becomes a left fold over the list of values the
  channel delivers, in delivery order.
* Concurrent code becomes a deterministic `step` function on an explicit
  state, driven by a list of scheduler choices (one choice = one atomic
  action of one goroutine).  Quantifying over all such lists quantifies
  over all interleavings.  A choice that is not enabled (a goroutine
  blocked on a full/empty channel or a held lock) yields `none`.
* Values supplied by the environment (elapsed wall-clock time, random
  numbers, the instant a timer fires) are explicit inputs.
* `time.Duration` is `int64`; additions on it wrap at 64 bits
  (`wrap64`).  Pure event counters (`count++` once per received
  message) are unbounded integers: they are bounded by the number of
  events of one run.
* A method with a pointer receiver that returns an `error` becomes a
  function returning the receiver after the call and the error (`none`
  for `nil`).
* A `float64` is NaN, an infinity or a finite value given by a rational
  number (`F64`); comparisons with NaN are false, and the rounding of
  arithmetic results is a parameter of the operations.
-/

namespace GolangStudy

/-! ## Definitions -/

/-- Two's-complement reduction of an integer to the `int64` range
`[-2^63, 2^63)`, the result of Go's wrapping arithmetic on `int64`. -/
def wrap64 (x : Int) : Int := (x + 2 ^ 63) % 2 ^ 64 - 2 ^ 63

/-- Membership in the `int64` range. -/
def inInt64 (x : Int) : Prop := -(2 ^ 63) ≤ x ∧ x < 2 ^ 63

instance (x : Int) : Decidable (inInt64 x) := by
  unfold inInt64; exact inferInstance

namespace ConcurrencyAdvanced.Example

/-! ### `06_concurrency_advanced/example.go`: `ChannelCounter` -/

/-- An operation sent on `ops chan func(int) int`: a closure from the
owner's current count to the new count.  The closure built by `Get`
also sends on its private `result` channel; that send is the second
component (`none` when the closure sends nothing). -/
abbrev Op := Int → Int × Option Int

/-- The closure sent by `Increment`: `func(count int) int { return count + 1 }`. -/
def incrementOp : Op := fun count => (count + 1, none)

/-- The closure sent by `Get`:
`func(count int) int { result <- count; return count }`. -/
def getOp : Op := fun count => (count, some count)

/-- The two kinds of request a caller can issue. -/
inductive Msg where
  | increment
  | get
  deriving DecidableEq, Repr

/-- The closure a request puts on the `ops` channel. -/
def Msg.op : Msg → Op
  | .increment => incrementOp
  | .get => getOp

/-- State of the owner goroutine: its local `count` and, per operation
already processed, what was sent on that operation's reply channel. -/
structure Owner where
  count : Int
  replies : List (Option Int)
  deriving DecidableEq, Repr

/-- One iteration of `for op := range c.ops { count = op(count) }`. -/
def Owner.apply (o : Owner) (op : Op) : Owner :=
  { count := (op o.count).1, replies := o.replies ++ [(op o.count).2] }

/-- The owner goroutine of `NewChannelCounter`: `count := 0`, then the
operations are applied in the order the channel delivers them. -/
def owner (ops : List Op) : Owner :=
  ops.foldl Owner.apply { count := 0, replies := [] }

end ConcurrencyAdvanced.Example

namespace ConcurrencyBasics.Exercise

/-! ### `05_concurrency_basics/exercise.go` -/

/-- The `Task` struct. -/
structure Task where
  ID : Int
  deriving DecidableEq, Repr

/-- The `Result` struct; `Duration` is a `time.Duration` (nanoseconds, `int64`). -/
structure Result where
  TaskID : Int
  WorkerID : Int
  Duration : Int
  deriving DecidableEq, Repr

/-- The locals of `collector`: `count` and `totalDuration`. -/
structure Collector where
  count : Int
  totalDuration : Int
  deriving DecidableEq, Repr

/-- One iteration of `for result := range results`:
`count++; totalDuration += result.Duration` (the latter on `int64`). -/
def Collector.step (c : Collector) (result : Result) : Collector :=
  { count := c.count + 1, totalDuration := wrap64 (c.totalDuration + result.Duration) }

/-- The drain loop of `collector`, from `count := 0` and the zero duration. -/
def collectorLoop (results : List Result) : Collector :=
  results.foldl Collector.step { count := 0, totalDuration := 0 }

/-- What `collector` prints after the drain. -/
structure Summary where
  total : Int
  totalDuration : Int
  mean : Option Int
  deriving DecidableEq, Repr

/-- The function `collector`: drain, then print `count` and, only
`if count > 0`, the average `totalDuration / time.Duration(count)`
(Go's `/` on integers truncates toward zero). -/
def collector (results : List Result) : Summary :=
  let c := collectorLoop results
  { total := c.count
    totalDuration := c.totalDuration
    mean := if c.count > 0 then some (Int.tdiv c.totalDuration c.count) else none }

/-- A channel operation of the task producer goroutine in `main`. -/
inductive ProducerOp where
  | send (t : Task)
  | close
  deriving DecidableEq, Repr

/-- The loop `for i := 1; i <= 20; i++ { select { case <-timer.C: close(tasks); return;
default: tasks <- Task{ID: i} } }` followed by `close(tasks)`.
`timerReady i` tells whether `timer.C` is ready when iteration `i`
runs its `select`; `n` is the number of iterations left. -/
def producerFrom (timerReady : Nat → Bool) : Nat → Nat → List ProducerOp
  | _, 0 => [ProducerOp.close]
  | i, n + 1 =>
    if timerReady i then [ProducerOp.close]
    else ProducerOp.send { ID := (i : Int) } :: producerFrom timerReady (i + 1) n

/-- The task producer of `main`: iterations `i = 1 .. 20`. -/
def producer (timerReady : Nat → Bool) : List ProducerOp :=
  producerFrom timerReady 1 20

/-- The task a producer operation sends, if it is a send. -/
def ProducerOp.task? : ProducerOp → Option Task
  | .send t => some t
  | .close => none

end ConcurrencyBasics.Exercise

namespace ConcurrencyAdvanced.Exercise

/-! ### `06_concurrency_advanced/exercise.go` -/

/-- The `CrawlResult` struct. -/
structure CrawlResult where
  URL : String
  Duration : Int
  Success : Bool
  deriving DecidableEq, Repr

/-- The counters `successCount`, `failCount` of `main`. -/
structure Counters where
  successCount : Int
  failCount : Int
  deriving DecidableEq, Repr

/-- One iteration of the result loop of `main`:
`if result.Success { successCount += 1 } else { failCount += 1 }`. -/
def Counters.step (c : Counters) (result : CrawlResult) : Counters :=
  if result.Success then { c with successCount := c.successCount + 1 }
  else { c with failCount := c.failCount + 1 }

/-- The loop `for result := range results` of `main`, from zeroed counters. -/
def resultLoop (results : List CrawlResult) : Counters :=
  results.foldl Counters.step { successCount := 0, failCount := 0 }

end ConcurrencyAdvanced.Exercise

namespace Pipeline

/-! ### The worker-pool pipeline shared by the compositions

`withResultCollector` (`simple_examples.go`), `demoWorkerPool`
(`example.go`) and `main` of `exercise.go` compose the same five
parties: a producer that sends the tasks and then closes the task
channel; `W` workers running
`defer wg.Done(); for t := range tasks { ...; results <- r }`;
a closer running `wg.Wait(); close(results)`; and a collector running
`for r := range results`.  Both channels are buffered.  The state below
is the one reached when all `wg.Add(1); go worker(...)` statements have
run, which in each composition happens before the closer is started. -/

/-- Where a worker goroutine stands in
`defer wg.Done(); for t := range tasks { r := handle t; results <- r }`. -/
inductive Worker (τ : Type) where
  /-- at the head of the `range` loop, about to receive from the task channel -/
  | ranging
  /-- has received `t`, runs the loop body up to and including `results <- r` -/
  | holding (t : τ)
  /-- the loop has ended and the deferred `wg.Done()` has run -/
  | exited
  deriving DecidableEq, Repr

/-- The task a worker has taken from the channel and not yet answered. -/
def Worker.task? {τ : Type} : Worker τ → Option τ
  | .holding t => some t
  | _ => none

/-- Whether the worker has returned (and so has called `wg.Done()`). -/
def Worker.isExited {τ : Type} : Worker τ → Bool
  | .exited => true
  | _ => false

/-- The parameters in which the compositions differ: the two channel
capacities and the loop body of the worker, which builds the result
from the worker id, the task and an input `e` from the environment
(elapsed time). -/
structure Config (τ ρ ε : Type) where
  tasksCap : Nat
  resultsCap : Nat
  handle : Nat → τ → ε → ρ

/-- Global state of one run of the pipeline. -/
structure State (τ ρ : Type) where
  /-- tasks the producer has still to send, in order -/
  pending : List τ
  /-- buffer of the task channel, oldest first -/
  tasks : List τ
  tasksClosed : Bool
  workers : List (Worker τ)
  /-- buffer of the results channel, oldest first -/
  results : List ρ
  resultsClosed : Bool
  /-- results the collector has received, in order -/
  collected : List ρ
  /-- a goroutine has sent on a closed channel (a run-time panic) -/
  panicked : Bool
  deriving DecidableEq, Repr

/-- One atomic action of one goroutine, as chosen by the scheduler. -/
inductive Action (ε : Type) where
  /-- producer: `tasks <- t` for the next pending task -/
  | produce
  /-- producer: `close(tasks)` once everything is sent -/
  | closeTasks
  /-- worker `w`: the `range` receives the oldest buffered task -/
  | receive (w : Nat)
  /-- worker `w`: the `range` finds the channel closed and empty; return, `wg.Done()` -/
  | exit (w : Nat)
  /-- worker `w`: `results <- r`, with `e` the input of the environment -/
  | publish (w : Nat) (e : ε)
  /-- closer: `wg.Wait()` returns and `close(results)` runs -/
  | closeResults
  /-- collector: the `range` receives the oldest buffered result -/
  | collect
  deriving DecidableEq, Repr

variable {τ ρ ε : Type}

/-- The state after the workers have been started: `n` workers at their
loop head, both channels empty and open. -/
def init (n : Nat) (submitted : List τ) : State τ ρ :=
  { pending := submitted, tasks := [], tasksClosed := false,
    workers := List.replicate n Worker.ranging,
    results := [], resultsClosed := false, collected := [], panicked := false }

/-- Effect of one action; `none` when the goroutine is blocked or has
nothing of that kind to do.  Workers are numbered from 0 here and carry
the identifier `w + 1` of the source (`for i := 1; i <= n; i++`). -/
def step (cfg : Config τ ρ ε) (a : Action ε) (s : State τ ρ) : Option (State τ ρ) :=
  if s.panicked then none
  else
    match a with
    | .produce =>
      match s.pending with
      | [] => none
      | t :: rest =>
        if s.tasksClosed then some { s with panicked := true }
        else if s.tasks.length < cfg.tasksCap then
          some { s with pending := rest, tasks := s.tasks ++ [t] }
        else none
    | .closeTasks =>
      match s.pending with
      | [] => if s.tasksClosed then none else some { s with tasksClosed := true }
      | _ :: _ => none
    | .receive w =>
      match s.workers[w]?, s.tasks with
      | some .ranging, t :: rest =>
        some { s with tasks := rest, workers := s.workers.set w (.holding t) }
      | _, _ => none
    | .exit w =>
      match s.workers[w]?, s.tasks with
      | some .ranging, [] =>
        if s.tasksClosed then some { s with workers := s.workers.set w .exited } else none
      | _, _ => none
    | .publish w e =>
      match s.workers[w]? with
      | some (.holding t) =>
        if s.resultsClosed then some { s with panicked := true }
        else if s.results.length < cfg.resultsCap then
          some { s with results := s.results ++ [cfg.handle (w + 1) t e],
                        workers := s.workers.set w .ranging }
        else none
      | _ => none
    | .closeResults =>
      if s.workers.all Worker.isExited && !s.resultsClosed then
        some { s with resultsClosed := true }
      else none
    | .collect =>
      match s.results with
      | [] => none
      | r :: rest => some { s with results := rest, collected := s.collected ++ [r] }

/-- Run a schedule: the actions are performed in order; `none` if one
of them is not enabled when its turn comes. -/
def run (cfg : Config τ ρ ε) : List (Action ε) → State τ ρ → Option (State τ ρ)
  | [], s => some s
  | a :: rest, s => (step cfg a s).bind (run cfg rest)

/-- Every result sent on the results channel so far, in send order. -/
def State.published (s : State τ ρ) : List ρ := s.collected ++ s.results

/-- Tasks received by some worker whose result is not yet sent. -/
def State.inflight (s : State τ ρ) : List τ := s.workers.filterMap Worker.task?

/-- All workers have returned, whence `wg.Wait()` can return. -/
def State.allExited (s : State τ ρ) : Bool := s.workers.all Worker.isExited

/-- The run is over: tasks closed, every worker returned, results
closed and drained by the collector. -/
def State.complete (s : State τ ρ) : Bool :=
  s.tasksClosed && s.allExited && s.resultsClosed && s.results.isEmpty

/-- Number of actions the run can still perform. -/
def State.remaining (s : State τ ρ) : Nat :=
  4 * s.pending.length + 3 * s.tasks.length
    + (s.workers.map (fun w => match w with
        | .ranging => 1 | .holding _ => 3 | .exited => 0)).sum
    + s.results.length + (if s.tasksClosed then 0 else 1) + (if s.resultsClosed then 0 else 1)

end Pipeline
namespace Pipeline

variable {τ ρ ε : Type}

/-- The transitions of `step`, one constructor per outcome, with the
acting worker located by the workers before it (`pre`) and after it
(`post`). -/
inductive Step (cfg : Config τ ρ ε) : State τ ρ → State τ ρ → Prop
  | produce {t : τ} {pend tasks : List τ} {ws : List (Worker τ)} {res col : List ρ} {rc : Bool} :
      tasks.length < cfg.tasksCap →
      Step cfg ⟨t :: pend, tasks, false, ws, res, rc, col, false⟩
        ⟨pend, tasks ++ [t], false, ws, res, rc, col, false⟩
  | producePanic {t : τ} {pend tasks : List τ} {ws : List (Worker τ)} {res col : List ρ}
      {rc : Bool} :
      Step cfg ⟨t :: pend, tasks, true, ws, res, rc, col, false⟩
        ⟨t :: pend, tasks, true, ws, res, rc, col, true⟩
  | closeTasks {tasks : List τ} {ws : List (Worker τ)} {res col : List ρ} {rc : Bool} :
      Step cfg ⟨[], tasks, false, ws, res, rc, col, false⟩
        ⟨[], tasks, true, ws, res, rc, col, false⟩
  | receive {t : τ} {pend tasks : List τ} {pre post : List (Worker τ)} {res col : List ρ}
      {tc rc : Bool} :
      Step cfg ⟨pend, t :: tasks, tc, pre ++ Worker.ranging :: post, res, rc, col, false⟩
        ⟨pend, tasks, tc, pre ++ Worker.holding t :: post, res, rc, col, false⟩
  | exit {pend : List τ} {pre post : List (Worker τ)} {res col : List ρ} {rc : Bool} :
      Step cfg ⟨pend, [], true, pre ++ Worker.ranging :: post, res, rc, col, false⟩
        ⟨pend, [], true, pre ++ Worker.exited :: post, res, rc, col, false⟩
  | publish {t : τ} {e : ε} {pend tasks : List τ} {pre post : List (Worker τ)}
      {res col : List ρ} {tc : Bool} :
      res.length < cfg.resultsCap →
      Step cfg ⟨pend, tasks, tc, pre ++ Worker.holding t :: post, res, false, col, false⟩
        ⟨pend, tasks, tc, pre ++ Worker.ranging :: post,
          res ++ [cfg.handle (pre.length + 1) t e], false, col, false⟩
  | publishPanic {t : τ} {pend tasks : List τ} {pre post : List (Worker τ)}
      {res col : List ρ} {tc : Bool} :
      Step cfg ⟨pend, tasks, tc, pre ++ Worker.holding t :: post, res, true, col, false⟩
        ⟨pend, tasks, tc, pre ++ Worker.holding t :: post, res, true, col, true⟩
  | closeResults {pend tasks : List τ} {ws : List (Worker τ)} {res col : List ρ} {tc : Bool} :
      ws.all Worker.isExited = true →
      Step cfg ⟨pend, tasks, tc, ws, res, false, col, false⟩
        ⟨pend, tasks, tc, ws, res, true, col, false⟩
  | collect {r : ρ} {pend tasks : List τ} {ws : List (Worker τ)} {res col : List ρ}
      {tc rc : Bool} :
      Step cfg ⟨pend, tasks, tc, ws, r :: res, rc, col, false⟩
        ⟨pend, tasks, tc, ws, res, rc, col ++ [r], false⟩

/-- What holds in every state a run can reach. -/
structure Inv (s : State τ ρ) : Prop where
  noPanic : s.panicked = false
  closedAfterLastSend : s.tasksClosed = true → s.pending = []
  resultsClosedAfterWait : s.resultsClosed = true → s.workers.all Worker.isExited = true
  exitedAfterDrain : Worker.exited ∈ s.workers → s.tasksClosed = true ∧ s.tasks = []

end Pipeline

namespace Pipeline

variable {τ ρ ε : Type}

/-- Conservation of tasks, as multisets of identifiers: what was
submitted is what has been published, is held by a worker, is buffered
or is still to be sent. -/
def Flow {κ : Type} (tid : τ → κ) (rid : ρ → κ) (submitted : List τ) (s : State τ ρ) : Prop :=
  ((submitted.map tid : List κ) : Multiset κ)
    = ((s.published.map rid : List κ) : Multiset κ) + ((s.inflight.map tid : List κ) : Multiset κ)
      + ((s.tasks.map tid : List κ) : Multiset κ) + ((s.pending.map tid : List κ) : Multiset κ)

/-- With one worker the tasks keep their order: the identifiers
submitted are, in order, those published, then the one held by the
worker, then those buffered, then those still to be sent. -/
def Ordered {κ : Type} (tid : τ → κ) (rid : ρ → κ) (submitted : List τ) (s : State τ ρ) : Prop :=
  s.workers.length = 1 ∧
    submitted.map tid
      = s.published.map rid ++ s.inflight.map tid ++ s.tasks.map tid ++ s.pending.map tid

/-- The closing discipline of a pipeline: no send on a closed channel
has happened, a closed results channel means that every worker has
returned, a returned worker cannot publish, and `close(results)` can
only run once every worker has returned. -/
def ClosesSafely (cfg : Config τ ρ ε) (s : State τ ρ) : Prop :=
  s.panicked = false
  ∧ (s.resultsClosed = true → s.allExited = true)
  ∧ (∀ w e, s.workers[w]? = some Worker.exited → step cfg (Action.publish w e) s = none)
  ∧ (∀ s', step cfg Action.closeResults s = some s' → s.allExited = true)

end Pipeline

namespace ConcurrencyAdvanced.Exercise

/-! ### `06_concurrency_advanced/exercise.go`: the concurrent crawler -/

/-- The function `crawl`.  The environment supplies `elapsed`, the
value of `time.Since(start)` after the simulated delay, and `rnd`, the
value of `rand.Intn(10)`; `success := rand.Intn(10) > 0`. -/
def crawl (url : String) (elapsed : Int) (rnd : Fin 10) : CrawlResult :=
  { URL := url, Duration := elapsed, Success := decide (0 < rnd.val) }

/-- Where a crawler `worker` goroutine stands in
`defer wg.Done(); for url := range jobs { select { case <-ctx.Done(): return;
default: result := crawl(url); results <- result } }`. -/
inductive Worker where
  /-- at the head of the `range` loop, about to receive from `jobs` -/
  | ranging
  /-- has received `url` and is about to run the `select` -/
  | selecting (url : String)
  /-- took the `default` branch: `crawl(url)` runs, then `results <- result` -/
  | crawling (url : String)
  /-- returned; the deferred `wg.Done()` has run -/
  | exited
  deriving DecidableEq, Repr

/-- The URL a worker has received and neither published nor discarded. -/
def Worker.url? : Worker → Option String
  | .selecting url => some url
  | .crawling url => some url
  | _ => none

/-- Whether the worker has returned. -/
def Worker.isExited : Worker → Bool
  | .exited => true
  | _ => false

/-- How a run of the program can abort. -/
inductive Fault where
  /-- a goroutine sent on a closed channel -/
  | sendOnClosed
  /-- the handler called by a worker panicked; `worker` has no `recover` -/
  | handlerPanic
  deriving DecidableEq, Repr

/-- What the environment supplies to one call of the handler. -/
structure Env where
  elapsed : Int
  rnd : Fin 10
  deriving DecidableEq, Repr

instance : Inhabited Env := ⟨{ elapsed := 0, rnd := 0 }⟩

/-- The handler a worker calls on each URL; `none` stands for a call
that panics.  In the source the handler is `crawl`, which always
returns (`crawlHandler`); it is a parameter here so that the behaviour
of `worker` around a failing handler can be stated. -/
abbrev Handler := String → Env → Option CrawlResult

/-- The handler of the source: the call `crawl(url)`. -/
def crawlHandler : Handler := fun url e => some (crawl url e.elapsed e.rnd)

/-- Global state of the concurrent part of `main` (Step 2), once the
five `wg.Add(1); go worker(...)` statements have run.
`jobs := make(chan string, 10)`, `results := make(chan CrawlResult, 15)`. -/
structure State where
  /-- URLs the producer has still to send (duplicates already skipped) -/
  pending : List String
  /-- buffer of `jobs`, oldest first -/
  jobs : List String
  jobsClosed : Bool
  /-- `ctx.Done()` is closed: the deadline has passed or `cancel` was called -/
  cancelled : Bool
  workers : List Worker
  /-- buffer of `results`, oldest first -/
  results : List CrawlResult
  resultsClosed : Bool
  /-- results received by the result loop of `main`, in order -/
  collected : List CrawlResult
  /-- every URL some worker has received from `jobs`, in order of receipt -/
  taken : List String
  /-- every URL a worker received and then discarded at its `select` -/
  dropped : List String
  fault : Option Fault
  deriving DecidableEq, Repr

/-- One atomic action of one goroutine or of the context. -/
inductive Action where
  /-- producer: `jobs <- url` -/
  | produce
  /-- producer: `close(jobs)` -/
  | closeJobs
  /-- context: the 10-second deadline passes (or `cancel()` is called) -/
  | cancel
  /-- worker `w`: the `range` receives the oldest buffered URL -/
  | receive (w : Nat)
  /-- worker `w`: the `range` finds `jobs` closed and empty; return -/
  | exit (w : Nat)
  /-- worker `w`: the `select`; returns when `ctx.Done()` is ready, else `default` -/
  | select (w : Nat)
  /-- worker `w`: the handler call ends and `results <- result` runs -/
  | publish (w : Nat) (e : Env)
  /-- closer: `wg.Wait()` returns and `close(results)` runs -/
  | closeResults
  /-- result loop: the `range` receives the oldest buffered result -/
  | collect
  deriving DecidableEq, Repr

/-- Capacity of `jobs`. -/
def jobsCap : Nat := 10

/-- Capacity of `results`. -/
def resultsCap : Nat := 15

/-- The state after `n` workers have been started, with `toSend` the
URLs the producer will send. -/
def init (n : Nat) (toSend : List String) : State :=
  { pending := toSend, jobs := [], jobsClosed := false, cancelled := false,
    workers := List.replicate n Worker.ranging,
    results := [], resultsClosed := false, collected := [],
    taken := [], dropped := [], fault := none }

/-- Effect of one action; `none` when the goroutine is blocked or has
nothing of that kind to do, or when the program has aborted. -/
def step (handler : Handler) (a : Action) (s : State) : Option State :=
  if s.fault.isSome then none
  else
    match a with
    | .produce =>
      match s.pending with
      | [] => none
      | url :: rest =>
        if s.jobsClosed then some { s with fault := some Fault.sendOnClosed }
        else if s.jobs.length < jobsCap then
          some { s with pending := rest, jobs := s.jobs ++ [url] }
        else none
    | .closeJobs =>
      match s.pending with
      | [] => if s.jobsClosed then none else some { s with jobsClosed := true }
      | _ :: _ => none
    | .cancel => if s.cancelled then none else some { s with cancelled := true }
    | .receive w =>
      match s.workers[w]?, s.jobs with
      | some .ranging, url :: rest =>
        some { s with jobs := rest, workers := s.workers.set w (.selecting url),
                      taken := s.taken ++ [url] }
      | _, _ => none
    | .exit w =>
      match s.workers[w]?, s.jobs with
      | some .ranging, [] =>
        if s.jobsClosed then some { s with workers := s.workers.set w .exited } else none
      | _, _ => none
    | .select w =>
      match s.workers[w]? with
      | some (.selecting url) =>
        if s.cancelled then
          some { s with workers := s.workers.set w .exited, dropped := s.dropped ++ [url] }
        else some { s with workers := s.workers.set w (.crawling url) }
      | _ => none
    | .publish w e =>
      match s.workers[w]? with
      | some (.crawling url) =>
        match handler url e with
        | none => some { s with fault := some Fault.handlerPanic }
        | some result =>
          if s.resultsClosed then some { s with fault := some Fault.sendOnClosed }
          else if s.results.length < resultsCap then
            some { s with results := s.results ++ [result],
                          workers := s.workers.set w .ranging }
          else none
      | _ => none
    | .closeResults =>
      if s.workers.all Worker.isExited && !s.resultsClosed then
        some { s with resultsClosed := true }
      else none
    | .collect =>
      match s.results with
      | [] => none
      | r :: rest => some { s with results := rest, collected := s.collected ++ [r] }

/-- Run a schedule: the actions are performed in order; `none` if one
of them is not enabled when its turn comes. -/
def run (handler : Handler) : List Action → State → Option State
  | [], s => some s
  | a :: rest, s => (step handler a s).bind (run handler rest)

/-- Every result sent on `results` so far, in send order. -/
def State.published (s : State) : List CrawlResult := s.collected ++ s.results

/-- URLs received by a worker and neither published nor discarded yet. -/
def State.inflight (s : State) : List String := s.workers.filterMap Worker.url?

/-- All workers have returned, whence `wg.Wait()` can return. -/
def State.allExited (s : State) : Bool := s.workers.all Worker.isExited

/-- Number of workers that have returned. -/
def State.exitedCount (s : State) : Nat := s.workers.countP Worker.isExited

end ConcurrencyAdvanced.Exercise
namespace ConcurrencyAdvanced.Exercise

/-- The transitions of `step`, one constructor per outcome, with the
acting worker located by the workers before it (`pre`) and after it
(`post`). -/
inductive Step (handler : Handler) : State → State → Prop
  | produce {url : String} {pend jobs : List String} {cn : Bool} {ws : List Worker}
      {res : List CrawlResult} {rc : Bool} {col : List CrawlResult} {tk dr : List String} :
      jobs.length < jobsCap →
      Step handler ⟨url :: pend, jobs, false, cn, ws, res, rc, col, tk, dr, none⟩
        ⟨pend, jobs ++ [url], false, cn, ws, res, rc, col, tk, dr, none⟩
  | produceClosed {url : String} {pend jobs : List String} {cn : Bool} {ws : List Worker}
      {res : List CrawlResult} {rc : Bool} {col : List CrawlResult} {tk dr : List String} :
      Step handler ⟨url :: pend, jobs, true, cn, ws, res, rc, col, tk, dr, none⟩
        ⟨url :: pend, jobs, true, cn, ws, res, rc, col, tk, dr, some Fault.sendOnClosed⟩
  | closeJobs {jobs : List String} {cn : Bool} {ws : List Worker}
      {res : List CrawlResult} {rc : Bool} {col : List CrawlResult} {tk dr : List String} :
      Step handler ⟨[], jobs, false, cn, ws, res, rc, col, tk, dr, none⟩
        ⟨[], jobs, true, cn, ws, res, rc, col, tk, dr, none⟩
  | cancel {pend jobs : List String} {jc : Bool} {ws : List Worker}
      {res : List CrawlResult} {rc : Bool} {col : List CrawlResult} {tk dr : List String} :
      Step handler ⟨pend, jobs, jc, false, ws, res, rc, col, tk, dr, none⟩
        ⟨pend, jobs, jc, true, ws, res, rc, col, tk, dr, none⟩
  | receive {url : String} {pend jobs : List String} {jc cn : Bool} {pre post : List Worker}
      {res : List CrawlResult} {rc : Bool} {col : List CrawlResult} {tk dr : List String} :
      Step handler
        ⟨pend, url :: jobs, jc, cn, pre ++ Worker.ranging :: post, res, rc, col, tk, dr, none⟩
        ⟨pend, jobs, jc, cn, pre ++ Worker.selecting url :: post, res, rc, col, tk ++ [url], dr,
          none⟩
  | exit {pend : List String} {cn : Bool} {pre post : List Worker}
      {res : List CrawlResult} {rc : Bool} {col : List CrawlResult} {tk dr : List String} :
      Step handler ⟨pend, [], true, cn, pre ++ Worker.ranging :: post, res, rc, col, tk, dr, none⟩
        ⟨pend, [], true, cn, pre ++ Worker.exited :: post, res, rc, col, tk, dr, none⟩
  | selectCancelled {url : String} {pend jobs : List String} {jc : Bool} {pre post : List Worker}
      {res : List CrawlResult} {rc : Bool} {col : List CrawlResult} {tk dr : List String} :
      Step handler
        ⟨pend, jobs, jc, true, pre ++ Worker.selecting url :: post, res, rc, col, tk, dr, none⟩
        ⟨pend, jobs, jc, true, pre ++ Worker.exited :: post, res, rc, col, tk, dr ++ [url], none⟩
  | selectDefault {url : String} {pend jobs : List String} {jc : Bool} {pre post : List Worker}
      {res : List CrawlResult} {rc : Bool} {col : List CrawlResult} {tk dr : List String} :
      Step handler
        ⟨pend, jobs, jc, false, pre ++ Worker.selecting url :: post, res, rc, col, tk, dr, none⟩
        ⟨pend, jobs, jc, false, pre ++ Worker.crawling url :: post, res, rc, col, tk, dr, none⟩
  | publish {url : String} {e : Env} {r : CrawlResult} {pend jobs : List String} {jc cn : Bool}
      {pre post : List Worker} {res col : List CrawlResult} {tk dr : List String} :
      handler url e = some r → res.length < resultsCap →
      Step handler
        ⟨pend, jobs, jc, cn, pre ++ Worker.crawling url :: post, res, false, col, tk, dr, none⟩
        ⟨pend, jobs, jc, cn, pre ++ Worker.ranging :: post, res ++ [r], false, col, tk, dr, none⟩
  | publishClosed {url : String} {e : Env} {r : CrawlResult} {pend jobs : List String}
      {jc cn : Bool} {pre post : List Worker} {res col : List CrawlResult}
      {tk dr : List String} :
      handler url e = some r →
      Step handler
        ⟨pend, jobs, jc, cn, pre ++ Worker.crawling url :: post, res, true, col, tk, dr, none⟩
        ⟨pend, jobs, jc, cn, pre ++ Worker.crawling url :: post, res, true, col, tk, dr,
          some Fault.sendOnClosed⟩
  | handlerPanic {url : String} {e : Env} {pend jobs : List String} {jc cn : Bool}
      {pre post : List Worker} {res : List CrawlResult} {rc : Bool} {col : List CrawlResult}
      {tk dr : List String} :
      handler url e = none →
      Step handler
        ⟨pend, jobs, jc, cn, pre ++ Worker.crawling url :: post, res, rc, col, tk, dr, none⟩
        ⟨pend, jobs, jc, cn, pre ++ Worker.crawling url :: post, res, rc, col, tk, dr,
          some Fault.handlerPanic⟩
  | closeResults {pend jobs : List String} {jc cn : Bool} {ws : List Worker}
      {res col : List CrawlResult} {tk dr : List String} :
      ws.all Worker.isExited = true →
      Step handler ⟨pend, jobs, jc, cn, ws, res, false, col, tk, dr, none⟩
        ⟨pend, jobs, jc, cn, ws, res, true, col, tk, dr, none⟩
  | collect {r : CrawlResult} {pend jobs : List String} {jc cn : Bool} {ws : List Worker}
      {res : List CrawlResult} {rc : Bool} {col : List CrawlResult} {tk dr : List String} :
      Step handler ⟨pend, jobs, jc, cn, ws, r :: res, rc, col, tk, dr, none⟩
        ⟨pend, jobs, jc, cn, ws, res, rc, col ++ [r], tk, dr, none⟩

/-- What holds in every state a run of the crawler can reach, whatever
the handler. -/
structure Inv (s : State) : Prop where
  noSendOnClosed : s.fault ≠ some Fault.sendOnClosed
  closedAfterLastSend : s.jobsClosed = true → s.pending = []
  resultsClosedAfterWait : s.resultsClosed = true → s.workers.all Worker.isExited = true
  droppedPerWorker : s.dropped.length ≤ s.workers.countP Worker.isExited
  droppedOnlyCancelled : s.dropped ≠ [] → s.cancelled = true

/-- Conservation of URLs, as multisets: what the workers have received
is what has been published, is held by a worker, or was discarded. -/
def Accounted (s : State) : Prop :=
  ((s.taken : List String) : Multiset String)
    = ((s.published.map (fun r => r.URL) : List String) : Multiset String)
      + ((s.inflight : List String) : Multiset String)
      + ((s.dropped : List String) : Multiset String)

end ConcurrencyAdvanced.Exercise

namespace ConcurrencyBasics.Exercise

/-- The loop body of `worker`: the result it sends for `task`, with
`duration` the measured `time.Since(start)`. -/
def worker (id : Nat) (task : Task) (duration : Int) : Result :=
  { TaskID := task.ID, WorkerID := (id : Int), Duration := duration }

/-- The pipeline of `main`: `tasks := make(chan Task, 10)`,
`results := make(chan Result, 20)`, workers running `worker`. -/
def pipeline : Pipeline.Config Task Result Int :=
  { tasksCap := 10, resultsCap := 20, handle := worker }

/-- The value of `numWorkers` in `main`. -/
def numWorkers : Nat := 3

end ConcurrencyBasics.Exercise

namespace ConcurrencyBasics.Example

/-! ### `05_concurrency_basics/example.go`: `workerPool`, `demoWorkerPool` -/

/-- The `Job` struct. -/
structure Job where
  ID : Int
  Data : String
  deriving DecidableEq, Repr

/-- The `Result` struct. -/
structure Result where
  Job : Job
  Sum : Int
  deriving DecidableEq, Repr

/-- The loop body of `workerPool`: `Result{Job: job, Sum: len(job.Data)}`
(`len` of a Go string is its length in bytes). -/
def workerPool (_id : Nat) (job : Job) (_e : Unit) : Result :=
  { Job := job, Sum := (job.Data.utf8ByteSize : Int) }

/-- The pipeline of `demoWorkerPool`: `jobs := make(chan Job, 10)`,
`results := make(chan Result, 10)`, workers running `workerPool`. -/
def pipeline : Pipeline.Config Job Result Unit :=
  { tasksCap := 10, resultsCap := 10, handle := workerPool }

/-- The jobs `demoWorkerPool` sends: `Job{ID: i, Data: fmt.Sprintf("Task-%d", i)}`
for `i = 1 .. 9`. -/
def demoJobs : List Job :=
  [⟨1, "Task-1"⟩, ⟨2, "Task-2"⟩, ⟨3, "Task-3"⟩, ⟨4, "Task-4"⟩, ⟨5, "Task-5"⟩,
   ⟨6, "Task-6"⟩, ⟨7, "Task-7"⟩, ⟨8, "Task-8"⟩, ⟨9, "Task-9"⟩]

/-- One interleaving of `demoWorkerPool` with its 3 workers: the nine
jobs are sent and the channel closed; three times, the workers take a
job each and answer in the order 3rd, 1st, 2nd worker; the workers
return, the results channel is closed and drained. -/
def demoSchedule : List (Pipeline.Action Unit) :=
  List.replicate 9 Pipeline.Action.produce ++ [Pipeline.Action.closeTasks]
    ++ (List.replicate 3
          [Pipeline.Action.receive 0, Pipeline.Action.receive 1, Pipeline.Action.receive 2,
           Pipeline.Action.publish 2 (), Pipeline.Action.publish 0 (),
           Pipeline.Action.publish 1 ()]).flatten
    ++ [Pipeline.Action.exit 1, Pipeline.Action.exit 0, Pipeline.Action.exit 2,
        Pipeline.Action.closeResults]
    ++ List.replicate 9 Pipeline.Action.collect

end ConcurrencyBasics.Example

namespace ConcurrencyBasics.SimpleExamples

/-! ### `05_concurrency_basics/simple_examples.go`: `withResultCollector` -/

/-- The pipeline of `withResultCollector`: `jobs := make(chan int, 5)`,
`results := make(chan int, 10)`, workers computing `result := job * 2`. -/
def withResultCollector : Pipeline.Config Int Int Unit :=
  { tasksCap := 5, resultsCap := 10, handle := fun _ job _ => wrap64 (job * 2) }

end ConcurrencyBasics.SimpleExamples

namespace ConcurrencyBasics.Example

/-- The state `demoSchedule` ends in. -/
def demoFinal : Pipeline.State Job Result :=
  { pending := [], tasks := [], tasksClosed := true,
    workers := [Pipeline.Worker.exited, Pipeline.Worker.exited, Pipeline.Worker.exited],
    results := [], resultsClosed := true,
    collected :=
      [⟨⟨3, "Task-3"⟩, 6⟩, ⟨⟨1, "Task-1"⟩, 6⟩, ⟨⟨2, "Task-2"⟩, 6⟩, ⟨⟨6, "Task-6"⟩, 6⟩,
       ⟨⟨4, "Task-4"⟩, 6⟩, ⟨⟨5, "Task-5"⟩, 6⟩, ⟨⟨9, "Task-9"⟩, 6⟩, ⟨⟨7, "Task-7"⟩, 6⟩,
       ⟨⟨8, "Task-8"⟩, 6⟩],
    panicked := false }

end ConcurrencyBasics.Example

namespace ConcurrencyBasics.Exercise

/-- The tasks of a run in which the producer sent the IDs 1 to 5. -/
def fiveTasks : List Task := [⟨1⟩, ⟨2⟩, ⟨3⟩, ⟨4⟩, ⟨5⟩]

/-- One interleaving of a single worker on `fiveTasks`: the producer
runs ahead by up to three tasks, worker and collector follow. -/
def fiveSchedule : List (Pipeline.Action Int) :=
  [Pipeline.Action.produce, Pipeline.Action.produce, Pipeline.Action.produce,
   Pipeline.Action.receive 0, Pipeline.Action.produce, Pipeline.Action.publish 0 120,
   Pipeline.Action.receive 0, Pipeline.Action.collect, Pipeline.Action.produce,
   Pipeline.Action.closeTasks, Pipeline.Action.publish 0 340, Pipeline.Action.receive 0,
   Pipeline.Action.publish 0 101, Pipeline.Action.receive 0, Pipeline.Action.publish 0 499,
   Pipeline.Action.receive 0, Pipeline.Action.publish 0 250, Pipeline.Action.exit 0,
   Pipeline.Action.closeResults, Pipeline.Action.collect, Pipeline.Action.collect,
   Pipeline.Action.collect, Pipeline.Action.collect]

/-- The state `fiveSchedule` ends in. -/
def fiveFinal : Pipeline.State Task Result :=
  { pending := [], tasks := [], tasksClosed := true,
    workers := [Pipeline.Worker.exited],
    results := [], resultsClosed := true,
    collected := [⟨1, 1, 120⟩, ⟨2, 1, 340⟩, ⟨3, 1, 101⟩, ⟨4, 1, 499⟩, ⟨5, 1, 250⟩],
    panicked := false }

end ConcurrencyBasics.Exercise

namespace ConcurrencyBasics.SimpleExamples

/-- The jobs `withResultCollector` sends: `for i := 1; i <= 5; i++ { jobs <- i }`. -/
def collectorJobs : List Int := [1, 2, 3, 4, 5]

/-- One interleaving of `withResultCollector` with its 2 workers. -/
def collectorSchedule : List (Pipeline.Action Unit) :=
  List.replicate 5 Pipeline.Action.produce ++
  [Pipeline.Action.closeTasks,
   Pipeline.Action.receive 0, Pipeline.Action.receive 1,
   Pipeline.Action.publish 1 (), Pipeline.Action.publish 0 (),
   Pipeline.Action.receive 0, Pipeline.Action.receive 1, Pipeline.Action.collect,
   Pipeline.Action.publish 0 (), Pipeline.Action.publish 1 (),
   Pipeline.Action.receive 1, Pipeline.Action.exit 0, Pipeline.Action.publish 1 (),
   Pipeline.Action.exit 1, Pipeline.Action.closeResults] ++
  List.replicate 4 Pipeline.Action.collect

/-- The state `collectorSchedule` ends in. -/
def collectorFinal : Pipeline.State Int Int :=
  { pending := [], tasks := [], tasksClosed := true,
    workers := [Pipeline.Worker.exited, Pipeline.Worker.exited],
    results := [], resultsClosed := true,
    collected := [4, 2, 6, 8, 10],
    panicked := false }

end ConcurrencyBasics.SimpleExamples

namespace ConcurrencyAdvanced.Exercise

/-- The list `urls` of the source. -/
def urls : List String :=
  ["https://golang.org", "https://github.com", "https://google.com", "https://baidu.com",
   "https://zhihu.com", "https://bilibili.com", "https://taobao.com", "https://jd.com",
   "https://weibo.com", "https://douyin.com", "https://golang.org", "https://github.com",
   "https://example1.com", "https://example2.com", "https://example3.com"]

/-- The locals of the producer goroutine of `main`: the keys of the map
`visited`, the URLs sent on `jobs` so far, and the counter `skippedCount`. -/
structure Producer where
  visited : List String
  sent : List String
  skippedCount : Int
  deriving DecidableEq, Repr

/-- One iteration of `for i, url := range urls`:
`if visited[url] { skippedCount += 1; continue }; visited[url] = true; jobs <- url`. -/
def Producer.step (p : Producer) (url : String) : Producer :=
  if p.visited.contains url then { p with skippedCount := p.skippedCount + 1 }
  else { p with visited := url :: p.visited, sent := p.sent ++ [url] }

/-- The producer loop over a list of URLs, from an empty `visited`. -/
def dedupProducer (us : List String) : Producer :=
  us.foldl Producer.step { visited := [], sent := [], skippedCount := 0 }

/-- The URLs the producer of `main` sends for the built-in list `urls`. -/
def sentURLs : List String := (dedupProducer urls).sent

/-- An interleaving of the crawler in which the deadline passes while
the five workers are crawling their first URL: each worker publishes
its result, receives one more URL and, at its `select`, finds the
context cancelled. -/
def deadlineSchedule : List Action :=
  List.replicate 10 Action.produce ++
  [Action.receive 0, Action.receive 1, Action.receive 2, Action.receive 3, Action.receive 4,
   Action.select 0, Action.select 1, Action.select 2, Action.select 3, Action.select 4,
   Action.produce, Action.produce, Action.produce, Action.closeJobs,
   Action.cancel,
   Action.publish 0 ⟨310, 3⟩, Action.publish 1 ⟨420, 0⟩, Action.publish 2 ⟨250, 7⟩,
   Action.publish 3 ⟨780, 1⟩, Action.publish 4 ⟨600, 9⟩,
   Action.receive 0, Action.receive 1, Action.receive 2, Action.receive 3, Action.receive 4,
   Action.select 0, Action.select 1, Action.select 2, Action.select 3, Action.select 4,
   Action.closeResults,
   Action.collect, Action.collect, Action.collect, Action.collect, Action.collect]

/-- The state in which the single worker of a one-URL run has taken the
`default` branch and is crawling. -/
def crawlingState : State :=
  { pending := [], jobs := [], jobsClosed := false, cancelled := false,
    workers := [Worker.crawling "https://golang.org"],
    results := [], resultsClosed := false, collected := [],
    taken := ["https://golang.org"], dropped := [], fault := none }

end ConcurrencyAdvanced.Exercise

namespace ConcurrencyAdvanced.Exercise

/-- The state `deadlineSchedule` ends in, from 5 workers and `sentURLs`. -/
def deadlineFinal : State :=
  { pending := [],
    jobs := ["https://example1.com", "https://example2.com", "https://example3.com"],
    jobsClosed := true, cancelled := true,
    workers := [Worker.exited, Worker.exited, Worker.exited, Worker.exited, Worker.exited],
    results := [], resultsClosed := true,
    collected :=
      [⟨"https://golang.org", 310, true⟩, ⟨"https://github.com", 420, false⟩,
       ⟨"https://google.com", 250, true⟩, ⟨"https://baidu.com", 780, true⟩,
       ⟨"https://zhihu.com", 600, true⟩],
    taken :=
      ["https://golang.org", "https://github.com", "https://google.com", "https://baidu.com",
       "https://zhihu.com", "https://bilibili.com", "https://taobao.com", "https://jd.com",
       "https://weibo.com", "https://douyin.com"],
    dropped :=
      ["https://bilibili.com", "https://taobao.com", "https://jd.com", "https://weibo.com",
       "https://douyin.com"],
    fault := none }

end ConcurrencyAdvanced.Exercise

namespace ConcurrencyAdvanced.Example

/-! ### `demoMutex` and `SafeCounter`: a counter behind a lock

The goroutines of `demoMutex` run
`for j := 0; j < 100; j++ { mu.Lock(); counter++; mu.Unlock() }`;
`SafeCounter.Increment` is `c.mu.Lock(); defer c.mu.Unlock(); c.count++`.
A caller issuing `M` increments is therefore `M` repetitions of: acquire
the lock, read the counter, write the value read plus one, release the
lock.  The read and the write are separate actions, so that the lock,
and not the atomicity of `counter++`, is what excludes a lost update. -/

/-- The `SafeCounter` struct (for `demoMutex`: the pair `counter`, `mu`);
`mu` tells whether the lock is held. -/
structure SafeCounter where
  count : Int
  mu : Bool
  deriving DecidableEq, Repr

/-- Where a caller stands; `left` is the number of increments it has
still to begin. -/
inductive Caller where
  /-- at the loop head, outside the critical section -/
  | idle (left : Nat)
  /-- `Lock()` has returned; about to read the counter -/
  | locked (left : Nat)
  /-- has read `reg` from the counter; about to write `reg + 1` -/
  | loaded (left : Nat) (reg : Int)
  /-- has written; about to `Unlock()` -/
  | stored (left : Nat)
  /-- loop over, `wg.Done()` has run -/
  | done
  deriving DecidableEq, Repr

/-- Whether the caller is between `Lock()` and `Unlock()`. -/
def Caller.inCritical : Caller → Bool
  | .locked _ => true
  | .loaded _ _ => true
  | .stored _ => true
  | _ => false

/-- Whether the caller has finished. -/
def Caller.isDone : Caller → Bool
  | .done => true
  | _ => false

/-- Increments the caller has still to add to the counter. -/
def Caller.owed : Caller → Nat
  | .idle n => n
  | .locked n => n + 1
  | .loaded n _ => n + 1
  | .stored n => n
  | .done => 0

/-- Actions the caller has still to perform. -/
def Caller.remaining : Caller → Nat
  | .idle n => 4 * n + 1
  | .locked n => 4 * n + 4
  | .loaded n _ => 4 * n + 3
  | .stored n => 4 * n + 2
  | .done => 0

/-- The counter and its concurrent callers. -/
structure Locked where
  counter : SafeCounter
  callers : List Caller
  deriving DecidableEq, Repr

/-- `k` callers, each about to issue `m` increments, on a zero counter. -/
def Locked.init (k m : Nat) : Locked :=
  { counter := { count := 0, mu := false }, callers := List.replicate k (Caller.idle m) }

/-- The next action of caller `i`; `none` when it is blocked in `Lock()`
or has finished. -/
def Locked.step (i : Nat) (s : Locked) : Option Locked :=
  match s.callers[i]? with
  | some (.idle 0) => some { s with callers := s.callers.set i .done }
  | some (.idle (n + 1)) =>
    if s.counter.mu then none
    else some { counter := { s.counter with mu := true }, callers := s.callers.set i (.locked n) }
  | some (.locked n) => some { s with callers := s.callers.set i (.loaded n s.counter.count) }
  | some (.loaded n reg) =>
    some { counter := { s.counter with count := reg + 1 }, callers := s.callers.set i (.stored n) }
  | some (.stored n) =>
    some { counter := { s.counter with mu := false }, callers := s.callers.set i (.idle n) }
  | some .done => none
  | none => none

/-- Run a schedule: a list of caller indices, each performing its next action. -/
def Locked.run : List Nat → Locked → Option Locked
  | [], s => some s
  | i :: rest, s => (Locked.step i s).bind (Locked.run rest)

/-- Every caller has finished (`wg.Wait()` can return). -/
def Locked.allDone (s : Locked) : Bool := s.callers.all Caller.isDone

/-- `SafeCounter.Get`, called once no writer holds the lock. -/
def SafeCounter.Get (c : SafeCounter) : Int := c.count

/-- The transitions of `Locked.step`, with the acting caller located by
the callers before it (`pre`) and after it (`post`). -/
inductive LockedStep : Locked → Locked → Prop
  | finish {c : SafeCounter} {pre post : List Caller} :
      LockedStep ⟨c, pre ++ Caller.idle 0 :: post⟩ ⟨c, pre ++ Caller.done :: post⟩
  | lock {v : Int} {n : Nat} {pre post : List Caller} :
      LockedStep ⟨⟨v, false⟩, pre ++ Caller.idle (n + 1) :: post⟩
        ⟨⟨v, true⟩, pre ++ Caller.locked n :: post⟩
  | load {v : Int} {m : Bool} {n : Nat} {pre post : List Caller} :
      LockedStep ⟨⟨v, m⟩, pre ++ Caller.locked n :: post⟩
        ⟨⟨v, m⟩, pre ++ Caller.loaded n v :: post⟩
  | store {v reg : Int} {m : Bool} {n : Nat} {pre post : List Caller} :
      LockedStep ⟨⟨v, m⟩, pre ++ Caller.loaded n reg :: post⟩
        ⟨⟨reg + 1, m⟩, pre ++ Caller.stored n :: post⟩
  | unlock {v : Int} {m : Bool} {n : Nat} {pre post : List Caller} :
      LockedStep ⟨⟨v, m⟩, pre ++ Caller.stored n :: post⟩
        ⟨⟨v, false⟩, pre ++ Caller.idle n :: post⟩

/-- What holds in every reachable state of `k` callers issuing `m`
increments each: the lock is held by exactly the callers inside the
critical section, of which there is at most one; a value read inside
the critical section is still the value of the counter; the counter
plus the increments still owed is `k * m`. -/
structure LockedInv (k m : Nat) (s : Locked) : Prop where
  mutex : s.callers.countP Caller.inCritical = if s.counter.mu then 1 else 0
  fresh : ∀ n reg, Caller.loaded n reg ∈ s.callers → reg = s.counter.count
  total : s.counter.count + ((s.callers.map Caller.owed).sum : Nat) = (k * m : Nat)

end ConcurrencyAdvanced.Example
namespace ConcurrencyAdvanced.Example

/-! ### `demoChannelSafety`: concurrent callers of `ChannelCounter`

`ops` is unbuffered: a send `c.ops <- f` completes together with the
receive of the owner goroutine, which then applies `f` before it
receives again. -/

/-- Where a goroutine of `demoChannelSafety` stands in
`defer wg.Done(); for j := 0; j < 100; j++ { counter.Increment() }`. -/
inductive Sender where
  /-- at the loop head with `left` calls of `Increment` still to make -/
  | sending (left : Nat)
  /-- loop over, `wg.Done()` has run -/
  | done
  deriving DecidableEq, Repr

/-- Whether the goroutine has finished. -/
def Sender.isDone : Sender → Bool
  | .done => true
  | _ => false

/-- Calls of `Increment` the goroutine has still to make. -/
def Sender.left : Sender → Nat
  | .sending n => n
  | .done => 0

/-- Actions the goroutine has still to perform or cause. -/
def Sender.remaining : Sender → Nat
  | .sending n => 2 * n + 1
  | .done => 0

/-- Where the main goroutine stands in `wg.Wait(); counter.Get()`. -/
inductive MainPC where
  /-- in `wg.Wait()` -/
  | waiting
  /-- inside `Get`: the closure is sent, waiting on `result` -/
  | asked
  /-- `Get` has returned `v` -/
  | got (v : Int)
  deriving DecidableEq, Repr

/-- The owner goroutine, the operation it has received and not yet
applied, the incrementing goroutines and the main goroutine. -/
structure Served where
  owner : Owner
  inbox : Option Msg
  senders : List Sender
  main : MainPC
  deriving DecidableEq, Repr

/-- One atomic action. -/
inductive ServedAction where
  /-- sender `i`: `Increment()`, the closure passes to the owner -/
  | send (i : Nat)
  /-- sender `i`: its loop ends -/
  | finish (i : Nat)
  /-- owner: `count = op(count)` for the operation it holds -/
  | apply
  /-- main: `wg.Wait()` returns and `Get` sends its closure -/
  | get
  deriving DecidableEq, Repr

/-- `k` goroutines about to call `Increment` `m` times each, a fresh
`ChannelCounter`, main in `wg.Wait()`. -/
def Served.init (k m : Nat) : Served :=
  { owner := { count := 0, replies := [] }, inbox := none,
    senders := List.replicate k (Sender.sending m), main := MainPC.waiting }

/-- Effect of one action; `none` when it is not enabled. -/
def Served.step (a : ServedAction) (s : Served) : Option Served :=
  match a with
  | .send i =>
    match s.senders[i]?, s.inbox with
    | some (.sending (n + 1)), none =>
      some { s with inbox := some Msg.increment, senders := s.senders.set i (.sending n) }
    | _, _ => none
  | .finish i =>
    match s.senders[i]? with
    | some (.sending 0) => some { s with senders := s.senders.set i .done }
    | _ => none
  | .apply =>
    match s.inbox with
    | none => none
    | some msg =>
      some { s with
        owner := s.owner.apply msg.op
        inbox := none
        main := match (msg.op s.owner.count).2, s.main with
          | some v, .asked => .got v
          | _, pc => pc }
  | .get =>
    match s.main, s.inbox with
    | .waiting, none =>
      if s.senders.all Sender.isDone then
        some { s with inbox := some Msg.get, main := MainPC.asked }
      else none
    | _, _ => none

/-- Run a schedule. -/
def Served.run : List ServedAction → Served → Option Served
  | [], s => some s
  | a :: rest, s => (Served.step a s).bind (Served.run rest)

/-- Increments received by the owner and not yet applied. -/
def Served.inFlight (s : Served) : Nat :=
  match s.inbox with
  | some .increment => 1
  | _ => 0

/-- Number of actions the run can still perform. -/
def Served.remaining (s : Served) : Nat :=
  (s.senders.map Sender.remaining).sum + (if s.inbox.isSome then 1 else 0)
    + (match s.main with | .waiting => 2 | _ => 0)

/-- The transitions of `Served.step`. -/
inductive ServedStep : Served → Served → Prop
  | send {o : Owner} {n : Nat} {pre post : List Sender} {pc : MainPC} :
      ServedStep ⟨o, none, pre ++ Sender.sending (n + 1) :: post, pc⟩
        ⟨o, some Msg.increment, pre ++ Sender.sending n :: post, pc⟩
  | finish {o : Owner} {ib : Option Msg} {pre post : List Sender} {pc : MainPC} :
      ServedStep ⟨o, ib, pre ++ Sender.sending 0 :: post, pc⟩
        ⟨o, ib, pre ++ Sender.done :: post, pc⟩
  | applyIncrement {c : Int} {rs : List (Option Int)} {ss : List Sender} {pc : MainPC} :
      ServedStep ⟨⟨c, rs⟩, some Msg.increment, ss, pc⟩ ⟨⟨c + 1, rs ++ [none]⟩, none, ss, pc⟩
  | applyGetAsked {c : Int} {rs : List (Option Int)} {ss : List Sender} :
      ServedStep ⟨⟨c, rs⟩, some Msg.get, ss, MainPC.asked⟩
        ⟨⟨c, rs ++ [some c]⟩, none, ss, MainPC.got c⟩
  | applyGetOther {c : Int} {rs : List (Option Int)} {ss : List Sender} {pc : MainPC} :
      pc ≠ MainPC.asked →
      ServedStep ⟨⟨c, rs⟩, some Msg.get, ss, pc⟩ ⟨⟨c, rs ++ [some c]⟩, none, ss, pc⟩
  | get {o : Owner} {ss : List Sender} :
      ss.all Sender.isDone = true →
      ServedStep ⟨o, none, ss, MainPC.waiting⟩ ⟨o, some Msg.get, ss, MainPC.asked⟩

/-- What holds in every reachable state of `k` goroutines calling
`Increment` `m` times each. -/
structure ServedInv (k m : Nat) (s : Served) : Prop where
  total : s.owner.count + (s.inFlight : Int) + ((s.senders.map Sender.left).sum : Nat)
    = (k * m : Nat)
  asked : s.main = MainPC.asked ↔ s.inbox = some Msg.get
  afterWait : s.inbox = some Msg.get → s.senders.all Sender.isDone = true
  got : ∀ v, s.main = MainPC.got v →
    v = (k * m : Nat) ∧ s.owner.count = (k * m : Nat) ∧ s.inbox = none
      ∧ s.senders.all Sender.isDone = true

end ConcurrencyAdvanced.Example
namespace ConcurrencyAdvanced.Example

/-- An interleaving of 3 callers issuing 2 locked increments each. -/
def lockedSchedule : List Nat :=
  [0, 0, 0, 0, 1, 1, 1, 1, 2, 2, 2, 2, 1, 1, 1, 1, 1, 0, 0, 0, 0, 2, 2, 2, 2, 0, 2]

/-- The state `lockedSchedule` ends in. -/
def lockedFinal : Locked :=
  { counter := { count := 6, mu := false },
    callers := [Caller.done, Caller.done, Caller.done] }

/-- An interleaving of `demoChannelSafety` with 2 goroutines and 2
increments each, followed by the `Get` of main. -/
def channelSchedule : List ServedAction :=
  [ServedAction.send 0, ServedAction.apply, ServedAction.send 1, ServedAction.apply,
   ServedAction.send 1, ServedAction.finish 1, ServedAction.apply, ServedAction.send 0,
   ServedAction.finish 0, ServedAction.apply, ServedAction.get, ServedAction.apply]

/-- The state `channelSchedule` ends in. -/
def channelFinal : Served :=
  { owner := { count := 4, replies := [none, none, none, none, some 4] }, inbox := none,
    senders := [Sender.done, Sender.done], main := MainPC.got 4 }

end ConcurrencyAdvanced.Example

namespace FunctionsAndMethods.ChallengeTemplate

/-! ### `02_functions_and_methods/challenge_template.go`

A method with a pointer receiver that returns `error` becomes a
function returning the receiver after the call together with the
error (`none` for `nil`), so that "unchanged on failure" is a property
to be proved and not a convention of the embedding.  `int` is 64 bits
wide: sums of `int` values wrap (`wrap64`). -/

/-- The type `OrderStatus` (`type OrderStatus int`). -/
abbrev OrderStatus := Int

/-- `Pending OrderStatus = iota + 1`. -/
def Pending : OrderStatus := 1

/-- The constant `Paid`. -/
def Paid : OrderStatus := 2

/-- The constant `Shipping`. -/
def Shipping : OrderStatus := 3

/-- The constant `Completed`. -/
def Completed : OrderStatus := 4

/-- The constant `Canceled`. -/
def Canceled : OrderStatus := 5

/-- The `Product` struct. -/
structure Product where
  ID : Int
  Name : String
  Price : Float
  Stock : Int

/-- The `OrderItem` struct. -/
structure OrderItem where
  Product : Product
  Quantity : Int

/-- The `Order` struct. -/
structure Order where
  ID : Int
  Items : List OrderItem
  Status : OrderStatus

/-- `Product.IsAvailable`: `return p.Stock >= quantity`. -/
def Product.IsAvailable (p : Product) (quantity : Int) : Bool :=
  decide (p.Stock ≥ quantity)

/-- `Product.UpdateStock`: `newStock := p.Stock + quantity`; an error and
no change `if newStock < 0`, else `p.Stock = newStock`. -/
def Product.UpdateStock (p : Product) (quantity : Int) : Product × Option String :=
  let newStock := wrap64 (p.Stock + quantity)
  if newStock < 0 then
    (p, some ("库存不足，无法减少 " ++ toString (wrap64 (-quantity)) ++ " 件"))
  else ({ p with Stock := newStock }, none)

/-- `Order.GetItemCount`: `count := 0; for _, item := range o.Items { count += item.Quantity }`. -/
def Order.GetItemCount (o : Order) : Int :=
  o.Items.foldl (fun count item => wrap64 (count + item.Quantity)) 0

/-- `Order.AddItem`: three guards, then
`o.Items = append(o.Items, OrderItem{Product: product, Quantity: quantity})`. -/
def Order.AddItem (o : Order) (product : Product) (quantity : Int) : Order × Option String :=
  if quantity ≤ 0 then (o, some "购买数量必须大于0")
  else if !product.IsAvailable quantity then
    (o, some ("商品 " ++ product.Name ++ " 库存不足"))
  else if o.Status ≠ Pending then (o, some "订单已支付，无法修改")
  else ({ o with Items := o.Items ++ [{ Product := product, Quantity := quantity }] }, none)

/-- The message of a refused transition: `无法从 %v 变更到 %v`. -/
def transitionError (old new : OrderStatus) : String :=
  "无法从 " ++ toString old ++ " 变更到 " ++ toString new

/-- `Order.ChangeStatus`: the `switch o.Status` with its four cases; when
no case refuses, `o.Status = newStatus`. -/
def Order.ChangeStatus (o : Order) (newStatus : OrderStatus) : Order × Option String :=
  if o.Status = Pending then
    if newStatus ≠ Paid ∧ newStatus ≠ Canceled then (o, some (transitionError o.Status newStatus))
    else ({ o with Status := newStatus }, none)
  else if o.Status = Paid then
    if newStatus ≠ Shipping ∧ newStatus ≠ Canceled then
      (o, some (transitionError o.Status newStatus))
    else ({ o with Status := newStatus }, none)
  else if o.Status = Shipping then
    if newStatus ≠ Completed then (o, some (transitionError o.Status newStatus))
    else ({ o with Status := newStatus }, none)
  else if o.Status = Completed ∨ o.Status = Canceled then
    (o, some "订单已完成或取消，无法变更状态")
  else ({ o with Status := newStatus }, none)

/-- `Order.Cancel`: an error `if o.Status == Completed || o.Status == Shipping`,
else `o.Status = Canceled`. -/
def Order.Cancel (o : Order) : Order × Option String :=
  if o.Status = Completed ∨ o.Status = Shipping then (o, some "订单已发货，无法取消")
  else ({ o with Status := Canceled }, none)

/-- The loop of `CreateOrder`: `order.AddItem(product, 1)` for each
product, returning `nil, err` at the first error. -/
def createLoop (order : Order) : List Product → Option Order × Option String
  | [] => (some order, none)
  | product :: rest =>
    match order.AddItem product 1 with
    | (order', none) => createLoop order' rest
    | (_, some err) => (none, some err)

/-- `CreateOrder(id, products...)`: the order pointer (`none` for `nil`)
and the error. -/
def CreateOrder (id : Int) (products : List Product) : Option Order × Option String :=
  if products.length = 0 then (none, some "订单必须包含至少一个商品")
  else createLoop { ID := id, Items := [], Status := Pending } products

/-- The products of `main`. -/
def product1 : Product := { ID := 1, Name := "笔记本电脑", Price := 5999.99, Stock := 10 }

/-- The second product of `main`. -/
def product2 : Product := { ID := 2, Name := "智能手机", Price := 3999.50, Stock := 20 }

/-- The third product of `main`. -/
def product3 : Product := { ID := 3, Name := "无线耳机", Price := 799.00, Stock := 15 }

end FunctionsAndMethods.ChallengeTemplate

namespace FunctionsAndMethods.Example

/-! ### `02_functions_and_methods/example.go`: `divide` -/

/-- The function `divide(a, b int) (quotient int, remainder int, err error)`:
for `b == 0` the zero values and an error; else `a / b` and `a % b`, the
truncated quotient and remainder of Go, the quotient reduced to `int`
(`MinInt / -1` overflows to `MinInt`). -/
def divide (a b : Int) : Int × Int × Option String :=
  if b = 0 then (0, 0, some "division by zero")
  else (wrap64 (Int.tdiv a b), Int.tmod a b, none)

end FunctionsAndMethods.Example

namespace FunctionsAndMethods.ErrorDemo

/-! ### `02_functions_and_methods/error_demo.go`: `divide` -/

/-- The function `divide(a, b int) (int, error)`: `0` and an error for
`b == 0`, else `a / b` and `nil`. -/
def divide (a b : Int) : Int × Option String :=
  if b = 0 then (0, some "除数不能为0")
  else (wrap64 (Int.tdiv a b), none)

end FunctionsAndMethods.ErrorDemo

namespace FunctionsAndMethods.ChallengeTemplate

/-- The order of `main` after `CreateOrder(1001, product1, product2)` and
`order.AddItem(product3, 2)`. -/
def order1001 : Order :=
  { ID := 1001,
    Items := [{ Product := product1, Quantity := 1 }, { Product := product2, Quantity := 1 },
              { Product := product3, Quantity := 2 }],
    Status := Pending }

/-- A product whose stock is the largest `int`. -/
def fullStock : Product := { ID := 9, Name := "x", Price := 1.0, Stock := 2 ^ 63 - 1 }

/-- A pending order holding `2^63 - 1` pieces of `fullStock`, as left by
`AddItem(fullStock, 1<<63 - 1)` on an empty pending order. -/
def fullOrder : Order :=
  (Order.AddItem { ID := 1, Items := [], Status := Pending } fullStock (2 ^ 63 - 1)).1

end FunctionsAndMethods.ChallengeTemplate

namespace FunctionsAndMethods.ChallengeTemplate

/-- The order of `main` after the three successful status changes:
`order1001` with Status Completed. -/
def completed1001 : Order := { order1001 with Status := Completed }

end FunctionsAndMethods.ChallengeTemplate

namespace FunctionsAndMethods.ChallengeTemplate

/-- The order `CreateOrder(1001, product1, product2)` returns in `main`. -/
def created1001 : Order :=
  { ID := 1001,
    Items := [{ Product := product1, Quantity := 1 }, { Product := product2, Quantity := 1 }],
    Status := Pending }

end FunctionsAndMethods.ChallengeTemplate

namespace ConcurrencyAdvanced.Example

/-! ### `SafeMap`: a map behind a read/write lock

`Set` runs with the write lock held and `Get` with a read lock held
(`defer` releases it on return), so the calls on one `SafeMap` take
effect one at a time, in the order in which they acquire the lock: a
run is a serial order of operations.  The Go map `data` is a list of
key/value pairs with pairwise distinct keys. -/

/-- The `SafeMap` struct: the contents of `data`. -/
structure SafeMap where
  data : List (String × Int)
  deriving DecidableEq, Repr

/-- `NewSafeMap`: `data: make(map[string]int)`. -/
def NewSafeMap : SafeMap := { data := [] }

/-- `SafeMap.Set`: `m.data[key] = value`, under the write lock. -/
def SafeMap.Set (m : SafeMap) (key : String) (value : Int) : SafeMap :=
  { data := (key, value) :: m.data.filter (fun kv => kv.1 != key) }

/-- `SafeMap.Get`: `val, ok := m.data[key]; return val, ok`, under a read
lock; a missing key gives the zero value and `false`. -/
def SafeMap.Get (m : SafeMap) (key : String) : Int × Bool :=
  match m.data.find? (fun kv => kv.1 == key) with
  | some kv => (kv.2, true)
  | none => (0, false)

/-- An operation on a `SafeMap`. -/
inductive MapOp where
  | set (key : String) (value : Int)
  | get (key : String)
  deriving DecidableEq, Repr

/-- The map after an operation (`Get` changes nothing). -/
def SafeMap.apply (m : SafeMap) : MapOp → SafeMap
  | .set key value => m.Set key value
  | .get _ => m

/-- The map after a serial order of operations. -/
def SafeMap.run (m : SafeMap) (ops : List MapOp) : SafeMap :=
  ops.foldl SafeMap.apply m

/-- The key a `Set` writes. -/
def MapOp.key? : MapOp → Option String
  | .set key _ => some key
  | .get _ => none

/-- The writes of `demoSafeMap`: goroutine `id` calls
`safeMap.Set(fmt.Sprintf("key-%d", id), id*10)`, for `id = 0 .. 9`. -/
def demoWrites : List MapOp :=
  [MapOp.set "key-0" 0, MapOp.set "key-1" 10, MapOp.set "key-2" 20, MapOp.set "key-3" 30,
   MapOp.set "key-4" 40, MapOp.set "key-5" 50, MapOp.set "key-6" 60, MapOp.set "key-7" 70,
   MapOp.set "key-8" 80, MapOp.set "key-9" 90]

end ConcurrencyAdvanced.Example

namespace ConcurrencyAdvanced.Example

/-! ### Contexts (`context.WithCancel`, `context.WithTimeout`)

The demos build their cancellation scopes with package `context` of the
Go standard library.  Its documented behaviour is embedded as follows.
A derived context has a parent (a context created earlier, or
`context.Background()`, which is never done) and an error, `nil` while
the context is active; `<-ctx.Done()` is ready exactly when the error
is not `nil`.  Calling the `cancel` function of a context, or the
passing of its deadline, makes that context and every context derived
from it, directly or not, done if it is not done yet; a context
derived from a context that is already done is done from the start. -/

/-- The value of `ctx.Err()` of a context that is done. -/
inductive CtxErr where
  /-- The error `context.Canceled`. -/
  | canceled
  /-- The error `context.DeadlineExceeded`. -/
  | deadlineExceeded
  deriving DecidableEq, Repr

/-- A context obtained from `WithCancel` or `WithTimeout`: its parent
(`none` for `context.Background()`, else the index of an earlier
context) and `ctx.Err()` (`none` for `nil`). -/
structure Scope where
  parent : Option Nat
  err : Option CtxErr
  deriving DecidableEq, Repr

/-- The contexts created so far, in order of creation. -/
abbrev Scopes := List Scope

/-- Whether `<-ctx.Done()` is ready for context `i`. -/
def Scopes.done (s : Scopes) (i : Nat) : Bool :=
  match s[i]? with
  | some c => c.err.isSome
  | none => false

/-- The value of `ctx.Err()` for context `i`. -/
def Scopes.err (s : Scopes) (i : Nat) : Option CtxErr :=
  (s[i]?).bind (fun c => c.err)

/-- The parent of context `i`, if it is a derived one. -/
def Scopes.parentOf (s : Scopes) (i : Nat) : Option Nat :=
  (s[i]?).bind (fun c => c.parent)

/-- The call `context.WithCancel(parent)` (or `WithTimeout`): a new context, the
last of the list; it is done from the start, with the error of its
parent, when the parent is done. -/
def Scopes.derive (s : Scopes) (parent : Option Nat) : Scopes :=
  s ++ [{ parent := parent.filter (fun p => decide (p < s.length)), err := parent.bind s.err }]

/-- Climbing from context `j` towards the root through at most `fuel`
contexts: whether `i` is met. -/
def climbs (parents : List (Option Nat)) (i : Nat) : Nat → Nat → Bool
  | 0, _ => false
  | fuel + 1, j =>
    j == i ||
      (match (parents[j]?).bind id with
       | some p => climbs parents i fuel p
       | none => false)

/-- Whether context `j` is `i` or is derived, directly or not, from `i`. -/
def Scopes.reaches (s : Scopes) (i j : Nat) : Bool :=
  climbs (s.map (fun c => c.parent)) i (j + 1) j

/-- The `cancel` function of context `i` is called, or its deadline
passes, with `e` the error to report: `i` and the contexts derived from
it that are not done yet become done with error `e`. -/
def Scopes.cancel (s : Scopes) (i : Nat) (e : CtxErr) : Scopes :=
  s.mapIdx (fun j c => if s.reaches i j && c.err.isNone then { c with err := some e } else c)

/-- An operation on the contexts of a program. -/
inductive ScopeOp where
  /-- The call `WithCancel(parent)` or `WithTimeout(parent, d)`. -/
  | derive (parent : Option Nat)
  /-- The `cancel` function of context `i` is called. -/
  | cancel (i : Nat)
  /-- The deadline of context `i` passes. -/
  | deadline (i : Nat)
  deriving DecidableEq, Repr

/-- Effect of one operation. -/
def Scopes.apply (s : Scopes) : ScopeOp → Scopes
  | .derive parent => s.derive parent
  | .cancel i => s.cancel i CtxErr.canceled
  | .deadline i => s.cancel i CtxErr.deadlineExceeded

/-- The contexts after a sequence of operations, starting with none. -/
def Scopes.run (ops : List ScopeOp) : Scopes :=
  ops.foldl Scopes.apply []

end ConcurrencyAdvanced.Example
namespace ConcurrencyAdvanced.Example

/-- Parents are created before their children. -/
def Scopes.WellFormed (s : Scopes) : Prop :=
  ∀ j p, s.parentOf j = some p → p < j

/-- A context whose parent is done is done. -/
def Scopes.Propagated (s : Scopes) : Prop :=
  ∀ j p, s.parentOf j = some p → s.done p = true → s.done j = true

end ConcurrencyAdvanced.Example
namespace ConcurrencyAdvanced.Example.Cascade

/-! ### `demoContextCascade`

The goroutines of the demo: `demoContextCascade` itself, which has
created `rootCtx` and started `level1`, and `level1`, `level2`,
`level3`.  A step is one statement of one goroutine that touches a
context; the sleeps only delay steps and are left to the schedule. -/

/-- Where `demoContextCascade` stands: in its two-second sleep, or past
`rootCancel()`. -/
inductive MainPC where
  | sleeping
  | cancelled
  deriving DecidableEq, Repr

/-- Where `level1` or `level2` stands: before its `WithCancel`, blocked
on `<-ctx.Done()`, past it, or returned (its deferred `cancel()` has
run). -/
inductive LevelPC where
  | entering
  | waiting
  | woken
  | returned
  deriving DecidableEq, Repr

/-- Where `level3` stands: blocked on `<-ctx.Done()`, or past it. -/
inductive LeafPC where
  | waiting
  | woken
  deriving DecidableEq, Repr

/-- State of the demo.  `ctx1` and `ctx2` are the contexts `level1` and
`level2` have derived (`level3` waits on `ctx2`); `level2` and `level3`
are `none` until their `go` statement has run; `cancelCalls` records
which cancel functions have been called, in order. -/
structure State where
  scopes : Scopes
  main : MainPC
  level1 : LevelPC
  ctx1 : Option Nat
  level2 : Option LevelPC
  ctx2 : Option Nat
  level3 : Option LeafPC
  cancelCalls : List Nat
  deriving DecidableEq, Repr

/-- After `context.WithCancel(context.Background())` and `go level1(rootCtx)`. -/
def init : State :=
  { scopes := Scopes.run [ScopeOp.derive none]
    main := MainPC.sleeping
    level1 := LevelPC.entering
    ctx1 := none
    level2 := none
    ctx2 := none
    level3 := none
    cancelCalls := [] }

/-- Whether `<-ctx.Done()` is ready for the context a goroutine holds. -/
def doneAt (s : Scopes) : Option Nat → Bool
  | some i => s.done i
  | none => false

/-- The deferred `cancel()` of the context a goroutine holds. -/
def cancelAt (s : Scopes) : Option Nat → Scopes
  | some i => s.cancel i CtxErr.canceled
  | none => s

/-- The statements of the demo that touch a context. -/
inductive Action where
  /-- The call `rootCancel()` in `demoContextCascade`. -/
  | rootCancel
  /-- In `level1`: `WithCancel(ctx)` and `go level2(ctx)`. -/
  | enter1
  /-- In `level1`: `<-ctx.Done()` returns. -/
  | wake1
  /-- In `level1`: the function returns and its deferred `cancel()` runs. -/
  | return1
  /-- In `level2`: `WithCancel(ctx)` and `go level3(ctx)`. -/
  | enter2
  /-- In `level2`: `<-ctx.Done()` returns. -/
  | wake2
  /-- In `level2`: the function returns and its deferred `cancel()` runs. -/
  | return2
  /-- In `level3`: `<-ctx.Done()` returns. -/
  | wake3
  deriving DecidableEq, Repr

/-- One step; `none` when the goroutine is not at that statement or is
blocked there. -/
def step : Action → State → Option State
  | Action.rootCancel, s =>
    match s.main with
    | MainPC.sleeping =>
      some { s with main := MainPC.cancelled
                    scopes := s.scopes.cancel 0 CtxErr.canceled
                    cancelCalls := s.cancelCalls ++ [0] }
    | MainPC.cancelled => none
  | Action.enter1, s =>
    match s.level1 with
    | LevelPC.entering =>
      some { s with level1 := LevelPC.waiting
                    ctx1 := some s.scopes.length
                    scopes := s.scopes.derive (some 0)
                    level2 := some LevelPC.entering }
    | _ => none
  | Action.wake1, s =>
    match s.level1 with
    | LevelPC.waiting =>
      if doneAt s.scopes s.ctx1 then some { s with level1 := LevelPC.woken } else none
    | _ => none
  | Action.return1, s =>
    match s.level1 with
    | LevelPC.woken =>
      some { s with level1 := LevelPC.returned
                    scopes := cancelAt s.scopes s.ctx1
                    cancelCalls := s.cancelCalls ++ s.ctx1.toList }
    | _ => none
  | Action.enter2, s =>
    match s.level2 with
    | some LevelPC.entering =>
      some { s with level2 := some LevelPC.waiting
                    ctx2 := some s.scopes.length
                    scopes := s.scopes.derive s.ctx1
                    level3 := some LeafPC.waiting }
    | _ => none
  | Action.wake2, s =>
    match s.level2 with
    | some LevelPC.waiting =>
      if doneAt s.scopes s.ctx2 then some { s with level2 := some LevelPC.woken } else none
    | _ => none
  | Action.return2, s =>
    match s.level2 with
    | some LevelPC.woken =>
      some { s with level2 := some LevelPC.returned
                    scopes := cancelAt s.scopes s.ctx2
                    cancelCalls := s.cancelCalls ++ s.ctx2.toList }
    | _ => none
  | Action.wake3, s =>
    match s.level3 with
    | some LeafPC.waiting =>
      if doneAt s.scopes s.ctx2 then some { s with level3 := some LeafPC.woken } else none
    | _ => none

/-- A schedule, run from a state; `none` if one of its steps is not enabled. -/
def run : List Action → State → Option State
  | [], s => some s
  | a :: rest, s => (step a s).bind (run rest)

/-- Every goroutine has passed its `<-ctx.Done()` and the deferred
cancels have run. -/
def finished (s : State) : Bool :=
  s.main == MainPC.cancelled && s.level1 == LevelPC.returned
    && s.level2 == some LevelPC.returned && s.level3 == some LeafPC.woken

/-- Statements left to `level1` or `level2`. -/
def LevelPC.left : LevelPC → Nat
  | LevelPC.entering => 3
  | LevelPC.waiting => 2
  | LevelPC.woken => 1
  | LevelPC.returned => 0

/-- Steps the demo can still take, at most. -/
def remaining (s : State) : Nat :=
  (match s.main with | MainPC.sleeping => 1 | MainPC.cancelled => 0)
    + s.level1.left
    + (match s.level2 with | none => 3 | some pc => pc.left)
    + (match s.level3 with | none => 1 | some LeafPC.waiting => 1 | some LeafPC.woken => 0)

/-- The first `n` contexts of the chain root, `ctx1`, `ctx2`, all active
or all cancelled. -/
def chain (cancelled : Bool) (n : Nat) : Scopes :=
  ([none, some 0, some 1].take n).map
    (fun p => { parent := p, err := if cancelled then some CtxErr.canceled else none })

/-- How many contexts exist, by the program counters. -/
def created (level1 : LevelPC) (level2 : Option LevelPC) : Nat :=
  1 + (if level1 = LevelPC.entering then 0 else 1)
    + (if level2 = none ∨ level2 = some LevelPC.entering then 0 else 1)

/-- Whether `rootCancel()` has been called. -/
def MainPC.isCancelled : MainPC → Bool
  | MainPC.sleeping => false
  | MainPC.cancelled => true

/-- The context `level1` holds, by its program counter. -/
def ctx1Of (level1 : LevelPC) : Option Nat :=
  if level1 = LevelPC.entering then none else some 1

/-- The context `level2` holds and `level3` waits on, by the program
counter of `level2`. -/
def ctx2Of (level2 : Option LevelPC) : Option Nat :=
  if level2 = none ∨ level2 = some LevelPC.entering then none else some 2

/-- What holds in every state the demo reaches. -/
structure Inv (s : State) : Prop where
  scopes_eq : s.scopes = chain s.main.isCancelled (created s.level1 s.level2)
  ctx1_eq : s.ctx1 = ctx1Of s.level1
  ctx2_eq : s.ctx2 = ctx2Of s.level2
  level2_spawned : s.level2 = none ↔ s.level1 = LevelPC.entering
  level3_spawned : s.level3 = none ↔ (s.level2 = none ∨ s.level2 = some LevelPC.entering)
  quiet : s.main = MainPC.sleeping →
    s.cancelCalls = [] ∧ (s.level1 = LevelPC.entering ∨ s.level1 = LevelPC.waiting)
      ∧ (s.level2 = none ∨ s.level2 = some LevelPC.entering ∨ s.level2 = some LevelPC.waiting)
      ∧ (s.level3 = none ∨ s.level3 = some LeafPC.waiting)
  root_first : s.main = MainPC.cancelled → s.cancelCalls.head? = some 0
  own1 : 1 ∈ s.cancelCalls ↔ s.level1 = LevelPC.returned
  own2 : 2 ∈ s.cancelCalls ↔ s.level2 = some LevelPC.returned

/-- The demo after `rootCancel()` with all three levels started. -/
def cancelledState : State :=
  { scopes := chain true 3
    main := MainPC.cancelled
    level1 := LevelPC.waiting
    ctx1 := some 1
    level2 := some LevelPC.waiting
    ctx2 := some 2
    level3 := some LeafPC.waiting
    cancelCalls := [0] }

/-- The demo as it runs: the levels start, two seconds later the root is
cancelled, then the levels wake up and return. -/
def demoSchedule : List Action :=
  [Action.enter1, Action.enter2, Action.rootCancel, Action.wake3, Action.wake2, Action.wake1,
   Action.return2, Action.return1]

/-- Final state of `demoSchedule`. -/
def demoFinal : State :=
  { scopes := chain true 3
    main := MainPC.cancelled
    level1 := LevelPC.returned
    ctx1 := some 1
    level2 := some LevelPC.returned
    ctx2 := some 2
    level3 := some LeafPC.woken
    cancelCalls := [0, 2, 1] }

end ConcurrencyAdvanced.Example.Cascade
namespace ConcurrencyBasics.Exercise

/-! ### The `tasks` channel as its sender sees it

The built-in `close` and the send statement follow the Go language
specification: sending on or closing a channel that is already closed
causes a run-time panic.  Blocking on a full buffer only delays a send
and is left out here. -/

/-- The run-time panics of channel operations. -/
inductive ChanPanic where
  /-- The panic "send on closed channel". -/
  | sendOnClosed
  /-- The panic "close of closed channel". -/
  | closeOfClosed
  deriving DecidableEq, Repr

/-- A channel of tasks: the values sent so far and whether it is closed. -/
structure TaskChan where
  sent : List Task
  closed : Bool
  deriving DecidableEq, Repr

/-- The result of `make(chan Task, 10)`. -/
def TaskChan.make : TaskChan :=
  { sent := [], closed := false }

/-- The statement `tasks <- t`. -/
def TaskChan.send (c : TaskChan) (t : Task) : Except ChanPanic TaskChan :=
  if c.closed then Except.error ChanPanic.sendOnClosed
  else Except.ok { c with sent := c.sent ++ [t] }

/-- The statement `close(tasks)`. -/
def TaskChan.close (c : TaskChan) : Except ChanPanic TaskChan :=
  if c.closed then Except.error ChanPanic.closeOfClosed
  else Except.ok { c with closed := true }

/-- One channel operation of the producer, executed. -/
def ProducerOp.perform : ProducerOp → TaskChan → Except ChanPanic TaskChan
  | ProducerOp.send t, c => c.send t
  | ProducerOp.close, c => c.close

/-- The channel operations of a goroutine, executed in order; the first
panic ends the run. -/
def performAll : List ProducerOp → TaskChan → Except ChanPanic TaskChan
  | [], c => Except.ok c
  | op :: rest, c =>
    match op.perform c with
    | Except.ok c' => performAll rest c'
    | Except.error e => Except.error e

end ConcurrencyBasics.Exercise
namespace ConcurrencyAdvanced.Example

/-- The context operations of `demoContextTimeout`, in the order they
happen: `WithTimeout(context.Background(), 2*time.Second)`, the deadline
passing during the three-second sleep, and the deferred `cancel()`. -/
def demoContextTimeout : List ScopeOp :=
  [ScopeOp.derive none, ScopeOp.deadline 0, ScopeOp.cancel 0]

end ConcurrencyAdvanced.Example

/-! ### `float64`

A `float64` value is NaN, an infinity, or a finite value, which is given
by the rational number it denotes (the two zeros are not told apart:
they compare equal).  Comparisons are those of IEEE 754, which Go
follows: every ordered comparison with NaN is false.  An arithmetic
operation on finite values yields the rounding of the exact result; the
rounding (to nearest, overflowing to an infinity) is a parameter `rnd`
of the operations, and what is proved holds for every rounding, unless
a hypothesis says that a particular result is exact. -/

/-- A value of type `float64`. -/
inductive F64 where
  | nan
  | negInf
  | fin (q : ℚ)
  | posInf
  deriving DecidableEq, Repr

/-- Go's `x < y` on `float64`. -/
def F64.lt : F64 → F64 → Bool
  | F64.nan, _ => false
  | _, F64.nan => false
  | _, F64.negInf => false
  | F64.negInf, _ => true
  | F64.posInf, _ => false
  | F64.fin _, F64.posInf => true
  | F64.fin a, F64.fin b => decide (a < b)

/-- Go's `x <= y` on `float64`. -/
def F64.le : F64 → F64 → Bool
  | F64.nan, _ => false
  | _, F64.nan => false
  | F64.negInf, _ => true
  | _, F64.posInf => true
  | F64.posInf, _ => false
  | F64.fin _, F64.negInf => false
  | F64.fin a, F64.fin b => decide (a ≤ b)

/-- Go's `x > y` on `float64`. -/
def F64.gt (x y : F64) : Bool := F64.lt y x

/-- Go's `x >= y` on `float64`. -/
def F64.ge (x y : F64) : Bool := F64.le y x

/-- Go's `x + y` on `float64`, with `rnd` the rounding of an exact sum. -/
def F64.add (rnd : ℚ → F64) : F64 → F64 → F64
  | F64.nan, _ => F64.nan
  | _, F64.nan => F64.nan
  | F64.posInf, F64.negInf => F64.nan
  | F64.negInf, F64.posInf => F64.nan
  | F64.posInf, _ => F64.posInf
  | _, F64.posInf => F64.posInf
  | F64.negInf, _ => F64.negInf
  | _, F64.negInf => F64.negInf
  | F64.fin a, F64.fin b => rnd (a + b)

/-- Go's `x - y` on `float64`, with `rnd` the rounding of an exact difference. -/
def F64.sub (rnd : ℚ → F64) : F64 → F64 → F64
  | F64.nan, _ => F64.nan
  | _, F64.nan => F64.nan
  | F64.posInf, F64.posInf => F64.nan
  | F64.negInf, F64.negInf => F64.nan
  | F64.posInf, _ => F64.posInf
  | _, F64.negInf => F64.posInf
  | F64.negInf, _ => F64.negInf
  | _, F64.posInf => F64.negInf
  | F64.fin a, F64.fin b => rnd (a - b)

/-- Whether a `float64` is a finite value. -/
def F64.isFinite : F64 → Bool
  | F64.fin _ => true
  | _ => false

/-- The rounding that keeps every result as it is: arithmetic on exact
rationals. -/
def F64.exact (q : ℚ) : F64 := F64.fin q

namespace FunctionsAndMethods.Example

/-- The `BankAccount` struct of `example.go`. -/
structure BankAccount where
  Owner : String
  Balance : F64
  deriving DecidableEq, Repr

/-- `BankAccount.Deposit`: an error `if amount <= 0`, else
`acc.Balance += amount`. -/
def BankAccount.Deposit (rnd : ℚ → F64) (acc : BankAccount) (amount : F64) :
    BankAccount × Option String :=
  if amount.le (F64.fin 0) then (acc, some "存款金额必须大于0")
  else ({ acc with Balance := F64.add rnd acc.Balance amount }, none)

/-- `BankAccount.Withdraw` of `example.go`: the same two checks as in
`error_demo.go`, then `acc.Balance -= amount`. -/
def BankAccount.Withdraw (rnd : ℚ → F64) (acc : BankAccount) (amount : F64) :
    BankAccount × Option String :=
  if amount.le (F64.fin 0) then (acc, some "取款金额必须大于0")
  else if amount.gt acc.Balance then (acc, some "余额不足")
  else ({ acc with Balance := F64.sub rnd acc.Balance amount }, none)

/-- A call of one of the two pointer-receiver methods. -/
inductive AccountOp where
  | deposit (amount : F64)
  | withdraw (amount : F64)
  deriving DecidableEq, Repr

/-- The amount of a call. -/
def AccountOp.amount : AccountOp → F64
  | AccountOp.deposit amount => amount
  | AccountOp.withdraw amount => amount

/-- The account after one call, whether it succeeded or not. -/
def BankAccount.apply (rnd : ℚ → F64) (acc : BankAccount) : AccountOp → BankAccount
  | AccountOp.deposit amount => (acc.Deposit rnd amount).1
  | AccountOp.withdraw amount => (acc.Withdraw rnd amount).1

/-- The account after a sequence of calls. -/
def BankAccount.run (rnd : ℚ → F64) (ops : List AccountOp) (acc : BankAccount) : BankAccount :=
  ops.foldl (BankAccount.apply rnd) acc

end FunctionsAndMethods.Example

namespace FunctionsAndMethods.ErrorDemo

/-- The `BankAccount` struct of `error_demo.go`. -/
structure BankAccount where
  Owner : String
  Balance : F64
  deriving DecidableEq, Repr

/-- `BankAccount.Withdraw` of `error_demo.go`: an error `if amount <= 0`,
an error `if amount > acc.Balance`, else `acc.Balance -= amount`.  The
result is the account after the call and the error (`none` for `nil`);
the numbers formatted into the second message are left out. -/
def BankAccount.Withdraw (rnd : ℚ → F64) (acc : BankAccount) (amount : F64) :
    BankAccount × Option String :=
  if amount.le (F64.fin 0) then (acc, some "取款金额必须大于0")
  else if amount.gt acc.Balance then (acc, some "余额不足")
  else ({ acc with Balance := F64.sub rnd acc.Balance amount }, none)

/-- The same account as a value of the `BankAccount` type of `example.go`. -/
def BankAccount.asExample (acc : BankAccount) : Example.BankAccount :=
  { Owner := acc.Owner, Balance := acc.Balance }

/-- The account of `main`: `BankAccount{Owner: "张三", Balance: 1000}`. -/
def acc : BankAccount := { Owner := "张三", Balance := F64.fin 1000 }

end FunctionsAndMethods.ErrorDemo


namespace FunctionsAndMethods.ExerciseSimple

/-! ### `02_functions_and_methods/exercise_simple.go` -/

/-- The `Student` struct. -/
structure Student where
  ID : Int
  Name : String
  Score : F64
  deriving DecidableEq, Repr

/-- `Student.IsPassed`: `return s.Score >= 60`. -/
def Student.IsPassed (s : Student) : Bool :=
  s.Score.ge (F64.fin 60)

/-- `Student.SetScore`: an error `if score < 0 || score > 100`, else
`s.Score = score`.  The result is the student after the call and the
error (`none` for `nil`). -/
def Student.SetScore (s : Student) (score : F64) : Student × Option String :=
  if score.lt (F64.fin 0) || score.gt (F64.fin 100) then (s, some "分数必须在 0-100 之间")
  else ({ s with Score := score }, none)

/-- `Student.AddBonus`: `newScore := s.Score + bonus`; an error
`if newScore > 100`, else `s.Score = newScore`.  The number formatted
into the message is left out. -/
def Student.AddBonus (rnd : ℚ → F64) (s : Student) (bonus : F64) : Student × Option String :=
  let newScore := F64.add rnd s.Score bonus
  if newScore.gt (F64.fin 100) then (s, some "加分后总分超过100分")
  else ({ s with Score := newScore }, none)

/-- The first student of `main`: `Student{ID: 1, Name: "张三", Score: 85}`. -/
def student1 : Student := { ID := 1, Name := "张三", Score := F64.fin 85 }

/-- The second student of `main`: `Student{ID: 2, Name: "李四", Score: 58}`. -/
def student2 : Student := { ID := 2, Name := "李四", Score := F64.fin 58 }

end FunctionsAndMethods.ExerciseSimple

namespace Slices

/-! ### `slices.SortFunc`

`GetTopStudents` sorts with `slices.SortFunc` of the Go standard library.
Its documentation: it sorts the slice in ascending order as determined by
`cmp`, the sort is not guaranteed to be stable, and `cmp` is required to
be a strict weak ordering, returning a negative number when `a < b`, a
positive number when `a > b` and zero otherwise.  The sort function is a
parameter of the embedding, constrained by `SortFuncSpec`; the library's
insertion sort, which is what `SortFunc` runs on a slice of at most 12
elements, is embedded as `insertionSortCmpFunc`. -/

/-- What `slices.SortFunc` requires of `cmp`, on the elements of the
slice: `cmp a b < 0` is a strict weak ordering (irreflexive, transitive,
with transitive incomparability), and `cmp a b` is positive exactly when
`cmp b a` is negative. -/
structure StrictWeakOn {α : Type} (cmp : α → α → Int) (xs : List α) : Prop where
  irrefl : ∀ a ∈ xs, ¬ cmp a a < 0
  trans : ∀ a ∈ xs, ∀ b ∈ xs, ∀ c ∈ xs, cmp a b < 0 → cmp b c < 0 → cmp a c < 0
  incomp_trans : ∀ a ∈ xs, ∀ b ∈ xs, ∀ c ∈ xs,
    (¬ cmp a b < 0 ∧ ¬ cmp b a < 0) → (¬ cmp b c < 0 ∧ ¬ cmp c b < 0) →
      (¬ cmp a c < 0 ∧ ¬ cmp c a < 0)
  consistent : ∀ a ∈ xs, ∀ b ∈ xs, (0 < cmp a b ↔ cmp b a < 0)

/-- What a slice sorted in ascending order by `cmp` is: no element is
less than an element before it. -/
def Ascending {α : Type} (cmp : α → α → Int) (ys : List α) : Prop :=
  ys.Pairwise (fun a b => ¬ cmp b a < 0)

/-- The behaviour of `slices.SortFunc`: it rearranges the slice (it only
swaps elements), and when `cmp` meets its requirement the result is in
ascending order. -/
structure SortFuncSpec {α : Type} (sortFunc : (α → α → Int) → List α → List α) : Prop where
  perm : ∀ cmp xs, (sortFunc cmp xs).Perm xs
  sorted : ∀ cmp xs, StrictWeakOn cmp xs → Ascending cmp (sortFunc cmp xs)

/-- The inner loop of the library's `insertionSortCmpFunc`,
`for j := i; j > a && cmp(data[j], data[j-1]) < 0; j-- { swap }`:
the element `x` moves left while it is less than its left neighbour.
The argument is the part `data[a:i]` before `x`, last element first, and
so is the result, `data[a:i+1]`. -/
def sink {α : Type} (cmp : α → α → Int) (x : α) : List α → List α
  | [] => [x]
  | y :: more => if cmp x y < 0 then y :: sink cmp x more else x :: y :: more

/-- The library's `insertionSortCmpFunc` on a whole slice:
`for i := a + 1; i < b; i++` runs the inner loop on `data[i]`. -/
def insertionSortCmpFunc {α : Type} (cmp : α → α → Int) (data : List α) : List α :=
  (data.foldl (fun sortedRev x => sink cmp x sortedRev) []).reverse

end Slices

namespace CompositeTypes.Exercise

/-! ### `03_composite_types/exercise.go` -/

/-- The `Student` struct. -/
structure Student where
  ID : Int
  Name : String
  Age : Int
  Class : String
  deriving DecidableEq, Repr

/-- The `ScoreManager` struct; the map `Scores` is the list of its
entries (one per key). -/
structure ScoreManager where
  Students : List Student
  Scores : List (Int × F64)
  deriving DecidableEq, Repr

/-- The map read `sm.Scores[id]`: the zero value 0 for an absent key. -/
def ScoreManager.scoreOf (sm : ScoreManager) (id : Int) : F64 :=
  match sm.Scores.find? (fun kv => kv.1 == id) with
  | some kv => kv.2
  | none => F64.fin 0

/-- The comparison function passed to `slices.SortFunc`: -1 if
`scoreA > scoreB`, 1 if `scoreA < scoreB`, else 0. -/
def ScoreManager.cmp (sm : ScoreManager) (a b : Student) : Int :=
  let scoreA := sm.scoreOf a.ID
  let scoreB := sm.scoreOf b.ID
  if scoreA.gt scoreB then -1
  else if scoreA.lt scoreB then 1
  else 0

/-- `ScoreManager.GetTopStudents`: `nil` if `n <= 0 || len(sm.Students) == 0`;
else `n` is capped at `len(sm.Students)`, a copy of `sm.Students` is
sorted and its first `n` elements are returned.  The result is the
receiver after the call, which the method does not assign to (it sorts
the copy `allStudents`), and the returned slice (`none` for `nil`). -/
def ScoreManager.GetTopStudents (sortFunc : (Student → Student → Int) → List Student → List Student)
    (sm : ScoreManager) (n : Int) : ScoreManager × Option (List Student) :=
  if n ≤ 0 ∨ sm.Students.length = 0 then (sm, none)
  else
    let n := if n > (sm.Students.length : Int) then (sm.Students.length : Int) else n
    let allStudents := sm.Students
    let allStudents := sortFunc sm.cmp allStudents
    (sm, some (allStudents.take n.toNat))

/-- The first student of `main`. -/
def zhangSan : Student := { ID := 1001, Name := "张三", Age := 20, Class := "一班" }

/-- The second student of `main`. -/
def liSi : Student := { ID := 1002, Name := "李四", Age := 21, Class := "一班" }

/-- The third student of `main`. -/
def wangWu : Student := { ID := 1003, Name := "王五", Age := 19, Class := "一班" }

/-- The score manager of `main` after the three students are added and
their scores 95.5, 88.0 and 92.5 are set. -/
def demoManager : ScoreManager :=
  { Students := [zhangSan, liSi, wangWu]
    Scores := [(1001, F64.fin (191 / 2)), (1002, F64.fin 88), (1003, F64.fin (185 / 2))] }

/-- A score manager with the same students, whose scores are 1, NaN and 2. -/
def nanManager : ScoreManager :=
  { Students := [zhangSan, liSi, wangWu]
    Scores := [(1001, F64.fin 1), (1002, F64.nan), (1003, F64.fin 2)] }

end CompositeTypes.Exercise

/-! ## Theorems -/

/-! ### Wrapping arithmetic -/

theorem wrap64_add_wrap64 (a b : Int) : wrap64 (wrap64 a + b) = wrap64 (a + b) := by
  unfold wrap64; omega

theorem wrap64_of_inInt64 {x : Int} (h : inInt64 x) : wrap64 x = x := by
  unfold inInt64 at h; unfold wrap64; omega

theorem wrap64_inInt64 (x : Int) : inInt64 (wrap64 x) := by
  unfold inInt64 wrap64; omega

namespace ConcurrencyAdvanced.Example

/-! ### `ChannelCounter`: the owner folds in arrival order -/

theorem owner_foldl_count (ms : List Msg) (o : Owner) :
    ((ms.map Msg.op).foldl Owner.apply o).count = o.count + (ms.count Msg.increment : Int) := by
  induction ms generalizing o with
  | nil => simp
  | cons m ms ih =>
    cases m
    · simp [ih, Owner.apply, Msg.op, incrementOp, List.count_cons]; ring
    · simp [ih, Owner.apply, Msg.op, getOp, List.count_cons]

theorem owner_foldl_replies (ms : List Msg) (o : Owner) :
    ((ms.map Msg.op).foldl Owner.apply o).replies
      = o.replies ++ (List.range ms.length).map (fun k =>
          match ms[k]? with
          | some Msg.get => some (o.count + ((ms.take k).count Msg.increment : Int))
          | _ => none) := by
  induction ms generalizing o with
  | nil => simp
  | cons m ms ih =>
    rw [List.map_cons, List.foldl_cons, ih]
    simp only [List.length_cons, List.range_succ_eq_map, List.map_cons, List.map_map]
    cases m
    all_goals simp [Owner.apply, Msg.op, incrementOp, getOp, Function.comp_def, List.count_cons]
    intro a _
    cases ms[a]? with
    | none => rfl
    | some m => cases m <;> simp; ring

theorem owner_count (ms : List Msg) :
    (owner (ms.map Msg.op)).count = (ms.count Msg.increment : Int) := by
  simp [owner, owner_foldl_count]

theorem owner_reply_at (ms : List Msg) (k : Nat) (hk : k < ms.length) :
    (owner (ms.map Msg.op)).replies[k]? = some (
      match ms[k]? with
      | some Msg.get => some ((ms.take k).count Msg.increment : Int)
      | _ => none) := by
  simp [owner, owner_foldl_replies, List.getElem?_map, List.getElem?_range hk]

/-- C4. The owner goroutine of ChannelCounter starts from 0 and applies the
operations in arrival order: after any sequence of Increment and Get
messages the count is the number of Increment messages; the Get that
arrives after the messages `pre` is answered with the number of
Increment messages in `pre` and leaves the count as it was; an Increment
sends no reply. -/
theorem channelCounter_owner_folds_in_arrival_order (pre post : List Msg) :
    (owner (pre.map Msg.op)).count = (pre.count Msg.increment : Int)
    ∧ (owner ((pre ++ Msg.get :: post).map Msg.op)).replies[pre.length]?
        = some (some (pre.count Msg.increment : Int))
    ∧ (owner ((pre ++ [Msg.get]).map Msg.op)).count = (owner (pre.map Msg.op)).count
    ∧ (owner ((pre ++ Msg.increment :: post).map Msg.op)).replies[pre.length]? = some none
    ∧ (owner ((pre ++ [Msg.increment]).map Msg.op)).count = (owner (pre.map Msg.op)).count + 1 := by
  have hget : ∀ m : Msg, (pre ++ m :: post)[pre.length]? = some m := by
    intro m
    rw [List.getElem?_append_right (le_refl _)]
    simp
  have htake : ∀ m : Msg, (pre ++ m :: post).take pre.length = pre := by
    intro m
    simp
  refine ⟨owner_count pre, ?_, ?_, ?_, ?_⟩
  · rw [owner_reply_at _ _ (by simp), hget, htake]
  · rw [owner_count, owner_count]
    simp
  · rw [owner_reply_at _ _ (by simp), hget]
  · rw [owner_count, owner_count]
    simp

end ConcurrencyAdvanced.Example

namespace ConcurrencyBasics.Exercise

/-! ### `collector`: the summary after the drain -/

theorem collector_foldl_count (rs : List Result) (c : Collector) :
    (rs.foldl Collector.step c).count = c.count + rs.length := by
  induction rs generalizing c with
  | nil => simp
  | cons r rs ih => simp [ih, Collector.step]; ring

theorem collector_foldl_total (rs : List Result) (c : Collector) :
    wrap64 (rs.foldl Collector.step c).totalDuration
      = wrap64 (c.totalDuration + (rs.map (fun r => r.Duration)).sum) := by
  induction rs generalizing c with
  | nil => simp
  | cons r rs ih =>
    simp only [List.foldl_cons, ih, List.map_cons, List.sum_cons]
    simp only [Collector.step, wrap64_add_wrap64, add_assoc]

theorem collector_foldl_inInt64 (rs : List Result) (c : Collector)
    (h : inInt64 c.totalDuration) :
    inInt64 (rs.foldl Collector.step c).totalDuration := by
  induction rs generalizing c with
  | nil => simpa using h
  | cons r rs ih => exact ih _ (wrap64_inInt64 _)

theorem collectorLoop_count (rs : List Result) : (collectorLoop rs).count = rs.length := by
  simp [collectorLoop, collector_foldl_count]

theorem collectorLoop_total (rs : List Result) :
    (collectorLoop rs).totalDuration = wrap64 ((rs.map (fun r => r.Duration)).sum) := by
  have h1 := collector_foldl_total rs { count := 0, totalDuration := 0 }
  have h2 := collector_foldl_inInt64 rs { count := 0, totalDuration := 0 } (by decide)
  rw [wrap64_of_inInt64 h2] at h1
  simpa [collectorLoop] using h1

/-- C8 (as stated, refuted). Two results whose durations are 2^62 ns each:
the drain leaves totalDuration = -2^63 while the sum of the Duration
fields is 2^63, because `totalDuration += result.Duration` is an int64
addition. -/
theorem collector_totalDuration_not_sum :
    (collector [{ TaskID := 1, WorkerID := 1, Duration := 2 ^ 62 },
                { TaskID := 2, WorkerID := 2, Duration := 2 ^ 62 }]).totalDuration = -(2 ^ 63)
    ∧ ([({ TaskID := 1, WorkerID := 1, Duration := 2 ^ 62 } : Result),
        { TaskID := 2, WorkerID := 2, Duration := 2 ^ 62 }].map (fun r => r.Duration)).sum = 2 ^ 63
    ∧ (collector [{ TaskID := 1, WorkerID := 1, Duration := 2 ^ 62 },
                  { TaskID := 2, WorkerID := 2, Duration := 2 ^ 62 }]).totalDuration
        ≠ ([({ TaskID := 1, WorkerID := 1, Duration := 2 ^ 62 } : Result),
            { TaskID := 2, WorkerID := 2, Duration := 2 ^ 62 }].map (fun r => r.Duration)).sum := by
  refine ⟨by decide, by decide, by decide⟩

/-- C8 (amended). For every finite result stream the summary of collector has
total = number of results received; the cumulative duration is the sum
of the Duration fields reduced to int64, hence the exact sum whenever
that sum lies in the int64 range; the mean is computed once after the
drain, as the truncating quotient totalDuration / count, exactly when at
least one result was received, so the divisor is never zero. -/
theorem collector_summary (results : List Result) :
    (collector results).total = results.length
    ∧ (collector results).totalDuration = wrap64 ((results.map (fun r => r.Duration)).sum)
    ∧ (inInt64 ((results.map (fun r => r.Duration)).sum) →
        (collector results).totalDuration = (results.map (fun r => r.Duration)).sum)
    ∧ (results = [] → (collector results).mean = none)
    ∧ (results ≠ [] → (results.length : Int) ≠ 0 ∧
        (collector results).mean
          = some (Int.tdiv (collector results).totalDuration (results.length : Int))) := by
  refine ⟨collectorLoop_count results, collectorLoop_total results, ?_, ?_, ?_⟩
  · intro h
    exact (collectorLoop_total results).trans (wrap64_of_inInt64 h)
  · intro h
    subst h
    rfl
  · intro h
    have hlen : 0 < results.length := List.length_pos.mpr h
    have hpos : (0 : Int) < (results.length : Int) := by exact_mod_cast hlen
    refine ⟨ne_of_gt hpos, ?_⟩
    simp only [collector, collectorLoop_count]
    rw [if_pos hpos]

/-- C8 witness: three results of 300, 500 and 101 ns give total 3,
cumulative duration 901 and mean 300. -/
theorem collector_summary_witness :
    inInt64 (([{ TaskID := 1, WorkerID := 1, Duration := 300 },
               { TaskID := 2, WorkerID := 2, Duration := 500 },
               { TaskID := 3, WorkerID := 1, Duration := 101 }] : List Result).map
                (fun r => r.Duration)).sum
    ∧ (collector [{ TaskID := 1, WorkerID := 1, Duration := 300 },
                  { TaskID := 2, WorkerID := 2, Duration := 500 },
                  { TaskID := 3, WorkerID := 1, Duration := 101 }]).totalDuration = 901
    ∧ (collector [{ TaskID := 1, WorkerID := 1, Duration := 300 },
                  { TaskID := 2, WorkerID := 2, Duration := 500 },
                  { TaskID := 3, WorkerID := 1, Duration := 101 }]).mean = some 300 := by
  have h := collector_summary [{ TaskID := 1, WorkerID := 1, Duration := 300 },
    { TaskID := 2, WorkerID := 2, Duration := 500 },
    { TaskID := 3, WorkerID := 1, Duration := 101 }]
  refine ⟨by decide, ?_, ?_⟩
  · rw [h.2.2.1 (by decide)]
    decide
  · rw [(h.2.2.2.2 (by simp)).2]
    decide

/-! ### The task producer of `main` -/

theorem producerFrom_shape (timerReady : Nat → Bool) (n i : Nat) :
    ∃ k, k ≤ n ∧
      producerFrom timerReady i n
        = (List.range' i k).map (fun j : Nat => ProducerOp.send { ID := (j : Int) })
            ++ [ProducerOp.close]
      ∧ (∀ j, i ≤ j → j < i + k → timerReady j = false)
      ∧ (k < n → timerReady (i + k) = true) := by
  induction n generalizing i with
  | zero => exact ⟨0, le_refl _, by simp [producerFrom], by intro j h1 h2; omega, by simp⟩
  | succ n ih =>
    by_cases ht : timerReady i = true
    · exact ⟨0, Nat.zero_le _, by simp [producerFrom, ht], by intro j h1 h2; omega, by simp [ht]⟩
    · obtain ⟨k, hk, hshape, hfalse, htrue⟩ := ih (i + 1)
      refine ⟨k + 1, by omega, ?_, ?_, ?_⟩
      · simp [producerFrom, ht, hshape, List.range'_succ]
      · intro j h1 h2
        by_cases hj : j = i
        · subst hj; simpa using ht
        · exact hfalse j (by omega) (by omega)
      · intro h
        have := htrue (by omega)
        rwa [show i + (k + 1) = i + 1 + k by omega]

/-! ### Streaming aggregation -/

theorem collectorLoop_append_count (pre post : List Result) :
    (collectorLoop (pre ++ post)).count = (collectorLoop pre).count + post.length := by
  simp [collectorLoop_count]

end ConcurrencyBasics.Exercise

namespace ConcurrencyAdvanced.Exercise

theorem counters_foldl (rs : List CrawlResult) (c : Counters) :
    (rs.foldl Counters.step c).successCount
        = c.successCount + (rs.countP (fun r => r.Success) : Int)
    ∧ (rs.foldl Counters.step c).failCount
        = c.failCount + (rs.countP (fun r => !r.Success) : Int) := by
  induction rs generalizing c with
  | nil => simp
  | cons r rs ih =>
    rw [List.foldl_cons, (ih _).1, (ih _).2]
    cases hr : r.Success
    · simp [Counters.step, hr, List.countP_cons]; ring
    · simp [Counters.step, hr, List.countP_cons]; ring

theorem countP_success_add_fail (rs : List CrawlResult) :
    rs.countP (fun r => r.Success) + rs.countP (fun r => !r.Success) = rs.length := by
  induction rs with
  | nil => rfl
  | cons r rs ih =>
    cases hr : r.Success <;> simp [List.countP_cons, hr] <;> omega

/-- C9. After the aggregator has consumed any prefix of the result stream,
its total equals the number of results consumed so far: `count` in
collector, `successCount + failCount` in the result loop of the crawler;
consuming more results never decreases the total; in the crawler
successCount is the number of consumed results with Success = true and
failCount the number with Success = false. -/
theorem aggregator_total_is_number_consumed
    (pre post : List ConcurrencyBasics.Exercise.Result) (cpre cpost : List CrawlResult) :
    (ConcurrencyBasics.Exercise.collectorLoop pre).count = pre.length
    ∧ (ConcurrencyBasics.Exercise.collectorLoop pre).count
        ≤ (ConcurrencyBasics.Exercise.collectorLoop (pre ++ post)).count
    ∧ (resultLoop cpre).successCount = (cpre.countP (fun r => r.Success) : Int)
    ∧ (resultLoop cpre).failCount = (cpre.countP (fun r => !r.Success) : Int)
    ∧ (resultLoop cpre).successCount + (resultLoop cpre).failCount = cpre.length
    ∧ (resultLoop cpre).successCount + (resultLoop cpre).failCount
        ≤ (resultLoop (cpre ++ cpost)).successCount + (resultLoop (cpre ++ cpost)).failCount := by
  have hs : ∀ l : List CrawlResult,
      (resultLoop l).successCount = (l.countP (fun r => r.Success) : Int) := by
    intro l
    simpa [resultLoop] using (counters_foldl l { successCount := 0, failCount := 0 }).1
  have hf : ∀ l : List CrawlResult,
      (resultLoop l).failCount = (l.countP (fun r => !r.Success) : Int) := by
    intro l
    simpa [resultLoop] using (counters_foldl l { successCount := 0, failCount := 0 }).2
  have hsum : ∀ l : List CrawlResult,
      (resultLoop l).successCount + (resultLoop l).failCount = l.length := by
    intro l
    rw [hs, hf]
    exact_mod_cast countP_success_add_fail l
  refine ⟨ConcurrencyBasics.Exercise.collectorLoop_count pre, ?_, hs cpre, hf cpre, hsum cpre, ?_⟩
  · rw [ConcurrencyBasics.Exercise.collectorLoop_append_count]
    omega
  · rw [hsum, hsum]
    simp

end ConcurrencyAdvanced.Exercise

/-! ### Lists: replacing one element -/

theorem getElem?_split {α : Type} {l : List α} {i : Nat} {a : α} (h : l[i]? = some a) (b : α) :
    ∃ pre post, l = pre ++ a :: post ∧ l.set i b = pre ++ b :: post ∧ pre.length = i := by
  obtain ⟨hi, ha⟩ := List.getElem?_eq_some.mp h
  refine ⟨l.take i, l.drop (i + 1), ?_, ?_, ?_⟩
  · rw [← ha]
    simp
  · rw [List.set_eq_take_append_cons_drop, if_pos hi]
  · simp [Nat.le_of_lt hi]

namespace Pipeline

variable {τ ρ ε : Type}

/-! ### The pipeline: every transition of `step` is a `Step` -/

theorem step_sound (cfg : Config τ ρ ε) (a : Action ε) (s s' : State τ ρ)
    (h : step cfg a s = some s') : Step cfg s s' := by
  obtain ⟨pend, tasks, tc, ws, res, rc, col, pk⟩ := s
  unfold step at h
  cases pk
  swap
  · simp at h
  simp only [Bool.false_eq_true, if_false] at h
  cases a with
  | produce =>
    cases pend with
    | nil => simp at h
    | cons t rest =>
      cases tc
      · by_cases hc : tasks.length < cfg.tasksCap
        · simp [hc] at h
          subst h
          exact Step.produce hc
        · simp [hc] at h
      · simp at h
        subst h
        exact Step.producePanic
  | closeTasks =>
    cases pend with
    | nil =>
      cases tc
      · simp at h
        subst h
        exact Step.closeTasks
      · simp at h
    | cons t rest => simp at h
  | receive w =>
    simp only at h
    split at h
    · rename_i t rest hw
      obtain ⟨pre, post, h1, h2, _⟩ := getElem?_split hw (Worker.holding t)
      try simp only at h1 h2
      simp only [Option.some.injEq] at h
      subst h
      rw [h2]
      subst h1
      exact Step.receive
    · simp at h
  | exit w =>
    simp only at h
    split at h
    · rename_i hw
      obtain ⟨pre, post, h1, h2, _⟩ := getElem?_split hw Worker.exited
      try simp only at h1 h2
      cases tc
      · simp at h
      · simp only [if_true, Option.some.injEq] at h
        subst h
        rw [h2]
        subst h1
        exact Step.exit
    · simp at h
  | publish w e =>
    simp only at h
    split at h
    · rename_i t hw
      obtain ⟨pre, post, h1, h2, h3⟩ := getElem?_split hw Worker.ranging
      try simp only at h1 h2
      cases rc
      · by_cases hc : res.length < cfg.resultsCap
        · simp only [Bool.false_eq_true, if_false, hc, if_true, Option.some.injEq] at h
          subst h
          rw [h2, ← h3]
          subst h1
          exact Step.publish hc
        · simp [hc] at h
      · simp only [if_true, Option.some.injEq] at h
        subst h
        subst h1
        exact Step.publishPanic
    · simp at h
  | closeResults =>
    cases rc
    · by_cases hall : ws.all Worker.isExited = true
      · simp [hall] at h
        subst h
        exact Step.closeResults hall
      · simp [hall] at h
    · simp at h
  | collect =>
    cases res with
    | nil => simp at h
    | cons r rest =>
      simp at h
      subst h
      exact Step.collect

end Pipeline
namespace Pipeline

variable {τ ρ ε : Type}

/-! ### The pipeline: invariants -/

theorem inv_init (n : Nat) (submitted : List τ) : Inv (init n submitted : State τ ρ) := by
  refine ⟨rfl, ?_, ?_, ?_⟩
  · intro h; simp [init] at h
  · intro h; simp [init] at h
  · intro h
    simp [init, List.mem_replicate] at h

theorem Step.pipeline_inv {cfg : Config τ ρ ε} {s s' : State τ ρ} (hs : Inv s) (h : Step cfg s s') :
    Inv s' := by
  obtain ⟨h1, h2, h3, h4⟩ := hs
  cases h with
  | produce hc =>
    refine ⟨rfl, by simp, h3, ?_⟩
    intro hm
    simpa using (h4 hm).1
  | producePanic => simp at h2
  | closeTasks => exact ⟨rfl, by simp, h3, fun hm => ⟨rfl, (h4 hm).2⟩⟩
  | @receive t pend tasks pre post res col tc rc =>
    simp only [List.mem_append, List.mem_cons, List.all_append, List.all_cons, Bool.and_eq_true,
      Worker.isExited] at h3 h4 ⊢
    refine ⟨rfl, h2, ?_, ?_⟩
    · intro hrc
      simpa using h3 hrc
    · intro hm
      simp only [List.mem_append, List.mem_cons] at hm
      rcases hm with hm | hm | hm
      · simpa using (h4 (Or.inl hm)).2
      · cases hm
      · simpa using (h4 (Or.inr (Or.inr hm))).2
  | @exit pend pre post res col rc =>
    simp only [List.mem_append, List.mem_cons, List.all_append, List.all_cons, Bool.and_eq_true,
      Worker.isExited] at h3 h4 ⊢
    refine ⟨rfl, h2, ?_, fun _ => ⟨rfl, rfl⟩⟩
    intro hrc
    simpa using h3 hrc
  | @publish t e pend tasks pre post res col tc hc =>
    simp only [List.mem_append, List.mem_cons, List.all_append, List.all_cons, Bool.and_eq_true,
      Worker.isExited] at h3 h4 ⊢
    refine ⟨rfl, h2, by simp, ?_⟩
    intro hm
    simp only [List.mem_append, List.mem_cons] at hm
    rcases hm with hm | hm | hm
    · exact h4 (Or.inl hm)
    · cases hm
    · exact h4 (Or.inr (Or.inr hm))
  | @publishPanic t pend tasks pre post res col tc =>
    have := h3 rfl
    simp [Worker.isExited] at this
  | closeResults hall => exact ⟨rfl, h2, fun _ => hall, h4⟩
  | collect => exact ⟨rfl, h2, h3, h4⟩

theorem run_inv (cfg : Config τ ρ ε) (sched : List (Action ε)) (s s' : State τ ρ)
    (hs : Inv s) (h : run cfg sched s = some s') : Inv s' := by
  induction sched generalizing s with
  | nil =>
    simp only [run, Option.some.injEq] at h
    exact h ▸ hs
  | cons a rest ih =>
    simp only [run, Option.bind_eq_some] at h
    obtain ⟨s1, h1, h2⟩ := h
    exact ih s1 (Step.pipeline_inv hs (step_sound cfg a s s1 h1)) h2

theorem Step.flow {κ : Type} {cfg : Config τ ρ ε} {tid : τ → κ} {rid : ρ → κ}
    (hid : ∀ w t e, rid (cfg.handle w t e) = tid t) {submitted : List τ} {s s' : State τ ρ}
    (hs : Flow tid rid submitted s) (h : Step cfg s s') : Flow tid rid submitted s' := by
  unfold Flow at hs ⊢
  rw [hs]
  cases h <;>
    simp only [State.published, State.inflight, List.map_append, List.map_cons, List.map_nil,
      List.filterMap_append, List.filterMap_cons, Worker.task?, ← Multiset.coe_add,
      ← Multiset.cons_coe, ← Multiset.singleton_add, Multiset.coe_nil, add_zero, zero_add, hid] <;>
    abel

end Pipeline
namespace Pipeline

variable {τ ρ ε : Type}

theorem run_flow {κ : Type} (cfg : Config τ ρ ε) (tid : τ → κ) (rid : ρ → κ)
    (hid : ∀ w t e, rid (cfg.handle w t e) = tid t) (submitted : List τ)
    (sched : List (Action ε)) (s s' : State τ ρ)
    (hs : Flow tid rid submitted s) (h : run cfg sched s = some s') :
    Flow tid rid submitted s' := by
  induction sched generalizing s with
  | nil =>
    simp only [run, Option.some.injEq] at h
    exact h ▸ hs
  | cons a rest ih =>
    simp only [run, Option.bind_eq_some] at h
    obtain ⟨s1, h1, h2⟩ := h
    exact ih s1 (Step.flow hid hs (step_sound cfg a s s1 h1)) h2

theorem flow_init {κ : Type} (tid : τ → κ) (rid : ρ → κ) (n : Nat) (submitted : List τ) :
    Flow tid rid submitted (init n submitted : State τ ρ) := by
  have h : (List.replicate n (Worker.ranging : Worker τ)).filterMap Worker.task? = [] := by
    rw [List.filterMap_eq_nil_iff]
    intro w hw
    rw [List.eq_of_mem_replicate hw]
    rfl
  simp [Flow, init, State.published, State.inflight, h]

theorem single_of_length_one {α : Type} {pre post : List α} {x : α}
    (h : (pre ++ x :: post).length = 1) : pre = [] ∧ post = [] := by
  simp only [List.length_append, List.length_cons] at h
  exact ⟨List.eq_nil_of_length_eq_zero (by omega), List.eq_nil_of_length_eq_zero (by omega)⟩

theorem Step.ordered {κ : Type} {cfg : Config τ ρ ε} {tid : τ → κ} {rid : ρ → κ}
    (hid : ∀ w t e, rid (cfg.handle w t e) = tid t) {submitted : List τ} {s s' : State τ ρ}
    (hs : Ordered tid rid submitted s) (h : Step cfg s s') : Ordered tid rid submitted s' := by
  obtain ⟨hlen, hs⟩ := hs
  unfold Ordered
  rw [hs]
  cases h with
  | produce hc => exact ⟨hlen, by simp [State.published, State.inflight]⟩
  | producePanic => exact ⟨hlen, rfl⟩
  | closeTasks => exact ⟨hlen, rfl⟩
  | @receive t pend tasks pre post res col tc rc =>
    obtain ⟨rfl, rfl⟩ := single_of_length_one hlen
    exact ⟨rfl, by simp [State.published, State.inflight, Worker.task?]⟩
  | @exit pend pre post res col rc =>
    obtain ⟨rfl, rfl⟩ := single_of_length_one hlen
    exact ⟨rfl, by simp [State.published, State.inflight, Worker.task?]⟩
  | @publish t e pend tasks pre post res col tc hc =>
    obtain ⟨rfl, rfl⟩ := single_of_length_one hlen
    exact ⟨rfl, by simp [State.published, State.inflight, Worker.task?, hid]⟩
  | publishPanic => exact ⟨hlen, rfl⟩
  | closeResults hall => exact ⟨hlen, rfl⟩
  | collect => exact ⟨hlen, by simp [State.published, State.inflight]⟩

theorem run_ordered {κ : Type} (cfg : Config τ ρ ε) (tid : τ → κ) (rid : ρ → κ)
    (hid : ∀ w t e, rid (cfg.handle w t e) = tid t) (submitted : List τ)
    (sched : List (Action ε)) (s s' : State τ ρ)
    (hs : Ordered tid rid submitted s) (h : run cfg sched s = some s') :
    Ordered tid rid submitted s' := by
  induction sched generalizing s with
  | nil =>
    simp only [run, Option.some.injEq] at h
    exact h ▸ hs
  | cons a rest ih =>
    simp only [run, Option.bind_eq_some] at h
    obtain ⟨s1, h1, h2⟩ := h
    exact ih s1 (Step.ordered hid hs (step_sound cfg a s s1 h1)) h2

theorem ordered_init {κ : Type} (tid : τ → κ) (rid : ρ → κ) (submitted : List τ) :
    Ordered tid rid submitted (init 1 submitted : State τ ρ) := by
  simp [Ordered, init, State.published, State.inflight, Worker.task?]

/-- Once every worker has returned nothing is held, buffered or pending. -/
theorem drained_of_allExited {s : State τ ρ} (hs : Inv s) (hne : s.workers ≠ [])
    (hall : s.allExited = true) : s.inflight = [] ∧ s.tasks = [] ∧ s.pending = [] := by
  have hex : ∀ w ∈ s.workers, w = Worker.exited := by
    intro w hw
    have := List.all_eq_true.mp hall w hw
    cases w <;> simp_all [Worker.isExited]
  obtain ⟨w, hw⟩ := List.exists_mem_of_ne_nil _ hne
  have hmem : Worker.exited ∈ s.workers := hex w hw ▸ hw
  obtain ⟨hc, ht⟩ := hs.exitedAfterDrain hmem
  refine ⟨?_, ht, hs.closedAfterLastSend hc⟩
  unfold State.inflight
  rw [List.filterMap_eq_nil_iff]
  intro w hw
  rw [hex w hw]
  rfl

theorem workers_length_step {cfg : Config τ ρ ε} {s s' : State τ ρ} (h : Step cfg s s') :
    s'.workers.length = s.workers.length := by
  cases h <;> simp

theorem run_workers_length (cfg : Config τ ρ ε) (sched : List (Action ε)) (s s' : State τ ρ)
    (h : run cfg sched s = some s') : s'.workers.length = s.workers.length := by
  induction sched generalizing s with
  | nil =>
    simp only [run, Option.some.injEq] at h
    rw [h]
  | cons a rest ih =>
    simp only [run, Option.bind_eq_some] at h
    obtain ⟨s1, h1, h2⟩ := h
    rw [ih s1 h2, workers_length_step (step_sound cfg a s s1 h1)]

end Pipeline
namespace Pipeline

variable {τ ρ ε : Type}

/-! ### The pipeline: termination and absence of deadlock -/

theorem Step.pipeline_remaining {cfg : Config τ ρ ε} {s s' : State τ ρ} (h : Step cfg s s')
    (hp : s'.panicked = false) : s'.remaining + 1 = s.remaining := by
  cases h <;>
    simp only [State.remaining, List.length_append, List.length_cons, List.length_nil,
      List.map_append, List.map_cons, List.sum_append, List.sum_cons, Bool.false_eq_true,
      if_true, if_false] at hp ⊢ <;>
    first
      | omega
      | exact absurd hp (by simp)

theorem run_remaining (cfg : Config τ ρ ε) (sched : List (Action ε)) (s s' : State τ ρ)
    (hs : Inv s) (h : run cfg sched s = some s') :
    sched.length + s'.remaining = s.remaining := by
  induction sched generalizing s with
  | nil =>
    simp only [run, Option.some.injEq] at h
    simp [h]
  | cons a rest ih =>
    simp only [run, Option.bind_eq_some] at h
    obtain ⟨s1, h1, h2⟩ := h
    have hstep := step_sound cfg a s s1 h1
    have hinv := Step.pipeline_inv hs hstep
    have := ih s1 hinv h2
    have := Step.pipeline_remaining hstep hinv.noPanic
    simp only [List.length_cons]
    omega

theorem remaining_init (n : Nat) (submitted : List τ) :
    (init n submitted : State τ ρ).remaining = 4 * submitted.length + n + 2 := by
  simp [State.remaining, init]

theorem workers_classify (ws : List (Worker τ)) :
    (∃ i : Nat, ws[i]? = some Worker.ranging) ∨ (∃ (i : Nat) (t : τ), ws[i]? = some (Worker.holding t))
      ∨ ws.all Worker.isExited = true := by
  induction ws with
  | nil => exact Or.inr (Or.inr rfl)
  | cons w ws ih =>
    cases w with
    | ranging => exact Or.inl ⟨0, by simp⟩
    | holding t => exact Or.inr (Or.inl ⟨0, t, by simp⟩)
    | exited =>
      rcases ih with ⟨i, hi⟩ | ⟨i, t, hi⟩ | hall
      · exact Or.inl ⟨i + 1, by simpa using hi⟩
      · exact Or.inr (Or.inl ⟨i + 1, t, by simpa using hi⟩)
      · exact Or.inr (Or.inr (by simpa [Worker.isExited] using hall))

/-- No deadlock: in a reachable state of a pipeline with at least one
worker and buffered channels, some goroutine can act unless the run is
complete. -/
theorem progress [Inhabited ε] (cfg : Config τ ρ ε) (s : State τ ρ) (hs : Inv s)
    (hcap : 0 < cfg.tasksCap) (hrcap : 0 < cfg.resultsCap) (hne : s.workers ≠ [])
    (hc : s.complete = false) : ∃ a, (step cfg a s).isSome = true := by
  obtain ⟨h1, h2, h3, h4⟩ := hs
  obtain ⟨pend, tasks, tc, ws, res, rc, col, pk⟩ := s
  simp only at h1 h2 h3 h4 hne
  subst h1
  rcases workers_classify ws with ⟨i, hi⟩ | ⟨i, t, hi⟩ | hall
  · cases tasks with
    | cons t rest => exact ⟨Action.receive i, by simp [step, hi]⟩
    | nil =>
      cases tc
      · cases pend with
        | nil => exact ⟨Action.closeTasks, by simp [step]⟩
        | cons t rest => exact ⟨Action.produce, by simp [step, hcap]⟩
      · exact ⟨Action.exit i, by simp [step, hi]⟩
  · have hrc : rc = false := by
      cases rc
      · rfl
      · have hall := h3 rfl
        have hmem := List.getElem?_mem hi
        have := List.all_eq_true.mp hall _ hmem
        simp [Worker.isExited] at this
    subst hrc
    by_cases hlt : res.length < cfg.resultsCap
    · exact ⟨Action.publish i default, by simp [step, hi, hlt]⟩
    · cases res with
      | nil => exact absurd hrcap (by simpa using hlt)
      | cons r rest => exact ⟨Action.collect, by simp [step]⟩
  · cases rc
    · exact ⟨Action.closeResults, by simp [step, hall]⟩
    · cases res with
      | cons r rest => exact ⟨Action.collect, by simp [step]⟩
      | nil =>
        obtain ⟨w, hw⟩ := List.exists_mem_of_ne_nil _ hne
        have hwe : w = Worker.exited := by
          have := List.all_eq_true.mp hall w hw
          cases w <;> simp_all [Worker.isExited]
        have htc := (h4 (hwe ▸ hw)).1
        simp [State.complete, State.allExited, hall, htc] at hc

end Pipeline

namespace ConcurrencyAdvanced.Exercise

/-! ### The crawler: every transition of `step` is a `Step` -/

theorem crawl_step_sound (handler : Handler) (a : Action) (s s' : State)
    (h : step handler a s = some s') : Step handler s s' := by
  obtain ⟨pend, jobs, jc, cn, ws, res, rc, col, tk, dr, ft⟩ := s
  unfold step at h
  cases ft
  swap
  · simp at h
  simp only [Option.isSome_none, Bool.false_eq_true, if_false] at h
  cases a with
  | produce =>
    cases pend with
    | nil => simp at h
    | cons t rest =>
      cases jc
      · by_cases hc : jobs.length < jobsCap
        · simp [hc] at h
          subst h
          exact Step.produce hc
        · simp [hc] at h
      · simp at h
        subst h
        exact Step.produceClosed
  | closeJobs =>
    cases pend with
    | nil =>
      cases jc
      · simp at h
        subst h
        exact Step.closeJobs
      · simp at h
    | cons t rest => simp at h
  | cancel =>
    cases cn
    · simp at h
      subst h
      exact Step.cancel
    · simp at h
  | receive w =>
    simp only at h
    split at h
    · rename_i url rest hw
      obtain ⟨pre, post, h1, h2, _⟩ := getElem?_split hw (Worker.selecting url)
      simp only [Option.some.injEq] at h
      subst h
      rw [h2]
      subst h1
      exact Step.receive
    · simp at h
  | exit w =>
    simp only at h
    split at h
    · rename_i hw
      obtain ⟨pre, post, h1, h2, _⟩ := getElem?_split hw Worker.exited
      cases jc
      · simp at h
      · simp only [if_true, Option.some.injEq] at h
        subst h
        rw [h2]
        subst h1
        exact Step.exit
    · simp at h
  | select w =>
    simp only at h
    split at h
    · rename_i url hw
      cases cn
      · obtain ⟨pre, post, h1, h2, _⟩ := getElem?_split hw (Worker.crawling url)
        simp only [Bool.false_eq_true, if_false, Option.some.injEq] at h
        subst h
        rw [h2]
        subst h1
        exact Step.selectDefault
      · obtain ⟨pre, post, h1, h2, _⟩ := getElem?_split hw Worker.exited
        simp only [if_true, Option.some.injEq] at h
        subst h
        rw [h2]
        subst h1
        exact Step.selectCancelled
    · simp at h
  | publish w e =>
    simp only at h
    split at h
    · rename_i url hw
      obtain ⟨pre, post, h1, h2, _⟩ := getElem?_split hw Worker.ranging
      cases hh : handler url e with
      | none =>
        simp only [hh, Option.some.injEq] at h
        subst h
        subst h1
        exact Step.handlerPanic hh
      | some r =>
        simp only [hh] at h
        cases rc
        · by_cases hc : res.length < resultsCap
          · simp only [Bool.false_eq_true, if_false, hc, if_true, Option.some.injEq] at h
            subst h
            rw [h2]
            subst h1
            exact Step.publish hh hc
          · simp [hc] at h
        · simp only [if_true, Option.some.injEq] at h
          subst h
          subst h1
          exact Step.publishClosed hh
    · simp at h
  | closeResults =>
    cases rc
    · by_cases hall : ws.all Worker.isExited = true
      · simp [hall] at h
        subst h
        exact Step.closeResults hall
      · simp [hall] at h
    · simp at h
  | collect =>
    cases res with
    | nil => simp at h
    | cons r rest =>
      simp at h
      subst h
      exact Step.collect

end ConcurrencyAdvanced.Exercise
namespace ConcurrencyAdvanced.Exercise

/-! ### The crawler: invariants -/

theorem crawl_inv_init (n : Nat) (toSend : List String) : Inv (init n toSend) := by
  refine ⟨by simp [init], ?_, ?_, by simp [init], by simp [init]⟩
  · intro h; simp [init] at h
  · intro h; simp [init] at h

theorem Step.crawl_inv {handler : Handler} {s s' : State} (hs : Inv s) (h : Step handler s s') :
    Inv s' := by
  obtain ⟨h1, h2, h3, h4, h5⟩ := hs
  cases h with
  | produce hc => exact ⟨by simp, by simp, h3, h4, h5⟩
  | produceClosed => simp at h2
  | closeJobs => exact ⟨by simp, by simp, h3, h4, h5⟩
  | cancel => exact ⟨by simp, h2, h3, h4, fun _ => rfl⟩
  | @receive url pend jobs jc cn pre post res rc col tk dr =>
    simp only [List.all_append, List.all_cons, Bool.and_eq_true, List.countP_append,
      List.countP_cons, Worker.isExited] at h3 h4 ⊢
    refine ⟨by simp, h2, ?_, ?_, h5⟩
    · intro hrc
      simpa [Worker.isExited] using h3 hrc
    · simpa [List.countP_append, List.countP_cons, Worker.isExited] using h4
  | @exit pend cn pre post res rc col tk dr =>
    simp only [List.all_append, List.all_cons, Bool.and_eq_true, List.countP_append,
      List.countP_cons, Worker.isExited] at h3 h4 ⊢
    refine ⟨by simp, h2, ?_, ?_, h5⟩
    · intro hrc
      simpa [Worker.isExited] using h3 hrc
    · simp only [List.countP_append, List.countP_cons, Worker.isExited]
      simp only [Bool.false_eq_true, if_false] at h4
      omega
  | @selectCancelled url pend jobs jc pre post res rc col tk dr =>
    simp only [List.all_append, List.all_cons, Bool.and_eq_true, List.countP_append,
      List.countP_cons, Worker.isExited] at h3 h4 ⊢
    refine ⟨by simp, h2, ?_, ?_, fun _ => rfl⟩
    · intro hrc
      simpa [Worker.isExited] using h3 hrc
    · simp only [List.countP_append, List.countP_cons, Worker.isExited, List.length_append,
        List.length_cons, List.length_nil]
      simp only [Bool.false_eq_true, if_false] at h4
      simp only [if_true]
      omega
  | @selectDefault url pend jobs jc pre post res rc col tk dr =>
    simp only [List.all_append, List.all_cons, Bool.and_eq_true, List.countP_append,
      List.countP_cons, Worker.isExited] at h3 h4 ⊢
    refine ⟨by simp, h2, ?_, ?_, h5⟩
    · intro hrc
      simpa [Worker.isExited] using h3 hrc
    · simpa [List.countP_append, List.countP_cons, Worker.isExited] using h4
  | @publish url e r pend jobs jc cn pre post res col tk dr hh hc =>
    simp only [List.all_append, List.all_cons, Bool.and_eq_true, List.countP_append,
      List.countP_cons, Worker.isExited] at h3 h4 ⊢
    refine ⟨by simp, h2, by simp, ?_, h5⟩
    simpa [List.countP_append, List.countP_cons, Worker.isExited] using h4
  | @publishClosed url e r pend jobs jc cn pre post res col tk dr hh =>
    have := h3 rfl
    simp [Worker.isExited] at this
  | handlerPanic hh => exact ⟨by simp, h2, h3, h4, h5⟩
  | closeResults hall => exact ⟨by simp, h2, fun _ => hall, h4, h5⟩
  | collect => exact ⟨by simp, h2, h3, h4, h5⟩

theorem crawl_run_inv (handler : Handler) (sched : List Action) (s s' : State)
    (hs : Inv s) (h : run handler sched s = some s') : Inv s' := by
  induction sched generalizing s with
  | nil =>
    simp only [run, Option.some.injEq] at h
    exact h ▸ hs
  | cons a rest ih =>
    simp only [run, Option.bind_eq_some] at h
    obtain ⟨s1, h1, h2⟩ := h
    exact ih s1 (Step.crawl_inv hs (crawl_step_sound handler a s s1 h1)) h2

theorem Step.accounted {handler : Handler}
    (hurl : ∀ url e r, handler url e = some r → r.URL = url) {s s' : State}
    (hs : Accounted s) (h : Step handler s s') : Accounted s' := by
  unfold Accounted at hs ⊢
  cases h with
  | @publish url e r pend jobs jc cn pre post res col tk dr hh hc =>
    simp only [State.published, State.inflight, List.map_append, List.map_cons, List.map_nil,
      List.filterMap_append, List.filterMap_cons, Worker.url?, ← Multiset.coe_add,
      ← Multiset.cons_coe, ← Multiset.singleton_add, Multiset.coe_nil, add_zero, zero_add,
      hurl url e r hh] at hs ⊢
    rw [hs]
    abel
  | _ =>
    simp only [State.published, State.inflight, List.map_append, List.map_cons, List.map_nil,
      List.filterMap_append, List.filterMap_cons, Worker.url?, ← Multiset.coe_add,
      ← Multiset.cons_coe, ← Multiset.singleton_add, Multiset.coe_nil, add_zero, zero_add]
      at hs ⊢
    first
      | exact hs
      | (rw [hs]; abel)

theorem run_accounted (handler : Handler)
    (hurl : ∀ url e r, handler url e = some r → r.URL = url)
    (sched : List Action) (s s' : State)
    (hs : Accounted s) (h : run handler sched s = some s') : Accounted s' := by
  induction sched generalizing s with
  | nil =>
    simp only [run, Option.some.injEq] at h
    exact h ▸ hs
  | cons a rest ih =>
    simp only [run, Option.bind_eq_some] at h
    obtain ⟨s1, h1, h2⟩ := h
    exact ih s1 (Step.accounted hurl hs (crawl_step_sound handler a s s1 h1)) h2

theorem accounted_init (n : Nat) (toSend : List String) : Accounted (init n toSend) := by
  have h : (List.replicate n Worker.ranging).filterMap Worker.url? = [] := by
    rw [List.filterMap_eq_nil_iff]
    intro w hw
    rw [List.eq_of_mem_replicate hw]
    rfl
  simp [Accounted, init, State.published, State.inflight, h]

theorem crawlHandler_url (url : String) (e : Env) (r : CrawlResult)
    (h : crawlHandler url e = some r) : r.URL = url := by
  simp only [crawlHandler, Option.some.injEq] at h
  rw [← h]
  rfl

theorem Step.noFault {s s' : State} (h : Step crawlHandler s s') (hs : Inv s) :
    s'.fault = none := by
  have hinv := Step.crawl_inv hs h
  cases h with
  | produceClosed => exact absurd rfl hinv.noSendOnClosed
  | publishClosed hh => exact absurd rfl hinv.noSendOnClosed
  | handlerPanic hh => simp [crawlHandler] at hh
  | _ => rfl

theorem run_noFault (sched : List Action) (s s' : State)
    (hs : Inv s) (hf : s.fault = none) (h : run crawlHandler sched s = some s') :
    s'.fault = none := by
  induction sched generalizing s with
  | nil =>
    simp only [run, Option.some.injEq] at h
    exact h ▸ hf
  | cons a rest ih =>
    simp only [run, Option.bind_eq_some] at h
    obtain ⟨s1, h1, h2⟩ := h
    have hstep := crawl_step_sound crawlHandler a s s1 h1
    exact ih s1 (Step.crawl_inv hs hstep) (Step.noFault hstep hs) h2

end ConcurrencyAdvanced.Exercise

namespace Pipeline

variable {τ ρ ε : Type}

/-! ### The pipeline: what a run delivers -/

theorem remaining_of_complete {s : State τ ρ} (hs : Inv s) (hne : s.workers ≠ [])
    (hc : s.complete = true) : s.remaining = 0 := by
  simp only [State.complete, Bool.and_eq_true, List.isEmpty_iff] at hc
  obtain ⟨⟨⟨htc, hall⟩, hrc⟩, hres⟩ := hc
  obtain ⟨_, ht, hp⟩ := drained_of_allExited hs hne hall
  have hex : ∀ w ∈ s.workers, w = Worker.exited := by
    intro w hw
    have := List.all_eq_true.mp hall w hw
    cases w <;> simp_all [Worker.isExited]
  have hsum : (s.workers.map (fun w => match w with
      | .ranging => 1 | .holding _ => 3 | .exited => 0)).sum = 0 := by
    apply List.sum_eq_zero
    intro x hx
    obtain ⟨w, hw, rfl⟩ := List.mem_map.mp hx
    rw [hex w hw]
  simp [State.remaining, hp, ht, hsum, hres, htc, hrc]

/-- What every run of a pipeline with `n ≥ 1` workers delivers. -/
theorem run_delivers {κ : Type} (cfg : Config τ ρ ε) (tid : τ → κ) (rid : ρ → κ)
    (hid : ∀ w t e, rid (cfg.handle w t e) = tid t) (n : Nat) (hn : 1 ≤ n)
    (submitted : List τ) (sched : List (Action ε)) (s : State τ ρ)
    (h : run cfg sched (init n submitted) = some s) :
    (s.allExited = true →
        (s.published.map rid).Perm (submitted.map tid)
        ∧ s.published.length = submitted.length)
    ∧ (s.complete = true →
        (s.collected.map rid).Perm (submitted.map tid)
        ∧ s.collected.length = submitted.length
        ∧ sched.length = 4 * submitted.length + n + 2)
    ∧ sched.length ≤ 4 * submitted.length + n + 2 := by
  have hinv := run_inv cfg sched _ s (inv_init n submitted) h
  have hflow := run_flow cfg tid rid hid submitted sched _ s (flow_init tid rid n submitted) h
  have hlen := run_workers_length cfg sched _ s h
  have hrem := run_remaining cfg sched _ s (inv_init n submitted) h
  rw [remaining_init] at hrem
  have hne : s.workers ≠ [] := by
    intro h0
    rw [h0] at hlen
    simp [init] at hlen
    omega
  have hpub : s.allExited = true →
      (s.published.map rid).Perm (submitted.map tid)
      ∧ s.published.length = submitted.length := by
    intro hall
    obtain ⟨hi, ht, hp⟩ := drained_of_allExited hinv hne hall
    unfold Flow at hflow
    rw [hi, ht, hp] at hflow
    simp only [List.map_nil, Multiset.coe_nil, add_zero] at hflow
    have hperm : (s.published.map rid).Perm (submitted.map tid) :=
      (Multiset.coe_eq_coe.mp hflow).symm
    exact ⟨hperm, by simpa using hperm.length_eq⟩
  refine ⟨hpub, ?_, by omega⟩
  intro hc
  have hrem0 := remaining_of_complete hinv hne hc
  simp only [State.complete, Bool.and_eq_true, List.isEmpty_iff] at hc
  obtain ⟨⟨⟨_, hall⟩, _⟩, hres⟩ := hc
  have := hpub hall
  simp only [State.published, hres, List.append_nil] at this
  exact ⟨this.1, this.2, by omega⟩

end Pipeline

namespace ConcurrencyBasics

/-- C1. In a worker pool with W ≥ 1 workers (the workers of demoWorkerPool
running workerPool, and those of the task-processing exercise running
worker), for every list of submitted tasks and every interleaving: once
all workers have returned, the identifiers of the results sent to the
results channel are a permutation of the submitted identifiers, so
there are exactly N results, none lost and none duplicated; the same
holds of what the collector has received when the run is complete; no
run is longer than 4N + W + 2 actions, and a run that is not complete
can always continue, so every run can be brought to completion. -/
theorem worker_pool_results_are_the_submitted_tasks (W : Nat) (hW : 1 ≤ W) :
    (∀ (jobs : List Example.Job) (sched : List (Pipeline.Action Unit))
        (s : Pipeline.State Example.Job Example.Result),
        Pipeline.run Example.pipeline sched (Pipeline.init W jobs) = some s →
        (s.allExited = true →
          (s.published.map (fun r => r.Job.ID)).Perm (jobs.map (fun j => j.ID))
          ∧ s.published.length = jobs.length)
        ∧ (s.complete = true →
          (s.collected.map (fun r => r.Job.ID)).Perm (jobs.map (fun j => j.ID))
          ∧ s.collected.length = jobs.length)
        ∧ sched.length ≤ 4 * jobs.length + W + 2
        ∧ (s.complete = false → ∃ a, (Pipeline.step Example.pipeline a s).isSome = true))
    ∧ (∀ (tasks : List Exercise.Task) (sched : List (Pipeline.Action Int))
        (s : Pipeline.State Exercise.Task Exercise.Result),
        Pipeline.run Exercise.pipeline sched (Pipeline.init W tasks) = some s →
        (s.allExited = true →
          (s.published.map (fun r => r.TaskID)).Perm (tasks.map (fun t => t.ID))
          ∧ s.published.length = tasks.length)
        ∧ (s.complete = true →
          (s.collected.map (fun r => r.TaskID)).Perm (tasks.map (fun t => t.ID))
          ∧ s.collected.length = tasks.length)
        ∧ sched.length ≤ 4 * tasks.length + W + 2
        ∧ (s.complete = false → ∃ a, (Pipeline.step Exercise.pipeline a s).isSome = true)) := by
  constructor
  · intro jobs sched s h
    have hd := Pipeline.run_delivers Example.pipeline (fun j => j.ID) (fun r => r.Job.ID)
      (fun _ _ _ => rfl) W hW jobs sched s h
    have hinv := Pipeline.run_inv Example.pipeline sched _ s (Pipeline.inv_init W jobs) h
    have hlen := Pipeline.run_workers_length Example.pipeline sched _ s h
    refine ⟨hd.1, fun hc => ⟨(hd.2.1 hc).1, (hd.2.1 hc).2.1⟩, hd.2.2, ?_⟩
    intro hc
    refine Pipeline.progress Example.pipeline s hinv (by decide) (by decide) ?_ hc
    intro h0
    rw [h0] at hlen
    simp [Pipeline.init] at hlen
    omega
  · intro tasks sched s h
    have hd := Pipeline.run_delivers Exercise.pipeline (fun t => t.ID) (fun r => r.TaskID)
      (fun _ _ _ => rfl) W hW tasks sched s h
    have hinv := Pipeline.run_inv Exercise.pipeline sched _ s (Pipeline.inv_init W tasks) h
    have hlen := Pipeline.run_workers_length Exercise.pipeline sched _ s h
    refine ⟨hd.1, fun hc => ⟨(hd.2.1 hc).1, (hd.2.1 hc).2.1⟩, hd.2.2, ?_⟩
    intro hc
    refine Pipeline.progress Exercise.pipeline s hinv (by decide) (by decide) ?_ hc
    intro h0
    rw [h0] at hlen
    simp [Pipeline.init] at hlen
    omega

/-- C1 witness: demoWorkerPool with its 3 workers and the jobs 1..9, under
the interleaving `demoSchedule`: the run is complete and the collector
has received 9 results whose job IDs are 3, 1, 2, 6, 4, 5, 9, 7, 8, a
permutation of 1..9. -/
theorem worker_pool_results_are_the_submitted_tasks_witness :
    Pipeline.run Example.pipeline Example.demoSchedule (Pipeline.init 3 Example.demoJobs)
      = some Example.demoFinal
    ∧ Example.demoFinal.complete = true
    ∧ Example.demoFinal.collected.map (fun r => r.Job.ID) = [3, 1, 2, 6, 4, 5, 9, 7, 8]
    ∧ (Example.demoFinal.collected.map (fun r => r.Job.ID)).Perm
        (Example.demoJobs.map (fun j => j.ID))
    ∧ Example.demoFinal.collected.length = 9 :=
  have hrun : Pipeline.run Example.pipeline Example.demoSchedule
      (Pipeline.init 3 Example.demoJobs) = some Example.demoFinal := by decide
  have h := ((worker_pool_results_are_the_submitted_tasks 3 (by decide)).1
    Example.demoJobs Example.demoSchedule Example.demoFinal hrun).2.1 (by decide)
  ⟨hrun, by decide, by decide, h.1, h.2⟩

end ConcurrencyBasics
namespace Pipeline

variable {τ ρ ε : Type}

/-! ### The pipeline: closing order -/

theorem publish_exited (cfg : Config τ ρ ε) (s : State τ ρ) (w : Nat) (e : ε)
    (hw : s.workers[w]? = some Worker.exited) : step cfg (Action.publish w e) s = none := by
  unfold step
  split
  · rfl
  · simp [hw]

theorem closeResults_enabled (cfg : Config τ ρ ε) (s s' : State τ ρ)
    (h : step cfg Action.closeResults s = some s') :
    s.allExited = true ∧ s'.resultsClosed = true := by
  unfold step at h
  split at h
  · simp at h
  · simp only at h
    split at h
    · rename_i hc
      simp only [Bool.and_eq_true] at hc
      simp only [Option.some.injEq] at h
      subst h
      exact ⟨hc.1, rfl⟩
    · simp at h

theorem run_closesSafely (cfg : Config τ ρ ε) (n : Nat) (submitted : List τ)
    (sched : List (Action ε)) (s : State τ ρ)
    (h : run cfg sched (init n submitted) = some s) : ClosesSafely cfg s := by
  have hinv := run_inv cfg sched _ s (inv_init n submitted) h
  exact ⟨hinv.noPanic, hinv.resultsClosedAfterWait,
    fun w e hw => publish_exited cfg s w e hw,
    fun s' hs' => (closeResults_enabled cfg s s' hs').1⟩

end Pipeline

namespace ConcurrencyAdvanced.Exercise

/-! ### The crawler: closing order -/

theorem crawl_publish_exited (handler : Handler) (s : State) (w : Nat) (e : Env)
    (hw : s.workers[w]? = some Worker.exited) : step handler (Action.publish w e) s = none := by
  unfold step
  split
  · rfl
  · simp [hw]

theorem crawl_closeResults_enabled (handler : Handler) (s s' : State)
    (h : step handler Action.closeResults s = some s') :
    s.allExited = true ∧ s'.resultsClosed = true := by
  unfold step at h
  split at h
  · simp at h
  · simp only at h
    split at h
    · rename_i hc
      simp only [Bool.and_eq_true] at hc
      simp only [Option.some.injEq] at h
      subst h
      exact ⟨hc.1, rfl⟩
    · simp at h

end ConcurrencyAdvanced.Exercise

namespace ConcurrencyBasics

/-- C2. With a single worker running `worker` on one task channel, for every
list of tasks and every interleaving: the TaskIDs published so far,
followed by the ID held by the worker, the IDs buffered in the channel
and the IDs not yet sent, are exactly the submitted IDs in submission
order; hence once the worker has returned the TaskIDs it published are
the submitted IDs in submission order, and so are those the collector
has received when the run is complete; a run that is not complete can
always continue. -/
theorem single_worker_publishes_in_submission_order (tasks : List Exercise.Task)
    (sched : List (Pipeline.Action Int)) (s : Pipeline.State Exercise.Task Exercise.Result)
    (h : Pipeline.run Exercise.pipeline sched (Pipeline.init 1 tasks) = some s) :
    s.published.map (fun r => r.TaskID) ++ s.inflight.map (fun t => t.ID)
        ++ s.tasks.map (fun t => t.ID) ++ s.pending.map (fun t => t.ID)
      = tasks.map (fun t => t.ID)
    ∧ (s.allExited = true → s.published.map (fun r => r.TaskID) = tasks.map (fun t => t.ID))
    ∧ (s.complete = true → s.collected.map (fun r => r.TaskID) = tasks.map (fun t => t.ID))
    ∧ (s.complete = false → ∃ a, (Pipeline.step Exercise.pipeline a s).isSome = true) := by
  have hinv := Pipeline.run_inv Exercise.pipeline sched _ s (Pipeline.inv_init 1 tasks) h
  have hord := Pipeline.run_ordered Exercise.pipeline (fun t => t.ID) (fun r => r.TaskID)
    (fun _ _ _ => rfl) tasks sched _ s (Pipeline.ordered_init _ _ tasks) h
  have hne : s.workers ≠ [] := by
    intro h0
    have := hord.1
    rw [h0] at this
    simp at this
  have hpub : s.allExited = true →
      s.published.map (fun r => r.TaskID) = tasks.map (fun t => t.ID) := by
    intro hall
    obtain ⟨hi, ht, hp⟩ := Pipeline.drained_of_allExited hinv hne hall
    have := hord.2
    rw [hi, ht, hp] at this
    simpa using this.symm
  refine ⟨hord.2.symm, hpub, ?_, ?_⟩
  · intro hc
    simp only [Pipeline.State.complete, Bool.and_eq_true, List.isEmpty_iff] at hc
    obtain ⟨⟨⟨_, hall⟩, _⟩, hres⟩ := hc
    have := hpub hall
    simpa [Pipeline.State.published, hres] using this
  · intro hc
    exact Pipeline.progress Exercise.pipeline s hinv (by decide) (by decide) hne hc

/-- C2 witness: one worker, tasks 1..5, under the interleaving
`fiveSchedule`: the collector receives the TaskIDs 1, 2, 3, 4, 5 in
this order. -/
theorem single_worker_publishes_in_submission_order_witness :
    Pipeline.run Exercise.pipeline Exercise.fiveSchedule (Pipeline.init 1 Exercise.fiveTasks)
      = some Exercise.fiveFinal
    ∧ Exercise.fiveFinal.complete = true
    ∧ Exercise.fiveFinal.collected.map (fun r => r.TaskID) = [1, 2, 3, 4, 5] :=
  have hrun : Pipeline.run Exercise.pipeline Exercise.fiveSchedule
      (Pipeline.init 1 Exercise.fiveTasks) = some Exercise.fiveFinal := by decide
  have h := (single_worker_publishes_in_submission_order Exercise.fiveTasks
    Exercise.fiveSchedule Exercise.fiveFinal hrun).2.2.1 (by decide)
  ⟨hrun, by decide, h⟩

end ConcurrencyBasics

namespace ConcurrencyAdvanced.Exercise

/-! ### The crawler: cancellation and failures -/

theorem step_of_fault (handler : Handler) (a : Action) (s : State) (h : s.fault.isSome = true) :
    step handler a s = none := by
  unfold step
  rw [if_pos h]

theorem select_cancelled (handler : Handler) (s : State) (w : Nat) (url : String)
    (hf : s.fault = none) (hw : s.workers[w]? = some (Worker.selecting url))
    (hc : s.cancelled = true) :
    step handler (Action.select w) s
      = some { s with workers := s.workers.set w Worker.exited, dropped := s.dropped ++ [url] } := by
  unfold step
  simp [hf, hw, hc]

theorem select_default (handler : Handler) (s : State) (w : Nat) (url : String)
    (hf : s.fault = none) (hw : s.workers[w]? = some (Worker.selecting url))
    (hc : s.cancelled = false) :
    step handler (Action.select w) s
      = some { s with workers := s.workers.set w (Worker.crawling url) } := by
  unfold step
  simp [hf, hw, hc]

theorem publish_crawl (s : State) (w : Nat) (url : String) (e : Env)
    (hf : s.fault = none) (hw : s.workers[w]? = some (Worker.crawling url))
    (hrc : s.resultsClosed = false) (hroom : s.results.length < resultsCap) :
    step crawlHandler (Action.publish w e) s
      = some { s with results := s.results ++ [crawl url e.elapsed e.rnd],
                      workers := s.workers.set w Worker.ranging } := by
  unfold step
  simp [hf, hw, hrc, hroom, crawlHandler]

theorem receive_ranging (handler : Handler) (s : State) (w : Nat) (url : String)
    (rest : List String) (hf : s.fault = none) (hw : s.workers[w]? = some Worker.ranging)
    (hj : s.jobs = url :: rest) :
    step handler (Action.receive w) s
      = some { s with jobs := rest, workers := s.workers.set w (Worker.selecting url),
                      taken := s.taken ++ [url] } := by
  unfold step
  simp [hf, hw, hj]

end ConcurrencyAdvanced.Exercise
namespace ConcurrencyAdvanced.Exercise

/-- C6 (as stated, refuted). The crawler with its 5 workers on the 13 distinct
URLs of the built-in list, under `deadlineSchedule` (the deadline passes
while the workers crawl their first URL): the run ends with all workers
returned and results closed and drained; 10 URLs were removed from the
jobs channel, only 5 were crawled and published; the other 5 were taken
after the cancellation and discarded. -/
theorem crawler_discards_urls_taken_after_cancel :
    (run crawlHandler deadlineSchedule (init 5 sentURLs)).map
        (fun s => (s.allExited, s.resultsClosed, s.results, s.fault,
                   s.taken, s.collected.map (fun r => r.URL), s.dropped))
      = some (true, true, [], none,
          ["https://golang.org", "https://github.com", "https://google.com",
           "https://baidu.com", "https://zhihu.com", "https://bilibili.com",
           "https://taobao.com", "https://jd.com", "https://weibo.com", "https://douyin.com"],
          ["https://golang.org", "https://github.com", "https://google.com",
           "https://baidu.com", "https://zhihu.com"],
          ["https://bilibili.com", "https://taobao.com", "https://jd.com",
           "https://weibo.com", "https://douyin.com"]) := by
  rfl

/-- C6 (amended). In every execution of the crawler (any number of workers,
any URLs, any interleaving, cancellation at any moment): every URL
removed from the jobs channel is published, still held by a worker, or
was discarded; a URL is discarded only by a worker that finds the
context cancelled at its select, and that worker returns at once
without crawling it, so each worker discards at most one URL and
nothing is discarded while the context is not cancelled; a worker that
finds the context not cancelled crawls the URL. -/
theorem crawler_accounts_for_every_taken_url (n : Nat) (toSend : List String)
    (sched : List Action) (s : State)
    (h : run crawlHandler sched (init n toSend) = some s) :
    s.taken.Perm (s.published.map (fun r => r.URL) ++ s.inflight ++ s.dropped)
    ∧ s.dropped.length ≤ s.exitedCount
    ∧ (s.cancelled = false → s.dropped = [])
    ∧ (s.allExited = true → s.taken.Perm (s.published.map (fun r => r.URL) ++ s.dropped))
    ∧ (∀ w url, s.workers[w]? = some (Worker.selecting url) → s.cancelled = true →
        step crawlHandler (Action.select w) s
          = some { s with workers := s.workers.set w Worker.exited,
                          dropped := s.dropped ++ [url] })
    ∧ (∀ w url, s.workers[w]? = some (Worker.selecting url) → s.cancelled = false →
        step crawlHandler (Action.select w) s
          = some { s with workers := s.workers.set w (Worker.crawling url) }) := by
  have hinv := crawl_run_inv crawlHandler sched _ s (crawl_inv_init n toSend) h
  have hacc := run_accounted crawlHandler crawlHandler_url sched _ s (accounted_init n toSend) h
  have hf := run_noFault sched _ s (crawl_inv_init n toSend) rfl h
  unfold Accounted at hacc
  have hperm : s.taken.Perm (s.published.map (fun r => r.URL) ++ s.inflight ++ s.dropped) := by
    apply Multiset.coe_eq_coe.mp
    rw [hacc]
    simp only [Multiset.coe_add, List.append_assoc]
  refine ⟨hperm, hinv.droppedPerWorker, ?_, ?_, ?_, ?_⟩
  · intro hc
    by_contra hne
    have := hinv.droppedOnlyCancelled hne
    rw [hc] at this
    exact Bool.false_ne_true this
  · intro hall
    have hin : s.inflight = [] := by
      unfold State.inflight
      rw [List.filterMap_eq_nil_iff]
      intro w hw
      have := List.all_eq_true.mp hall w hw
      cases w <;> simp_all [Worker.isExited, Worker.url?]
    simpa [hin] using hperm
  · intro w url hw hc
    exact select_cancelled crawlHandler s w url hf hw hc
  · intro w url hw hc
    exact select_default crawlHandler s w url hf hw hc

/-- C6 witness: the run `deadlineSchedule` of the crawler; its 10 taken URLs
are the 5 published ones together with the 5 discarded ones, and the 5
workers discarded one URL each. -/
theorem crawler_accounts_for_every_taken_url_witness :
    run crawlHandler deadlineSchedule (init 5 sentURLs) = some deadlineFinal
    ∧ deadlineFinal.allExited = true
    ∧ deadlineFinal.taken.Perm
        (deadlineFinal.published.map (fun r => r.URL) ++ deadlineFinal.dropped)
    ∧ deadlineFinal.dropped.length ≤ deadlineFinal.exitedCount
    ∧ deadlineFinal.dropped.length = 5 :=
  have hrun : run crawlHandler deadlineSchedule (init 5 sentURLs) = some deadlineFinal := by
    decide
  have h := crawler_accounts_for_every_taken_url 5 sentURLs deadlineSchedule deadlineFinal hrun
  ⟨hrun, by decide, h.2.2.2.1 (by decide), h.2.1, by decide⟩

/-- C7 (as stated, refuted). A worker whose crawl of https://golang.org
fails after an elapsed time of 250 publishes the result
{https://golang.org, 250, false}: the URL of the task, the elapsed time
and the flag. It is the result the successful crawl publishes, with the
flag false in place of true, so nothing in it describes the failure:
`CrawlResult` has the fields URL, Duration and Success and no field for
an error description. -/
theorem failed_crawl_result_has_no_error_description :
    run crawlHandler [Action.produce, Action.receive 0, Action.select 0]
        (init 1 ["https://golang.org"]) = some crawlingState
    ∧ (step crawlHandler (Action.publish 0 ⟨250, 0⟩) crawlingState).map (fun s => s.published)
        = some [{ URL := "https://golang.org", Duration := 250, Success := false }]
    ∧ (step crawlHandler (Action.publish 0 ⟨250, 1⟩) crawlingState).map (fun s => s.published)
        = some [{ URL := "https://golang.org", Duration := 250, Success := true }]
    ∧ crawl "https://golang.org" 250 0
        = { crawl "https://golang.org" 250 1 with Success := false }
    ∧ (∀ (url : String) (elapsed : Int) (rnd : Fin 10),
        crawl url elapsed rnd = { URL := url, Duration := elapsed, Success := decide (rnd ≠ 0) }) := by
  refine ⟨by decide, by decide, by decide, by decide, ?_⟩
  intro url elapsed rnd
  simp only [crawl, CrawlResult.mk.injEq, true_and]
  by_cases h : rnd = 0
  · subst h; simp
  · have : 0 < rnd.val := Nat.pos_of_ne_zero (fun h0 => h (Fin.ext h0))
    simp [h, this]

/-- C7 (amended). In every execution of the crawler, a worker whose crawl of
`url` fails (rand.Intn(10) = 0) publishes, as soon as the results
channel has room, the result {URL: url, Duration: elapsed, Success:
false}, which carries no error description, and is back at the head of
its loop, from where it receives the next URL of the jobs channel; the
other workers are untouched and the run has not aborted.  The crawl
fails exactly when rand.Intn(10) = 0, and `crawl` always returns, so
the worker, which has no recover, never meets a panic. -/
theorem failed_crawl_is_published_and_worker_continues (n : Nat) (toSend : List String)
    (sched : List Action) (s : State)
    (h : run crawlHandler sched (init n toSend) = some s)
    (w : Nat) (url : String) (hw : s.workers[w]? = some (Worker.crawling url))
    (hroom : s.results.length < resultsCap) (elapsed : Int) :
    ∃ s', step crawlHandler (Action.publish w ⟨elapsed, 0⟩) s = some s'
      ∧ s'.published = s.published ++ [{ URL := url, Duration := elapsed, Success := false }]
      ∧ s'.workers[w]? = some Worker.ranging
      ∧ (∀ v, v ≠ w → s'.workers[v]? = s.workers[v]?)
      ∧ s'.fault = none
      ∧ (∀ next rest, s'.jobs = next :: rest →
          ∃ s'', step crawlHandler (Action.receive w) s' = some s''
            ∧ s''.workers[w]? = some (Worker.selecting next))
      ∧ (∀ (u : String) (e : Env), (crawl u e.elapsed e.rnd).Success = false ↔ e.rnd = 0)
      ∧ (∀ (u : String) (e : Env), crawlHandler u e ≠ none) := by
  have hinv := crawl_run_inv crawlHandler sched _ s (crawl_inv_init n toSend) h
  have hf := run_noFault sched _ s (crawl_inv_init n toSend) rfl h
  have hwlt : w < s.workers.length := (List.getElem?_eq_some.mp hw).1
  have hrc : s.resultsClosed = false := by
    cases hrc : s.resultsClosed
    · rfl
    · have hall := hinv.resultsClosedAfterWait hrc
      have := List.all_eq_true.mp hall _ (List.getElem?_mem hw)
      simp [Worker.isExited] at this
  refine ⟨_, publish_crawl s w url ⟨elapsed, 0⟩ hf hw hrc hroom, ?_, ?_, ?_, hf, ?_, ?_, ?_⟩
  · simp [State.published, crawl]
  · simp [List.getElem?_set, hwlt]
  · intro v hv
    simp [List.getElem?_set, Ne.symm hv]
  · intro next rest hj
    refine ⟨_, receive_ranging crawlHandler _ w next rest hf ?_ hj, ?_⟩
    · simp [List.getElem?_set, hwlt]
    · simp [List.getElem?_set, hwlt]
  · intro u e
    simp only [crawl, decide_eq_false_iff_not, not_lt, Nat.le_zero_eq]
    exact ⟨fun h0 => Fin.ext h0, fun h0 => by rw [h0]; rfl⟩
  · intro u e
    simp [crawlHandler]

/-- C7 witness: a worker crawling https://golang.org whose crawl fails after
an elapsed time of 250 publishes {https://golang.org, 250, false} and
is back at the head of its loop. -/
theorem failed_crawl_is_published_and_worker_continues_witness :
    run crawlHandler [Action.produce, Action.receive 0, Action.select 0]
        (init 1 ["https://golang.org"]) = some crawlingState
    ∧ crawlingState.workers[0]? = some (Worker.crawling "https://golang.org")
    ∧ crawlingState.results.length < resultsCap
    ∧ (step crawlHandler (Action.publish 0 ⟨250, 0⟩) crawlingState).map
          (fun s => (s.published, s.workers[0]?))
        = some ([{ URL := "https://golang.org", Duration := 250, Success := false }],
                some Worker.ranging) := by
  have hrun : run crawlHandler [Action.produce, Action.receive 0, Action.select 0]
      (init 1 ["https://golang.org"]) = some crawlingState := by decide
  obtain ⟨s', hs', hpub, hwk, _⟩ :=
    failed_crawl_is_published_and_worker_continues 1 ["https://golang.org"]
      [Action.produce, Action.receive 0, Action.select 0] crawlingState hrun 0
      "https://golang.org" (by decide) (by decide) 250
  refine ⟨hrun, by decide, by decide, ?_⟩
  rw [hs', Option.map_some', hpub, hwk]
  rfl

end ConcurrencyAdvanced.Exercise

namespace ConcurrencyBasics

/-- C5. In every pipeline composition of the repository (withResultCollector,
demoWorkerPool, the task-processing exercise, the crawler), for every
number of workers, every input and every interleaving: `close(results)`
can only run once every worker has returned (the wait has returned), a
worker that has returned performs no further send, a closed results
channel therefore means that all workers have returned, and no send on
a closed channel ever happens. -/
theorem results_closed_only_after_workers_returned (W : Nat) :
    (∀ (jobs : List Int) (sched : List (Pipeline.Action Unit)) (s : Pipeline.State Int Int),
        Pipeline.run SimpleExamples.withResultCollector sched (Pipeline.init W jobs) = some s →
        Pipeline.ClosesSafely SimpleExamples.withResultCollector s)
    ∧ (∀ (jobs : List Example.Job) (sched : List (Pipeline.Action Unit))
        (s : Pipeline.State Example.Job Example.Result),
        Pipeline.run Example.pipeline sched (Pipeline.init W jobs) = some s →
        Pipeline.ClosesSafely Example.pipeline s)
    ∧ (∀ (tasks : List Exercise.Task) (sched : List (Pipeline.Action Int))
        (s : Pipeline.State Exercise.Task Exercise.Result),
        Pipeline.run Exercise.pipeline sched (Pipeline.init W tasks) = some s →
        Pipeline.ClosesSafely Exercise.pipeline s)
    ∧ (∀ (toSend : List String) (sched : List ConcurrencyAdvanced.Exercise.Action)
        (s : ConcurrencyAdvanced.Exercise.State),
        ConcurrencyAdvanced.Exercise.run ConcurrencyAdvanced.Exercise.crawlHandler sched
          (ConcurrencyAdvanced.Exercise.init W toSend) = some s →
        s.fault = none
        ∧ (s.resultsClosed = true → s.allExited = true)
        ∧ (∀ w e, s.workers[w]? = some ConcurrencyAdvanced.Exercise.Worker.exited →
            ConcurrencyAdvanced.Exercise.step ConcurrencyAdvanced.Exercise.crawlHandler
              (ConcurrencyAdvanced.Exercise.Action.publish w e) s = none)
        ∧ (∀ s', ConcurrencyAdvanced.Exercise.step ConcurrencyAdvanced.Exercise.crawlHandler
              ConcurrencyAdvanced.Exercise.Action.closeResults s = some s' →
            s.allExited = true)) := by
  refine ⟨fun jobs sched s h => Pipeline.run_closesSafely _ W jobs sched s h,
    fun jobs sched s h => Pipeline.run_closesSafely _ W jobs sched s h,
    fun tasks sched s h => Pipeline.run_closesSafely _ W tasks sched s h, ?_⟩
  intro toSend sched s h
  have hinv := ConcurrencyAdvanced.Exercise.crawl_run_inv _ sched _ s
    (ConcurrencyAdvanced.Exercise.crawl_inv_init W toSend) h
  exact ⟨ConcurrencyAdvanced.Exercise.run_noFault sched _ s
      (ConcurrencyAdvanced.Exercise.crawl_inv_init W toSend) rfl h,
    hinv.resultsClosedAfterWait,
    fun w e hw => ConcurrencyAdvanced.Exercise.crawl_publish_exited _ s w e hw,
    fun s' hs' => (ConcurrencyAdvanced.Exercise.crawl_closeResults_enabled _ s s' hs').1⟩

/-- C5 witness: withResultCollector with its 2 workers and the jobs 1..5 under
`collectorSchedule`: the run ends with results closed, both workers
returned and no send on a closed channel. -/
theorem results_closed_only_after_workers_returned_witness :
    Pipeline.run SimpleExamples.withResultCollector SimpleExamples.collectorSchedule
        (Pipeline.init 2 SimpleExamples.collectorJobs) = some SimpleExamples.collectorFinal
    ∧ SimpleExamples.collectorFinal.resultsClosed = true
    ∧ SimpleExamples.collectorFinal.panicked = false
    ∧ SimpleExamples.collectorFinal.allExited = true :=
  have hrun : Pipeline.run SimpleExamples.withResultCollector SimpleExamples.collectorSchedule
      (Pipeline.init 2 SimpleExamples.collectorJobs) = some SimpleExamples.collectorFinal := by
    decide
  have h := (results_closed_only_after_workers_returned 2).1 SimpleExamples.collectorJobs
    SimpleExamples.collectorSchedule SimpleExamples.collectorFinal hrun
  ⟨hrun, rfl, h.1, h.2.1 rfl⟩

end ConcurrencyBasics

namespace ConcurrencyAdvanced.Example

/-! ### The locked counter -/

theorem lockedStep_sound (i : Nat) (s s' : Locked) (h : Locked.step i s = some s') :
    LockedStep s s' := by
  obtain ⟨⟨v, m⟩, cs⟩ := s
  unfold Locked.step at h
  simp only at h
  split at h
  · rename_i hw
    obtain ⟨pre, post, h1, h2, _⟩ := getElem?_split hw Caller.done
    simp only [Option.some.injEq] at h
    subst h
    rw [h2]
    subst h1
    exact LockedStep.finish
  · rename_i n hw
    obtain ⟨pre, post, h1, h2, _⟩ := getElem?_split hw (Caller.locked n)
    cases m
    · simp only [Bool.false_eq_true, if_false, Option.some.injEq] at h
      subst h
      rw [h2]
      subst h1
      exact LockedStep.lock
    · simp at h
  · rename_i n hw
    obtain ⟨pre, post, h1, h2, _⟩ := getElem?_split hw (Caller.loaded n v)
    simp only [Option.some.injEq] at h
    subst h
    rw [h2]
    subst h1
    exact LockedStep.load
  · rename_i n reg hw
    obtain ⟨pre, post, h1, h2, _⟩ := getElem?_split hw (Caller.stored n)
    simp only [Option.some.injEq] at h
    subst h
    rw [h2]
    subst h1
    exact LockedStep.store
  · rename_i n hw
    obtain ⟨pre, post, h1, h2, _⟩ := getElem?_split hw (Caller.idle n)
    simp only [Option.some.injEq] at h
    subst h
    rw [h2]
    subst h1
    exact LockedStep.unlock
  · simp at h
  · simp at h

theorem lockedInv_init (k m : Nat) : LockedInv k m (Locked.init k m) := by
  refine ⟨?_, ?_, ?_⟩
  · simp only [Locked.init, Bool.false_eq_true, if_false]
    rw [List.countP_eq_zero]
    intro c hc
    rw [List.eq_of_mem_replicate hc]
    simp [Caller.inCritical]
  · intro n reg hmem
    simp only [Locked.init] at hmem
    have := List.eq_of_mem_replicate hmem
    cases this
  · simp [Locked.init, Caller.owed]

theorem no_loaded_of_countP_zero {cs : List Caller} (h : cs.countP Caller.inCritical = 0)
    (n : Nat) (reg : Int) : Caller.loaded n reg ∉ cs := by
  intro hmem
  have := (List.countP_eq_zero.mp h) _ hmem
  simp [Caller.inCritical] at this

theorem LockedStep.locked_inv {k m : Nat} {s s' : Locked} (hs : LockedInv k m s)
    (h : LockedStep s s') : LockedInv k m s' := by
  obtain ⟨h1, h2, h3⟩ := hs
  cases h with
  | @finish c pre post =>
    simp only [List.countP_append, List.countP_cons, Caller.inCritical, List.mem_append,
      List.mem_cons, List.map_append, List.map_cons, List.sum_append, List.sum_cons,
      Caller.owed] at h1 h2 h3
    refine ⟨?_, ?_, ?_⟩
    · simpa [List.countP_append, List.countP_cons, Caller.inCritical] using h1
    · intro n reg hm
      simp only [List.mem_append, List.mem_cons] at hm
      rcases hm with hm | hm | hm
      · exact h2 n reg (Or.inl hm)
      · cases hm
      · exact h2 n reg (Or.inr (Or.inr hm))
    · simp only [List.map_append, List.map_cons, List.sum_append, List.sum_cons, Caller.owed]
      exact h3
  | @lock v n pre post =>
    simp only [List.countP_append, List.countP_cons, Caller.inCritical, List.mem_append,
      List.mem_cons, List.map_append, List.map_cons, List.sum_append, List.sum_cons,
      Caller.owed, Bool.false_eq_true, if_false] at h1 h2 h3
    refine ⟨?_, ?_, ?_⟩
    · simp only [List.countP_append, List.countP_cons, Caller.inCritical, if_true]
      omega
    · intro n' reg hm
      simp only [List.mem_append, List.mem_cons] at hm
      rcases hm with hm | hm | hm
      · exact h2 n' reg (Or.inl hm)
      · cases hm
      · exact h2 n' reg (Or.inr (Or.inr hm))
    · simp only [List.map_append, List.map_cons, List.sum_append, List.sum_cons, Caller.owed]
      exact h3
  | @load v mu n pre post =>
    simp only [List.countP_append, List.countP_cons, Caller.inCritical, List.mem_append,
      List.mem_cons, List.map_append, List.map_cons, List.sum_append, List.sum_cons,
      Caller.owed] at h1 h2 h3
    refine ⟨?_, ?_, ?_⟩
    · simp only [List.countP_append, List.countP_cons, Caller.inCritical]
      exact h1
    · intro n' reg hm
      simp only [List.mem_append, List.mem_cons] at hm
      rcases hm with hm | hm | hm
      · exact h2 n' reg (Or.inl hm)
      · cases hm
        rfl
      · exact h2 n' reg (Or.inr (Or.inr hm))
    · simp only [List.map_append, List.map_cons, List.sum_append, List.sum_cons, Caller.owed]
      exact h3
  | @store v reg mu n pre post =>
    simp only [List.countP_append, List.countP_cons, Caller.inCritical, List.mem_append,
      List.mem_cons, List.map_append, List.map_cons, List.sum_append, List.sum_cons,
      Caller.owed, if_true] at h1 h2 h3
    have hreg : reg = v := h2 n reg (Or.inr (Or.inl rfl))
    have hzero : pre.countP Caller.inCritical = 0 ∧ post.countP Caller.inCritical = 0 := by
      cases mu
      · simp only [Bool.false_eq_true, if_false] at h1
        omega
      · simp only [if_true] at h1
        omega
    refine ⟨?_, ?_, ?_⟩
    · simp only [List.countP_append, List.countP_cons, Caller.inCritical, if_true]
      exact h1
    · intro n' reg' hm
      simp only [List.mem_append, List.mem_cons] at hm
      rcases hm with hm | hm | hm
      · exact absurd hm (no_loaded_of_countP_zero hzero.1 n' reg')
      · cases hm
      · exact absurd hm (no_loaded_of_countP_zero hzero.2 n' reg')
    · simp only [List.map_append, List.map_cons, List.sum_append, List.sum_cons, Caller.owed]
      subst hreg
      push_cast at h3 ⊢
      omega
  | @unlock v mu n pre post =>
    simp only [List.countP_append, List.countP_cons, Caller.inCritical, List.mem_append,
      List.mem_cons, List.map_append, List.map_cons, List.sum_append, List.sum_cons,
      Caller.owed, if_true] at h1 h2 h3
    refine ⟨?_, ?_, ?_⟩
    · simp only [List.countP_append, List.countP_cons, Caller.inCritical, Bool.false_eq_true,
        if_false]
      cases mu
      · simp only [Bool.false_eq_true, if_false] at h1
        omega
      · simp only [if_true] at h1
        omega
    · intro n' reg hm
      simp only [List.mem_append, List.mem_cons] at hm
      rcases hm with hm | hm | hm
      · exact h2 n' reg (Or.inl hm)
      · cases hm
      · exact h2 n' reg (Or.inr (Or.inr hm))
    · simp only [List.map_append, List.map_cons, List.sum_append, List.sum_cons, Caller.owed]
      exact h3

end ConcurrencyAdvanced.Example
namespace ConcurrencyAdvanced.Example

theorem locked_run_inv (k m : Nat) (sched : List Nat) (s s' : Locked)
    (hs : LockedInv k m s) (h : Locked.run sched s = some s') : LockedInv k m s' := by
  induction sched generalizing s with
  | nil =>
    simp only [Locked.run, Option.some.injEq] at h
    exact h ▸ hs
  | cons i rest ih =>
    simp only [Locked.run, Option.bind_eq_some] at h
    obtain ⟨s1, h1, h2⟩ := h
    exact ih s1 (LockedStep.locked_inv hs (lockedStep_sound i s s1 h1)) h2

theorem LockedStep.locked_remaining {s s' : Locked} (h : LockedStep s s') :
    (s'.callers.map Caller.remaining).sum + 1 = (s.callers.map Caller.remaining).sum := by
  cases h <;>
    simp only [List.map_append, List.map_cons, List.sum_append, List.sum_cons,
      Caller.remaining] <;>
    omega

theorem locked_run_remaining (sched : List Nat) (s s' : Locked)
    (h : Locked.run sched s = some s') :
    sched.length + (s'.callers.map Caller.remaining).sum
      = (s.callers.map Caller.remaining).sum := by
  induction sched generalizing s with
  | nil =>
    simp only [Locked.run, Option.some.injEq] at h
    simp [h]
  | cons i rest ih =>
    simp only [Locked.run, Option.bind_eq_some] at h
    obtain ⟨s1, h1, h2⟩ := h
    have := ih s1 h2
    have := LockedStep.locked_remaining (lockedStep_sound i s s1 h1)
    simp only [List.length_cons]
    omega

theorem locked_remaining_init (k m : Nat) :
    ((Locked.init k m).callers.map Caller.remaining).sum = k * (4 * m + 1) := by
  simp [Locked.init, Caller.remaining]

theorem owed_zero_of_allDone {cs : List Caller} (h : cs.all Caller.isDone = true) :
    (cs.map Caller.owed).sum = 0 := by
  apply List.sum_eq_zero
  intro x hx
  obtain ⟨c, hc, rfl⟩ := List.mem_map.mp hx
  have := List.all_eq_true.mp h c hc
  cases c <;> simp_all [Caller.isDone, Caller.owed]

theorem locked_progress (k m : Nat) (s : Locked) (hs : LockedInv k m s)
    (hd : s.allDone = false) : ∃ i, (Locked.step i s).isSome = true := by
  obtain ⟨⟨v, mu⟩, cs⟩ := s
  have h1 := hs.mutex
  simp only at h1
  cases mu
  · simp only [Bool.false_eq_true, if_false] at h1
    have hnd : ∃ c ∈ cs, c.isDone = false := by
      by_contra hcon
      push_neg at hcon
      have : cs.all Caller.isDone = true := by
        rw [List.all_eq_true]
        intro c hc
        simpa using hcon c hc
      simp [Locked.allDone, this] at hd
    obtain ⟨c, hc, hcd⟩ := hnd
    have hnc := (List.countP_eq_zero.mp h1) c hc
    obtain ⟨i, hi⟩ := List.mem_iff_getElem?.mp hc
    refine ⟨i, ?_⟩
    cases c with
    | idle n => cases n <;> simp [Locked.step, hi]
    | locked n => simp [Caller.inCritical] at hnc
    | loaded n r => simp [Caller.inCritical] at hnc
    | stored n => simp [Caller.inCritical] at hnc
    | done => simp [Caller.isDone] at hcd
  · simp only [if_true] at h1
    have hpos : 0 < cs.countP Caller.inCritical := by omega
    obtain ⟨c, hc, hcc⟩ := List.countP_pos_iff.mp hpos
    obtain ⟨i, hi⟩ := List.mem_iff_getElem?.mp hc
    refine ⟨i, ?_⟩
    cases c with
    | idle n => simp [Caller.inCritical] at hcc
    | locked n => simp [Locked.step, hi]
    | loaded n r => simp [Locked.step, hi]
    | stored n => simp [Locked.step, hi]
    | done => simp [Caller.inCritical] at hcc

/-- What every run of `k` callers issuing `m` locked increments each
delivers. -/
theorem locked_run_delivers (k m : Nat) (sched : List Nat) (s : Locked)
    (h : Locked.run sched (Locked.init k m) = some s) :
    (s.allDone = true → s.counter.Get = (k * m : Nat) ∧ s.counter.mu = false
        ∧ sched.length = k * (4 * m + 1))
    ∧ s.counter.count ≤ (k * m : Nat)
    ∧ s.callers.countP Caller.inCritical ≤ 1
    ∧ sched.length ≤ k * (4 * m + 1)
    ∧ (s.allDone = false → ∃ i, (Locked.step i s).isSome = true) := by
  have hinv := locked_run_inv k m sched _ s (lockedInv_init k m) h
  have hrem := locked_run_remaining sched _ s h
  rw [locked_remaining_init] at hrem
  have htot := hinv.total
  have hmx := hinv.mutex
  refine ⟨?_, by omega, ?_, by omega, locked_progress k m s hinv⟩
  · intro hd
    have h0 := owed_zero_of_allDone hd
    rw [h0] at htot
    have hr0 : (s.callers.map Caller.remaining).sum = 0 := by
      apply List.sum_eq_zero
      intro x hx
      obtain ⟨c, hc, rfl⟩ := List.mem_map.mp hx
      have := List.all_eq_true.mp hd c hc
      cases c <;> simp_all [Caller.isDone, Caller.remaining]
    have hc0 : s.callers.countP Caller.inCritical = 0 := by
      rw [List.countP_eq_zero]
      intro c hc
      have := List.all_eq_true.mp hd c hc
      cases c <;> simp_all [Caller.isDone, Caller.inCritical]
    refine ⟨by simpa [SafeCounter.Get] using htot, ?_, by omega⟩
    cases hmu : s.counter.mu
    · rfl
    · rw [hmu, hc0] at hmx
      simp at hmx
  · rw [hmx]
    split <;> omega

end ConcurrencyAdvanced.Example
namespace ConcurrencyAdvanced.Example

/-! ### Concurrent callers of `ChannelCounter` -/

theorem servedStep_sound (a : ServedAction) (s s' : Served) (h : Served.step a s = some s') :
    ServedStep s s' := by
  obtain ⟨⟨c, rs⟩, ib, ss, pc⟩ := s
  unfold Served.step at h
  cases a with
  | send i =>
    simp only at h
    split at h
    · rename_i n hw
      obtain ⟨pre, post, h1, h2, _⟩ := getElem?_split hw (Sender.sending n)
      simp only [Option.some.injEq] at h
      subst h
      rw [h2]
      subst h1
      exact ServedStep.send
    · simp at h
  | finish i =>
    simp only at h
    split at h
    · rename_i hw
      obtain ⟨pre, post, h1, h2, _⟩ := getElem?_split hw Sender.done
      simp only [Option.some.injEq] at h
      subst h
      rw [h2]
      subst h1
      exact ServedStep.finish
    · simp at h
  | apply =>
    cases ib with
    | none => simp at h
    | some msg =>
      simp only [Option.some.injEq] at h
      subst h
      cases msg with
      | increment => exact ServedStep.applyIncrement
      | get =>
        cases pc with
        | asked => exact ServedStep.applyGetAsked
        | waiting => exact ServedStep.applyGetOther (by simp)
        | got v => exact ServedStep.applyGetOther (by simp)
  | get =>
    simp only at h
    split at h
    · by_cases hall : ss.all Sender.isDone = true
      · simp only [hall, if_true, Option.some.injEq] at h
        subst h
        exact ServedStep.get hall
      · simp [hall] at h
    · simp at h

end ConcurrencyAdvanced.Example
namespace ConcurrencyAdvanced.Example

theorem servedInv_init (k m : Nat) : ServedInv k m (Served.init k m) := by
  refine ⟨?_, ?_, ?_, ?_⟩
  · simp [Served.init, Served.inFlight, Sender.left]
  · simp [Served.init]
  · intro h; simp [Served.init] at h
  · intro v h; simp [Served.init] at h

theorem left_zero_of_allDone {ss : List Sender} (h : ss.all Sender.isDone = true) :
    (ss.map Sender.left).sum = 0 := by
  apply List.sum_eq_zero
  intro x hx
  obtain ⟨c, hc, rfl⟩ := List.mem_map.mp hx
  have := List.all_eq_true.mp h c hc
  cases c <;> simp_all [Sender.isDone, Sender.left]

theorem ServedStep.served_inv {k m : Nat} {s s' : Served} (hs : ServedInv k m s)
    (h : ServedStep s s') : ServedInv k m s' := by
  obtain ⟨h1, h2, h3, h4⟩ := hs
  cases h with
  | @send o n pre post pc =>
    simp only [Served.inFlight, List.map_append, List.map_cons, List.sum_append, List.sum_cons,
      Sender.left] at h1
    refine ⟨?_, ?_, ?_, ?_⟩
    · simp only [Served.inFlight, List.map_append, List.map_cons, List.sum_append,
        List.sum_cons, Sender.left]
      push_cast at h1 ⊢
      omega
    · simpa using h2
    · intro h; simp at h
    · intro v hv
      have := (h4 v hv).2.2.2
      simp [Sender.isDone] at this
  | @finish o ib pre post pc =>
    simp only [Served.inFlight, List.map_append, List.map_cons, List.sum_append, List.sum_cons,
      Sender.left] at h1
    refine ⟨?_, h2, ?_, ?_⟩
    · simp only [Served.inFlight, List.map_append, List.map_cons, List.sum_append,
        List.sum_cons, Sender.left]
      exact h1
    · intro h
      have := h3 h
      simp [Sender.isDone] at this
    · intro v hv
      have := (h4 v hv).2.2.2
      simp [Sender.isDone] at this
  | @applyIncrement c rs ss pc =>
    simp only [Served.inFlight] at h1
    refine ⟨?_, ?_, ?_, ?_⟩
    · simp only [Served.inFlight]
      push_cast at h1 ⊢
      omega
    · simpa using h2
    · intro h; simp at h
    · intro v hv
      have := (h4 v hv).2.2.1
      simp at this
  | @applyGetAsked c rs ss =>
    simp only [Served.inFlight] at h1
    have hall := h3 rfl
    have h0 := left_zero_of_allDone hall
    simp only at h0
    rw [h0] at h1
    have hc : c = (k * m : Nat) := by simpa using h1
    refine ⟨?_, by simp, ?_, ?_⟩
    · simpa [Served.inFlight, h0] using h1
    · intro h; simp at h
    · intro v hv
      simp only [MainPC.got.injEq] at hv
      exact ⟨hv ▸ hc, hc, rfl, hall⟩
  | @applyGetOther c rs ss pc hpc =>
    exact absurd (h2.mpr rfl) hpc
  | @get o ss hall =>
    simp only [Served.inFlight] at h1
    refine ⟨?_, by simp, fun _ => hall, ?_⟩
    · simpa [Served.inFlight] using h1
    · intro v hv; simp at hv

theorem served_run_inv (k m : Nat) (sched : List ServedAction) (s s' : Served)
    (hs : ServedInv k m s) (h : Served.run sched s = some s') : ServedInv k m s' := by
  induction sched generalizing s with
  | nil =>
    simp only [Served.run, Option.some.injEq] at h
    exact h ▸ hs
  | cons a rest ih =>
    simp only [Served.run, Option.bind_eq_some] at h
    obtain ⟨s1, h1, h2⟩ := h
    exact ih s1 (ServedStep.served_inv hs (servedStep_sound a s s1 h1)) h2

theorem ServedStep.served_remaining {k m : Nat} {s s' : Served} (hs : ServedInv k m s)
    (h : ServedStep s s') : s'.remaining + 1 = s.remaining := by
  cases h with
  | applyGetOther hpc => exact absurd (hs.asked.mpr rfl) hpc
  | _ =>
    simp only [Served.remaining, List.map_append, List.map_cons, List.sum_append, List.sum_cons,
      Sender.remaining, Option.isSome_some, Option.isSome_none, if_true, Bool.false_eq_true,
      if_false]
    try omega

theorem served_run_remaining (k m : Nat) (sched : List ServedAction) (s s' : Served)
    (hs : ServedInv k m s) (h : Served.run sched s = some s') :
    sched.length + s'.remaining = s.remaining := by
  induction sched generalizing s with
  | nil =>
    simp only [Served.run, Option.some.injEq] at h
    simp [h]
  | cons a rest ih =>
    simp only [Served.run, Option.bind_eq_some] at h
    obtain ⟨s1, h1, h2⟩ := h
    have hstep := servedStep_sound a s s1 h1
    have := ih s1 (ServedStep.served_inv hs hstep) h2
    have := ServedStep.served_remaining hs hstep
    simp only [List.length_cons]
    omega

theorem served_remaining_init (k m : Nat) :
    (Served.init k m).remaining = k * (2 * m + 1) + 2 := by
  simp [Served.init, Served.remaining, Sender.remaining]

theorem served_progress (k m : Nat) (s : Served) (hs : ServedInv k m s)
    (hg : ∀ v, s.main ≠ MainPC.got v) : ∃ a, (Served.step a s).isSome = true := by
  obtain ⟨o, ib, ss, pc⟩ := s
  cases ib with
  | some msg => exact ⟨ServedAction.apply, by simp [Served.step]⟩
  | none =>
    by_cases hall : ss.all Sender.isDone = true
    · cases pc with
      | waiting => exact ⟨ServedAction.get, by simp [Served.step, hall]⟩
      | asked =>
        have := hs.asked.mp rfl
        simp at this
      | got v => exact absurd rfl (hg v)
    · have hnd : ∃ c ∈ ss, c.isDone = false := by
        by_contra hcon
        push_neg at hcon
        apply hall
        rw [List.all_eq_true]
        intro c hc
        simpa using hcon c hc
      obtain ⟨c, hc, hcd⟩ := hnd
      obtain ⟨i, hi⟩ := List.mem_iff_getElem?.mp hc
      cases c with
      | done => simp [Sender.isDone] at hcd
      | sending n =>
        cases n with
        | zero => exact ⟨ServedAction.finish i, by simp [Served.step, hi]⟩
        | succ n => exact ⟨ServedAction.send i, by simp [Served.step, hi]⟩

/-- What every run of `k` goroutines calling `Increment` `m` times each,
followed by the `Get` of main, delivers. -/
theorem served_run_delivers (k m : Nat) (sched : List ServedAction) (s : Served)
    (h : Served.run sched (Served.init k m) = some s) :
    (∀ v, s.main = MainPC.got v → v = (k * m : Nat) ∧ s.owner.count = (k * m : Nat))
    ∧ (s.senders.all Sender.isDone = true → s.inbox = none → s.owner.count = (k * m : Nat))
    ∧ s.owner.count ≤ (k * m : Nat)
    ∧ sched.length ≤ k * (2 * m + 1) + 2
    ∧ ((∀ v, s.main ≠ MainPC.got v) → ∃ a, (Served.step a s).isSome = true) := by
  have hinv := served_run_inv k m sched _ s (servedInv_init k m) h
  have hrem := served_run_remaining k m sched _ s (servedInv_init k m) h
  rw [served_remaining_init] at hrem
  have htot := hinv.total
  have hdone : s.senders.all Sender.isDone = true → s.inbox = none →
      s.owner.count = (k * m : Nat) := by
    intro hall hib
    have h0 := left_zero_of_allDone hall
    simp only [Served.inFlight, hib, h0] at htot
    simpa using htot
  refine ⟨?_, hdone, by omega, by omega, served_progress k m s hinv⟩
  intro v hv
  exact ⟨(hinv.got v hv).1, (hinv.got v hv).2.1⟩

end ConcurrencyAdvanced.Example
namespace ConcurrencyAdvanced.Example

/-- C3. K concurrent callers issuing M increments each against one guarded
counter leave it at exactly K * M, for every K and M and under every
interleaving.  Lock-protected counter (demoMutex, SafeCounter.Increment;
the read and the write of the increment are separate actions): when all
callers have finished, Get returns K * M; the counter never exceeds
K * M; at most one caller is inside the critical section.  ChannelCounter
(demoChannelSafety): the Get issued by main after the wait returns
K * M, and the count of the owner is K * M once all callers have
finished and nothing is pending.  In both, every run is bounded and a
run that has not finished can always continue. -/
theorem guarded_counter_ends_at_k_times_m (k m : Nat) :
    (∀ (sched : List Nat) (s : Locked), Locked.run sched (Locked.init k m) = some s →
        (s.allDone = true → s.counter.Get = (k * m : Nat))
        ∧ s.counter.count ≤ (k * m : Nat)
        ∧ s.callers.countP Caller.inCritical ≤ 1
        ∧ sched.length ≤ k * (4 * m + 1)
        ∧ (s.allDone = false → ∃ i, (Locked.step i s).isSome = true))
    ∧ (∀ (sched : List ServedAction) (s : Served),
        Served.run sched (Served.init k m) = some s →
        (∀ v, s.main = MainPC.got v → v = (k * m : Nat))
        ∧ (s.senders.all Sender.isDone = true → s.inbox = none →
            s.owner.count = (k * m : Nat))
        ∧ s.owner.count ≤ (k * m : Nat)
        ∧ sched.length ≤ k * (2 * m + 1) + 2
        ∧ ((∀ v, s.main ≠ MainPC.got v) → ∃ a, (Served.step a s).isSome = true)) := by
  constructor
  · intro sched s h
    have hd := locked_run_delivers k m sched s h
    exact ⟨fun hall => (hd.1 hall).1, hd.2.1, hd.2.2.1, hd.2.2.2.1, hd.2.2.2.2⟩
  · intro sched s h
    have hd := served_run_delivers k m sched s h
    exact ⟨fun v hv => (hd.1 v hv).1, hd.2.1, hd.2.2.1, hd.2.2.2.1, hd.2.2.2.2⟩

/-- C3 witness: 3 callers with 2 locked increments each, under
`lockedSchedule`, leave the counter at 6; 2 goroutines with 2 calls of
ChannelCounter.Increment each, under `channelSchedule`, make the final
Get return 4. -/
theorem guarded_counter_ends_at_k_times_m_witness :
    Locked.run lockedSchedule (Locked.init 3 2) = some lockedFinal
    ∧ lockedFinal.allDone = true
    ∧ lockedFinal.counter.Get = ((3 * 2 : Nat) : Int)
    ∧ Served.run channelSchedule (Served.init 2 2) = some channelFinal
    ∧ channelFinal.main = MainPC.got 4
    ∧ (4 : Int) = ((2 * 2 : Nat) : Int) :=
  have h1 : Locked.run lockedSchedule (Locked.init 3 2) = some lockedFinal := by decide
  have h2 : Served.run channelSchedule (Served.init 2 2) = some channelFinal := by decide
  ⟨h1, by decide,
    ((guarded_counter_ends_at_k_times_m 3 2).1 lockedSchedule lockedFinal h1).1 (by decide),
    h2, rfl,
    ((guarded_counter_ends_at_k_times_m 2 2).2 channelSchedule channelFinal h2).1 4 rfl⟩

end ConcurrencyAdvanced.Example

namespace ConcurrencyBasics.Exercise

/-! ### The task producer of `main`: its channel operations -/

/-- C10. Whatever the instant at which the 5-second timer fires, the task
producer performs, for some k ≤ 20, exactly the sends of the tasks with
IDs 1, 2, ..., k in this order followed by one close: the channel is
closed exactly once, the close is the last operation (nothing is sent
after it), and the IDs sent are a prefix of 1..20.  k is the number of
iterations that found the timer not yet ready: k = 20 when it never
fires in time, otherwise iteration k + 1 is the one that saw it fire.
The producer is never blocked for ever: the pipeline of `main` fed with
these tasks can always continue until the run is complete. -/
theorem producer_closes_tasks_exactly_once (timerReady : Nat → Bool) :
    ∃ k, k ≤ 20
      ∧ producer timerReady
          = (List.range' 1 k).map (fun j : Nat => ProducerOp.send { ID := (j : Int) })
              ++ [ProducerOp.close]
      ∧ (producer timerReady).count ProducerOp.close = 1
      ∧ (producer timerReady).getLast? = some ProducerOp.close
      ∧ (producer timerReady).filterMap ProducerOp.task?
          = (List.range' 1 k).map (fun j : Nat => ({ ID := (j : Int) } : Task))
      ∧ (∀ j, 1 ≤ j → j ≤ k → timerReady j = false)
      ∧ (k < 20 → timerReady (k + 1) = true)
      ∧ (∀ (sched : List (Pipeline.Action Int)) (s : Pipeline.State Task Result),
          Pipeline.run pipeline sched
              (Pipeline.init numWorkers ((producer timerReady).filterMap ProducerOp.task?))
            = some s →
          (s.complete = true → s.tasksClosed = true ∧ s.pending = [])
          ∧ (s.complete = false → ∃ a, (Pipeline.step pipeline a s).isSome = true)) := by
  obtain ⟨k, hk, hshape, hfalse, htrue⟩ := producerFrom_shape timerReady 20 1
  refine ⟨k, hk, hshape, ?_, ?_, ?_, ?_, ?_, ?_⟩
  · rw [producer, hshape, List.count_append]
    have h0 : ((List.range' 1 k).map (fun j : Nat => ProducerOp.send { ID := (j : Int) })).count
        ProducerOp.close = 0 := by
      rw [List.count_eq_zero]
      simp
    rw [h0]
    simp
  · rw [producer, hshape]
    simp
  · rw [producer, hshape, List.filterMap_append]
    simp only [List.filterMap_map, Function.comp_def, ProducerOp.task?, List.filterMap_cons,
      List.filterMap_nil, List.append_nil]
    exact congrFun (List.filterMap_eq_map (fun j : Nat => ({ ID := (j : Int) } : Task))) _
  · intro j h1 h2
    exact hfalse j h1 (by omega)
  · intro h
    have := htrue h
    rwa [Nat.add_comm] at this
  · intro sched s h
    have hinv := Pipeline.run_inv pipeline sched _ s (Pipeline.inv_init _ _) h
    have hlen := Pipeline.run_workers_length pipeline sched _ s h
    have hne : s.workers ≠ [] := by
      intro h0
      rw [h0] at hlen
      simp [Pipeline.init, numWorkers] at hlen
    refine ⟨?_, Pipeline.progress pipeline s hinv (by decide) (by decide) hne⟩
    intro hc
    simp only [Pipeline.State.complete, Bool.and_eq_true] at hc
    exact ⟨hc.1.1.1, hinv.closedAfterLastSend hc.1.1.1⟩

/-- C10 witness: when the timer is seen ready at iteration 4, the producer
sends tasks 1, 2, 3 and then closes the channel, once. -/
theorem producer_closes_tasks_exactly_once_witness :
    producer (fun i => decide (4 ≤ i))
      = [ProducerOp.send { ID := 1 }, ProducerOp.send { ID := 2 }, ProducerOp.send { ID := 3 },
         ProducerOp.close]
    ∧ (producer (fun i => decide (4 ≤ i))).count ProducerOp.close = 1 := by
  obtain ⟨k, _, _, hcount, _⟩ := producer_closes_tasks_exactly_once (fun i => decide (4 ≤ i))
  exact ⟨by decide, hcount⟩

end ConcurrencyBasics.Exercise

namespace FunctionsAndMethods.ChallengeTemplate

/-! ### The order system: status transitions -/

/-- C15. For an order whose Status is one of the five defined values,
ChangeStatus(new) returns nil exactly for the transitions
Pending->Paid, Pending->Canceled, Paid->Shipping, Paid->Canceled and
Shipping->Completed; on success the order is the old one with
Status = new, on failure the order is unchanged; every change from
Completed or Canceled fails. -/
theorem changeStatus_allows_exactly_five_transitions (o : Order) (newStatus : OrderStatus)
    (h : o.Status = Pending ∨ o.Status = Paid ∨ o.Status = Shipping ∨ o.Status = Completed
      ∨ o.Status = Canceled) :
    ((o.ChangeStatus newStatus).2 = none ↔
        (o.Status = Pending ∧ newStatus = Paid) ∨ (o.Status = Pending ∧ newStatus = Canceled)
        ∨ (o.Status = Paid ∧ newStatus = Shipping) ∨ (o.Status = Paid ∧ newStatus = Canceled)
        ∨ (o.Status = Shipping ∧ newStatus = Completed))
    ∧ ((o.ChangeStatus newStatus).2 = none →
        (o.ChangeStatus newStatus).1 = { o with Status := newStatus })
    ∧ ((o.ChangeStatus newStatus).2 ≠ none → (o.ChangeStatus newStatus).1 = o)
    ∧ (o.Status = Completed ∨ o.Status = Canceled → (o.ChangeStatus newStatus).2 ≠ none) := by
  unfold Order.ChangeStatus
  simp only [Pending, Paid, Shipping, Completed, Canceled] at h ⊢
  rcases h with h | h | h | h | h
  · rw [h]
    by_cases h1 : newStatus = 2
    · simp [h1]
    · by_cases h2 : newStatus = 5
      · simp [h2]
      · simp [h1, h2]
  · rw [h]
    by_cases h1 : newStatus = 3
    · simp [h1]
    · by_cases h2 : newStatus = 5
      · simp [h2]
      · simp [h1, h2]
  · rw [h]
    by_cases h1 : newStatus = 4
    · simp [h1]
    · simp [h1]
  · rw [h]
    simp
  · rw [h]
    simp

/-- C15 witness: the status flow of `main`: from the pending order 1001 the
changes to Paid, Shipping and Completed succeed in turn, and the change
of the completed order back to Pending fails and leaves it unchanged. -/
theorem changeStatus_allows_exactly_five_transitions_witness :
    (order1001.ChangeStatus Paid).2 = none
    ∧ ((order1001.ChangeStatus Paid).1.ChangeStatus Shipping).2 = none
    ∧ (((order1001.ChangeStatus Paid).1.ChangeStatus Shipping).1.ChangeStatus Completed).2 = none
    ∧ (((order1001.ChangeStatus Paid).1.ChangeStatus Shipping).1.ChangeStatus Completed).1.Status
        = Completed
    ∧ (completed1001.ChangeStatus Pending).2 ≠ none
    ∧ (completed1001.ChangeStatus Pending).1.Status = Completed :=
  ⟨(changeStatus_allows_exactly_five_transitions order1001 Paid (Or.inl rfl)).1.mpr
      (Or.inl ⟨rfl, rfl⟩),
   (changeStatus_allows_exactly_five_transitions (order1001.ChangeStatus Paid).1 Shipping
      (Or.inr (Or.inl (by decide)))).1.mpr (Or.inr (Or.inr (Or.inl ⟨by decide, rfl⟩))),
   (changeStatus_allows_exactly_five_transitions
      ((order1001.ChangeStatus Paid).1.ChangeStatus Shipping).1 Completed
      (Or.inr (Or.inr (Or.inl (by decide))))).1.mpr
      (Or.inr (Or.inr (Or.inr (Or.inr ⟨by decide, rfl⟩)))),
   by decide,
   (changeStatus_allows_exactly_five_transitions completed1001 Pending
      (Or.inr (Or.inr (Or.inr (Or.inl rfl))))).2.2.2 (Or.inl rfl),
   by decide⟩

/-! ### The order system: cancelling -/

/-- C16. Order.Cancel returns an error exactly when the Status of the order is
Shipping or Completed, and then leaves the order unchanged; for every
other status it returns nil and the order is the old one with Status
Canceled, ID and Items unchanged. -/
theorem cancel_fails_exactly_when_shipping_or_completed (o : Order) :
    ((o.Cancel).2 ≠ none ↔ (o.Status = Shipping ∨ o.Status = Completed))
    ∧ ((o.Cancel).2 ≠ none → (o.Cancel).1 = o)
    ∧ ((o.Cancel).2 = none →
        (o.Cancel).1 = { o with Status := Canceled }
        ∧ (o.Cancel).1.Status = Canceled ∧ (o.Cancel).1.ID = o.ID
        ∧ (o.Cancel).1.Items = o.Items) := by
  unfold Order.Cancel
  by_cases h : o.Status = Completed ∨ o.Status = Shipping
  · rw [if_pos h]
    simp [Or.comm.mp h]
  · rw [if_neg h]
    have h' : ¬(o.Status = Shipping ∨ o.Status = Completed) := fun hc => h (Or.comm.mp hc)
    simp [h']

/-- C16 witness: cancelling the completed order 1001 fails and leaves it
completed; cancelling the pending order 1001 succeeds. -/
theorem cancel_fails_exactly_when_shipping_or_completed_witness :
    (completed1001.Cancel).2 ≠ none ∧ (completed1001.Cancel).1.Status = Completed
    ∧ (order1001.Cancel).2 = none ∧ (order1001.Cancel).1.Status = Canceled :=
  ⟨(cancel_fails_exactly_when_shipping_or_completed completed1001).1.mpr (Or.inr rfl),
   by decide, by decide,
   ((cancel_fails_exactly_when_shipping_or_completed order1001).2.2 (by decide)).2.1⟩

/-! ### The order system: items -/

theorem itemCount_foldl_wrap (items : List OrderItem) (c : Int) :
    wrap64 (items.foldl (fun count item => wrap64 (count + item.Quantity)) c)
      = wrap64 (c + (items.map (fun item => item.Quantity)).sum) := by
  induction items generalizing c with
  | nil => simp
  | cons item rest ih =>
    simp only [List.foldl_cons, ih, List.map_cons, List.sum_cons]
    rw [wrap64_add_wrap64, add_assoc]

theorem itemCount_foldl_inInt64 (items : List OrderItem) (c : Int) (hc : inInt64 c) :
    inInt64 (items.foldl (fun count item => wrap64 (count + item.Quantity)) c) := by
  induction items generalizing c with
  | nil => simpa using hc
  | cons item rest ih => exact ih _ (wrap64_inInt64 _)

theorem getItemCount_eq (o : Order) :
    o.GetItemCount = wrap64 ((o.Items.map (fun item => item.Quantity)).sum) := by
  have h1 := itemCount_foldl_wrap o.Items 0
  have h2 := itemCount_foldl_inInt64 o.Items 0 (by decide)
  rw [wrap64_of_inInt64 h2] at h1
  simpa [Order.GetItemCount] using h1

theorem getItemCount_inInt64 (o : Order) : inInt64 o.GetItemCount :=
  itemCount_foldl_inInt64 o.Items 0 (by decide)

theorem getItemCount_append (o : Order) (item : OrderItem) :
    Order.GetItemCount { o with Items := o.Items ++ [item] }
      = wrap64 (o.GetItemCount + item.Quantity) := by
  simp [Order.GetItemCount, List.foldl_append]

/-- C17 (as stated, refuted). A pending order holding 2^63 - 1 pieces (the
largest int): AddItem of one more piece succeeds, and GetItemCount goes
from 2^63 - 1 to -2^63 instead of increasing by 1, because
`count += item.Quantity` is an int addition. -/
theorem addItem_count_wraps :
    fullOrder.Status = Pending
    ∧ fullOrder.GetItemCount = 2 ^ 63 - 1
    ∧ (fullOrder.AddItem fullStock 1).2 = none
    ∧ (fullOrder.AddItem fullStock 1).1.GetItemCount = -(2 ^ 63)
    ∧ (fullOrder.AddItem fullStock 1).1.GetItemCount ≠ fullOrder.GetItemCount + 1 := by
  refine ⟨by decide, by decide, by decide, by decide, by decide⟩

/-- C17 (amended). Order.AddItem(product, quantity) returns an error exactly
when quantity <= 0, or product.Stock < quantity, or the Status of the
order is not Pending, and then leaves the order unchanged; on success
Items is the old list with OrderItem{product, quantity} appended at the
end, Status and ID are unchanged, and GetItemCount is the old count
plus quantity reduced to the int range, hence exactly the old count
plus quantity whenever that sum does not exceed the largest int. -/
theorem addItem_appends_or_fails (o : Order) (product : Product) (quantity : Int) :
    ((o.AddItem product quantity).2 ≠ none ↔
        (quantity ≤ 0 ∨ product.Stock < quantity ∨ o.Status ≠ Pending))
    ∧ ((o.AddItem product quantity).2 ≠ none → (o.AddItem product quantity).1 = o)
    ∧ ((o.AddItem product quantity).2 = none →
        (o.AddItem product quantity).1.Items
            = o.Items ++ [{ Product := product, Quantity := quantity }]
        ∧ (o.AddItem product quantity).1.Status = o.Status
        ∧ (o.AddItem product quantity).1.ID = o.ID
        ∧ (o.AddItem product quantity).1.GetItemCount = wrap64 (o.GetItemCount + quantity)
        ∧ (o.GetItemCount + quantity < 2 ^ 63 →
            (o.AddItem product quantity).1.GetItemCount = o.GetItemCount + quantity)) := by
  unfold Order.AddItem
  by_cases h1 : quantity ≤ 0
  · simp [h1]
  · by_cases h2 : product.Stock < quantity
    · simp [h1, h2, Product.IsAvailable]
    · by_cases h3 : o.Status = Pending
      · have h2' : quantity ≤ product.Stock := not_lt.mp h2
        simp only [h1, if_false, Product.IsAvailable, ge_iff_le, h2', decide_True, Bool.not_true,
          Bool.false_eq_true, h3, ne_eq, not_true_eq_false, h2, or_self, iff_self, true_and,
          not_false_eq_true, forall_true_left, IsEmpty.forall_iff]
        have hc := getItemCount_append o { Product := product, Quantity := quantity }
        simp only at hc
        refine ⟨hc, ?_⟩
        intro hlt
        have hr := getItemCount_inInt64 o
        have hin : inInt64 (o.GetItemCount + quantity) := by
          unfold inInt64 at hr ⊢
          omega
        exact hc.trans (wrap64_of_inInt64 hin)
      · simp [h1, h2, h3, Product.IsAvailable, not_lt.mp h2]

/-- C17 witness: `order.AddItem(product3, 2)` of `main`, on the order created
from product1 and product2: no error, and the item count goes from 2
to 4. -/
theorem addItem_appends_or_fails_witness :
    (created1001.AddItem product3 2).2 = none
    ∧ created1001.GetItemCount = 2
    ∧ (created1001.AddItem product3 2).1.GetItemCount = created1001.GetItemCount + 2 :=
  have h : (created1001.AddItem product3 2).2 = none := by decide
  ⟨h, by decide, ((addItem_appends_or_fails created1001 product3 2).2.2 h).2.2.2.2 (by decide)⟩

end FunctionsAndMethods.ChallengeTemplate
namespace FunctionsAndMethods.ChallengeTemplate

/-! ### The order system: creating an order -/

theorem createLoop_spec (products : List Product) (order : Order)
    (hs : order.Status = Pending) :
    ((∃ p ∈ products, p.Stock < 1) → (createLoop order products).1 = none
        ∧ (createLoop order products).2 ≠ none)
    ∧ ((∀ p ∈ products, 1 ≤ p.Stock) →
        createLoop order products
          = (some { order with
              Items := order.Items ++ products.map (fun p => { Product := p, Quantity := 1 }) },
             none)) := by
  induction products generalizing order with
  | nil => simp [createLoop]
  | cons p rest ih =>
    by_cases hp : p.Stock < 1
    · have herr : (order.AddItem p 1).2 ≠ none :=
        (addItem_appends_or_fails order p 1).1.mpr (Or.inr (Or.inl hp))
      constructor
      · intro _
        unfold createLoop
        cases hres : order.AddItem p 1 with
        | mk o' e =>
          cases e with
          | none => rw [hres] at herr; exact absurd rfl herr
          | some err => simp
      · intro hall
        have := hall p (List.mem_cons_self _ _)
        omega
    · have hok : (order.AddItem p 1).2 = none := by
        by_contra hne
        rcases (addItem_appends_or_fails order p 1).1.mp hne with h | h | h
        · omega
        · exact hp h
        · exact h hs
      obtain ⟨hitems, hstat, hid, _⟩ := (addItem_appends_or_fails order p 1).2.2 hok
      have hcl : createLoop order (p :: rest) = createLoop (order.AddItem p 1).1 rest := by
        conv_lhs => unfold createLoop
        cases hres : order.AddItem p 1 with
        | mk o' e =>
          rw [hres] at hok
          simp only at hok
          subst hok
          rfl
      rw [hcl]
      have ih' := ih (order.AddItem p 1).1 (hstat.trans hs)
      constructor
      · intro hex
        apply ih'.1
        obtain ⟨q, hq, hlt⟩ := hex
        rcases List.mem_cons.mp hq with rfl | hq
        · exact absurd hlt hp
        · exact ⟨q, hq, hlt⟩
      · intro hall
        rw [ih'.2 (fun q hq => hall q (List.mem_cons_of_mem _ hq))]
        simp [hitems, hstat, hid]

/-- C18. CreateOrder(id, products...) returns an error, and no order, exactly
when products is empty or some product has Stock < 1; otherwise it
returns no error and the order with the given ID, Status Pending and
Items equal to the products in argument order, each with Quantity 1;
GetItemCount of that order is then the number of products (a slice has
fewer than 2^63 elements). -/
theorem createOrder_returns_order_or_error (id : Int) (products : List Product) :
    ((CreateOrder id products).2 ≠ none ↔ (products = [] ∨ ∃ p ∈ products, p.Stock < 1))
    ∧ ((CreateOrder id products).2 ≠ none → (CreateOrder id products).1 = none)
    ∧ ((CreateOrder id products).2 = none →
        (CreateOrder id products).1
          = some { ID := id,
                   Items := products.map (fun p => { Product := p, Quantity := 1 }),
                   Status := Pending })
    ∧ (∀ o, (CreateOrder id products).1 = some o → products.length < 2 ^ 63 →
        o.GetItemCount = products.length) := by
  have hloop := createLoop_spec products { ID := id, Items := [], Status := Pending } rfl
  by_cases hnil : products = []
  · subst hnil
    simp [CreateOrder]
  · have hlen : products.length ≠ 0 := fun h => hnil (List.length_eq_zero.mp h)
    have hdef : CreateOrder id products
        = createLoop { ID := id, Items := [], Status := Pending } products := by
      simp [CreateOrder, hlen]
    rw [hdef]
    by_cases hex : ∃ p ∈ products, p.Stock < 1
    · obtain ⟨h1, h2⟩ := hloop.1 hex
      refine ⟨⟨fun _ => Or.inr hex, fun _ => h2⟩, fun _ => h1, fun h => absurd h h2, ?_⟩
      intro o ho
      rw [h1] at ho
      cases ho
    · have hall : ∀ p ∈ products, 1 ≤ p.Stock := by
        intro p hp
        by_contra hlt
        exact hex ⟨p, hp, not_le.mp hlt⟩
      rw [hloop.2 hall]
      refine ⟨?_, ?_, ?_, ?_⟩
      · simp [hnil, hex]
      · simp
      · simp
      · intro o ho hlt
        simp only [List.nil_append, Option.some.injEq] at ho
        rw [← ho, getItemCount_eq]
        have hsum : ((products.map (fun p => ({ Product := p, Quantity := 1 } : OrderItem))).map
            (fun item => item.Quantity)).sum = (products.length : Int) := by
          simp [List.map_map, Function.comp_def]
        simp only at hsum ⊢
        rw [hsum]
        apply wrap64_of_inInt64
        unfold inInt64
        have : (0 : Int) ≤ (products.length : Int) := Int.natCast_nonneg _
        have : (products.length : Int) < 2 ^ 63 := by exact_mod_cast hlt
        omega

/-- C18 witness: `CreateOrder(1001, product1, product2)` of `main` returns no
error and the pending order 1001 with the two products, one piece each;
its item count is 2. -/
theorem createOrder_returns_order_or_error_witness :
    (CreateOrder 1001 [product1, product2]).2 = none
    ∧ (CreateOrder 1001 [product1, product2]).1 = some created1001
    ∧ created1001.GetItemCount = (([product1, product2] : List Product).length : Int) :=
  have h : (CreateOrder 1001 [product1, product2]).2 = none := by decide
  have h1 := (createOrder_returns_order_or_error 1001 [product1, product2]).2.2.1 h
  ⟨h, h1, (createOrder_returns_order_or_error 1001 [product1, product2]).2.2.2
    created1001 h1 (by decide)⟩

/-! ### Stock updates -/

/-- C19. Product.UpdateStock(quantity) never leaves a negative stock: it
returns an error, and changes nothing, exactly when the new stock it
computes is negative; when Stock + quantity does not overflow the int
range, this is exactly when Stock + quantity < 0, and otherwise Stock
becomes Stock + quantity.  Hence a product with Stock >= 0 still has
Stock >= 0 after any sequence of UpdateStock calls. -/
theorem updateStock_keeps_stock_nonnegative (p : Product) (quantity : Int) :
    ((p.UpdateStock quantity).2 ≠ none ↔ wrap64 (p.Stock + quantity) < 0)
    ∧ ((p.UpdateStock quantity).2 ≠ none → (p.UpdateStock quantity).1 = p)
    ∧ (inInt64 (p.Stock + quantity) →
        ((p.UpdateStock quantity).2 ≠ none ↔ p.Stock + quantity < 0)
        ∧ ((p.UpdateStock quantity).2 = none →
            (p.UpdateStock quantity).1 = { p with Stock := p.Stock + quantity }))
    ∧ (0 ≤ p.Stock → 0 ≤ (p.UpdateStock quantity).1.Stock)
    ∧ (0 ≤ p.Stock → ∀ quantities : List Int,
        0 ≤ (quantities.foldl (fun q n => (q.UpdateStock n).1) p).Stock) := by
  have hstep : ∀ (q : Product) (n : Int), 0 ≤ q.Stock → 0 ≤ (q.UpdateStock n).1.Stock := by
    intro q n hq
    unfold Product.UpdateStock
    simp only
    split
    · exact hq
    · rename_i hneg
      exact not_lt.mp hneg
  refine ⟨?_, ?_, ?_, hstep p quantity, ?_⟩
  · unfold Product.UpdateStock
    simp only
    split <;> simp [*]
  · unfold Product.UpdateStock
    simp only
    split <;> simp
  · intro hin
    unfold Product.UpdateStock
    simp only [wrap64_of_inInt64 hin]
    split <;> simp [*]
  · intro hp quantities
    induction quantities generalizing p with
    | nil => simpa using hp
    | cons n rest ih => exact ih (p.UpdateStock n).1 (hstep p n hp)

/-- C19 witness: the stock updates of `main`: product1 (stock 10) minus 2
gives 8, product2 (stock 20) plus 5 gives 25, both without error;
taking 11 from product1 is refused and leaves its stock at 10. -/
theorem updateStock_keeps_stock_nonnegative_witness :
    inInt64 (product1.Stock + -2)
    ∧ (product1.UpdateStock (-2)).2 = none ∧ (product1.UpdateStock (-2)).1.Stock = 8
    ∧ (product2.UpdateStock 5).2 = none ∧ (product2.UpdateStock 5).1.Stock = 25
    ∧ (product1.UpdateStock (-11)).2 ≠ none ∧ (product1.UpdateStock (-11)).1.Stock = 10 :=
  have h := (updateStock_keeps_stock_nonnegative product1 (-2)).2.2.1 (by decide)
  ⟨by decide, by decide, by rw [(h.2 (by decide))]; decide, by decide, by decide,
   (updateStock_keeps_stock_nonnegative product1 (-11)).1.mpr (by decide), by decide⟩

end FunctionsAndMethods.ChallengeTemplate
namespace FunctionsAndMethods.Example

/-! ### `divide` -/

theorem tmod_neg_left (x b : Int) : Int.tmod (-x) b = -(Int.tmod x b) := by
  rw [Int.tmod_def, Int.tmod_def, Int.neg_tdiv]
  ring

theorem tmod_abs_lt (a b : Int) (hb : b ≠ 0) : |Int.tmod a b| < |b| := by
  have key : ∀ x : Int, 0 ≤ x → |Int.tmod x b| < |b| := by
    intro x hx
    have h0 : 0 ≤ Int.tmod x b := Int.tmod_nonneg b hx
    rw [abs_of_nonneg h0]
    rcases lt_or_gt_of_ne hb with hneg | hpos
    · have := Int.tmod_lt_of_pos x (neg_pos.mpr hneg)
      rw [Int.tmod_neg] at this
      rw [abs_of_neg hneg]
      exact this
    · rw [abs_of_pos hpos]
      exact Int.tmod_lt_of_pos x hpos
  rcases le_or_lt 0 a with ha | ha
  · exact key a ha
  · have := key (-a) (by omega)
    rwa [tmod_neg_left, abs_neg] at this

theorem tmod_sign (a b : Int) :
    Int.tmod a b = 0 ∨ (0 < Int.tmod a b ∧ 0 < a) ∨ (Int.tmod a b < 0 ∧ a < 0) := by
  rcases lt_trichotomy a 0 with ha | ha | ha
  · have h0 : 0 ≤ Int.tmod (-a) b := Int.tmod_nonneg b (by omega)
    rw [tmod_neg_left] at h0
    rcases eq_or_lt_of_le (neg_nonneg.mp h0) with h | h
    · exact Or.inl h
    · exact Or.inr (Or.inr ⟨h, ha⟩)
  · subst ha
    exact Or.inl (Int.zero_tmod b)
  · have h0 : 0 ≤ Int.tmod a b := Int.tmod_nonneg b (le_of_lt ha)
    rcases eq_or_lt_of_le h0 with h | h
    · exact Or.inl h.symm
    · exact Or.inr (Or.inl ⟨h, ha⟩)

theorem tdiv_inInt64 (a b : Int) (ha : inInt64 a) (hb : b ≠ 0)
    (hov : ¬(a = -(2 ^ 63) ∧ b = -1)) : inInt64 (Int.tdiv a b) := by
  have hnat : (Int.tdiv a b).natAbs = a.natAbs / b.natAbs := Int.natAbs_tdiv a b
  have hbpos : 0 < b.natAbs := Int.natAbs_pos.mpr hb
  unfold inInt64 at ha ⊢
  by_cases hb1 : b.natAbs = 1
  · rcases Int.natAbs_eq b with hbe | hbe
    · rw [hb1] at hbe
      rw [hbe]
      simpa using ha
    · rw [hb1] at hbe
      have hb' : b = -1 := by simpa using hbe
      rw [hb', Int.tdiv_neg, Int.tdiv_one]
      have : a ≠ -(2 ^ 63) := fun h => hov ⟨h, hb'⟩
      omega
  · have h2 : 2 ≤ b.natAbs := by omega
    have hle : a.natAbs / b.natAbs ≤ a.natAbs / 2 := Nat.div_le_div_left h2 (by decide)
    have hq : (Int.tdiv a b).natAbs ≤ a.natAbs / 2 := hnat ▸ hle
    omega

/-- C20. divide(a, b) on ints: it returns a non-nil error together with
quotient 0 and remainder 0 exactly when b = 0; for b != 0, the case
a = MinInt, b = -1 apart, it returns a nil error, a = quotient * b +
remainder, |remainder| < |b|, and the remainder is 0 or has the sign
of a.  The divide of error_demo.go returns an error, with result 0,
exactly when b = 0, and otherwise the same quotient with a nil error. -/
theorem divide_quotient_and_remainder (a b : Int) (ha : inInt64 a) (hb : inInt64 b) :
    (((divide a b).2.2 ≠ none ∧ (divide a b).1 = 0 ∧ (divide a b).2.1 = 0) ↔ b = 0)
    ∧ (b ≠ 0 → ¬(a = -(2 ^ 63) ∧ b = -1) →
        (divide a b).2.2 = none
        ∧ a = (divide a b).1 * b + (divide a b).2.1
        ∧ |(divide a b).2.1| < |b|
        ∧ ((divide a b).2.1 = 0 ∨ (0 < (divide a b).2.1 ∧ 0 < a)
            ∨ ((divide a b).2.1 < 0 ∧ a < 0))
        ∧ inInt64 (divide a b).1 ∧ inInt64 (divide a b).2.1)
    ∧ (((ErrorDemo.divide a b).2 ≠ none ∧ (ErrorDemo.divide a b).1 = 0) ↔ b = 0)
    ∧ (b ≠ 0 → ¬(a = -(2 ^ 63) ∧ b = -1) →
        (ErrorDemo.divide a b).2 = none ∧ (ErrorDemo.divide a b).1 = (divide a b).1) := by
  by_cases hb0 : b = 0
  · subst hb0
    simp [divide, ErrorDemo.divide]
  · refine ⟨?_, ?_, ?_, ?_⟩
    · simp [divide, hb0]
    · intro _ hov
      have hq := tdiv_inInt64 a b ha hb0 hov
      have hlt := tmod_abs_lt a b hb0
      simp only [divide, hb0, if_false, wrap64_of_inInt64 hq]
      refine ⟨trivial, ?_, hlt, tmod_sign a b, hq, ?_⟩
      · have := Int.tdiv_add_tmod' a b
        omega
      · unfold inInt64 at hb ⊢
        have h1 := abs_lt.mp hlt
        have h2 : |b| ≤ 2 ^ 63 := by
          rw [abs_le]
          omega
        omega
    · simp [ErrorDemo.divide, hb0]
    · intro _ hov
      simp [divide, ErrorDemo.divide, hb0]

/-- C20 witness: divide(10, 3) = (3, 1) with a nil error, as in `main`;
divide(-7, 2) = (-3, -1); divide(10, 0) is an error with zero values. -/
theorem divide_quotient_and_remainder_witness :
    inInt64 10 ∧ inInt64 3
    ∧ divide 10 3 = (3, 1, none)
    ∧ (10 : Int) = (divide 10 3).1 * 3 + (divide 10 3).2.1
    ∧ divide (-7) 2 = (-3, -1, none)
    ∧ (divide 10 0).2.2 ≠ none ∧ (divide 10 0).1 = 0 ∧ (divide 10 0).2.1 = 0 :=
  have h := (divide_quotient_and_remainder 10 3 (by decide) (by decide)).2.1
    (by decide) (by decide)
  have h0 := (divide_quotient_and_remainder 10 0 (by decide) (by decide)).1.mpr rfl
  ⟨by decide, by decide, by decide, h.2.1, by decide, h0.1, h0.2.1, h0.2.2⟩

end FunctionsAndMethods.Example

namespace ConcurrencyAdvanced.Exercise

/-! ### The crawler: the producer skips duplicates -/

theorem producer_step_spec (p : Producer) (url : String)
    (hv : ∀ u, u ∈ p.visited ↔ u ∈ p.sent) (hn : p.sent.Nodup) :
    (∀ u, u ∈ (p.step url).visited ↔ u ∈ (p.step url).sent)
    ∧ (p.step url).sent.Nodup
    ∧ (url ∈ p.sent → (p.step url).sent = p.sent
        ∧ (p.step url).skippedCount = p.skippedCount + 1)
    ∧ (url ∉ p.sent → (p.step url).sent = p.sent ++ [url]
        ∧ (p.step url).skippedCount = p.skippedCount) := by
  unfold Producer.step
  by_cases hc : url ∈ p.sent
  · have hc' : url ∈ p.visited := (hv url).mpr hc
    simp [hc, hc', hv, hn]
  · have hc' : url ∉ p.visited := fun h => hc ((hv url).mp h)
    have hcf : p.visited.contains url = false := by simpa using hc'
    simp only [hcf, if_false, Bool.false_eq_true]
    refine ⟨?_, ?_, fun h => absurd h hc, fun _ => by simp⟩
    · intro u
      simp only [List.mem_cons, List.mem_append, List.mem_singleton, hv]
      tauto
    · exact List.Nodup.append hn (List.nodup_singleton url) (by simpa using hc)

theorem producer_foldl_spec (us : List String) (p : Producer)
    (hv : ∀ u, u ∈ p.visited ↔ u ∈ p.sent) (hn : p.sent.Nodup) :
    (∀ u, u ∈ (us.foldl Producer.step p).visited ↔ u ∈ (us.foldl Producer.step p).sent)
    ∧ (us.foldl Producer.step p).sent.Nodup
    ∧ (∀ u, u ∈ (us.foldl Producer.step p).sent ↔ (u ∈ p.sent ∨ u ∈ us))
    ∧ (us.foldl Producer.step p).skippedCount + ((us.foldl Producer.step p).sent.length : Int)
        = p.skippedCount + (p.sent.length : Int) + (us.length : Int)
    ∧ (∃ rest, (us.foldl Producer.step p).sent = p.sent ++ rest) := by
  induction us generalizing p with
  | nil => exact ⟨hv, hn, by simp, by simp, ⟨[], by simp⟩⟩
  | cons url rest ih =>
    obtain ⟨h1, h2, h3, h4⟩ := producer_step_spec p url hv hn
    obtain ⟨i1, i2, i3, i4, r, i5⟩ := ih (p.step url) h1 h2
    simp only [List.foldl_cons]
    refine ⟨i1, i2, ?_, ?_, ?_⟩
    · intro u
      rw [i3]
      by_cases hc : url ∈ p.sent
      · rw [(h3 hc).1]
        simp only [List.mem_cons]
        constructor
        · rintro (h | h)
          · exact Or.inl h
          · exact Or.inr (Or.inr h)
        · rintro (h | h | h)
          · exact Or.inl h
          · exact Or.inl (h ▸ hc)
          · exact Or.inr h
      · rw [(h4 hc).1]
        simp only [List.mem_append, List.mem_singleton, List.mem_cons]
        tauto
    · rw [i4]
      by_cases hc : url ∈ p.sent
      · rw [(h3 hc).1, (h3 hc).2]
        simp only [List.length_cons]
        push_cast
        ring
      · rw [(h4 hc).1, (h4 hc).2]
        simp only [List.length_cons, List.length_append, List.length_nil]
        push_cast
        ring
    · by_cases hc : url ∈ p.sent
      · exact ⟨r, by rw [i5, (h3 hc).1]⟩
      · exact ⟨url :: r, by rw [i5, (h4 hc).1]; simp⟩

/-- C14. For every input list, the producer of the crawler sends exactly the
distinct URLs of the list, each once (the URLs sent have no duplicate,
so task identifiers are unique within the run, and are exactly the
members of the list), in order of first occurrence (what is sent for a
prefix of the list is a prefix of what is sent for the whole list; a
URL not seen before is sent next, a URL seen before is skipped), and
skippedCount ends equal to the length of the list minus the number of
URLs sent. -/
theorem producer_sends_each_distinct_url_once (pre post : List String) (url : String) :
    (dedupProducer pre).sent.Nodup
    ∧ (∀ u, u ∈ (dedupProducer pre).sent ↔ u ∈ pre)
    ∧ (dedupProducer pre).skippedCount
        = (pre.length : Int) - ((dedupProducer pre).sent.length : Int)
    ∧ (∃ rest, (dedupProducer (pre ++ post)).sent = (dedupProducer pre).sent ++ rest)
    ∧ (url ∉ pre →
        (dedupProducer (pre ++ [url])).sent = (dedupProducer pre).sent ++ [url]
        ∧ (dedupProducer (pre ++ [url])).skippedCount = (dedupProducer pre).skippedCount)
    ∧ (url ∈ pre →
        (dedupProducer (pre ++ [url])).sent = (dedupProducer pre).sent
        ∧ (dedupProducer (pre ++ [url])).skippedCount
            = (dedupProducer pre).skippedCount + 1) := by
  have h0 := producer_foldl_spec pre { visited := [], sent := [], skippedCount := 0 }
    (by simp) List.nodup_nil
  obtain ⟨hv, hn, hmem, hcount, _⟩ := h0
  have hmem' : ∀ u, u ∈ (dedupProducer pre).sent ↔ u ∈ pre := by
    intro u
    simpa using hmem u
  have happ : ∀ l, dedupProducer (pre ++ l) = l.foldl Producer.step (dedupProducer pre) := by
    intro l
    simp [dedupProducer, List.foldl_append]
  obtain ⟨_, _, hseen, hnew⟩ := producer_step_spec (dedupProducer pre) url hv hn
  refine ⟨hn, hmem', ?_, ?_, ?_, ?_⟩
  · simp only [dedupProducer] at hcount ⊢
    simp only [List.length_nil, Nat.cast_zero, zero_add] at hcount
    omega
  · rw [happ]
    exact (producer_foldl_spec post (dedupProducer pre) hv hn).2.2.2.2
  · intro hnot
    rw [happ]
    exact hnew (fun h => hnot ((hmem' url).mp h))
  · intro hin
    rw [happ]
    exact hseen ((hmem' url).mpr hin)

/-- C14 witness: for the built-in list of 15 entries the producer sends the
13 URLs of `sentURLs` and skips 2. -/
theorem producer_sends_each_distinct_url_once_witness :
    (dedupProducer urls).sent.length = 13
    ∧ (dedupProducer urls).skippedCount = 2
    ∧ urls.length = 15
    ∧ (dedupProducer urls).sent.Nodup
    ∧ "https://golang.org" ∈ (urls.take 10)
    ∧ (dedupProducer (urls.take 10 ++ ["https://golang.org"])).sent
        = (dedupProducer (urls.take 10)).sent :=
  ⟨by decide, by decide, by decide,
   (producer_sends_each_distinct_url_once urls [] "").1, by decide,
   ((producer_sends_each_distinct_url_once (urls.take 10) [] "https://golang.org").2.2.2.2.2
      (by decide)).1⟩

end ConcurrencyAdvanced.Exercise

namespace ConcurrencyAdvanced.Example

/-! ### `SafeMap` -/

theorem safeMap_get_set_same (m : SafeMap) (key : String) (value : Int) :
    (m.Set key value).Get key = (value, true) := by
  simp [SafeMap.Set, SafeMap.Get]

theorem safeMap_get_set_other (m : SafeMap) (key other : String) (value : Int)
    (h : other ≠ key) : (m.Set key value).Get other = m.Get other := by
  have h' : (key == other) = false := by simpa using Ne.symm h
  simp only [SafeMap.Set, SafeMap.Get, List.find?_cons, h']
  have hfind : (m.data.filter (fun kv => kv.1 != key)).find? (fun kv => kv.1 == other)
      = m.data.find? (fun kv => kv.1 == other) := by
    induction m.data with
    | nil => rfl
    | cons kv rest ih =>
      simp only [List.filter_cons]
      by_cases hk : kv.1 = key
      · have h1 : (kv.1 != key) = false := by simp [hk]
        have h2 : (kv.1 == other) = false := by
          rw [hk]
          exact h'
        rw [h1]
        simp only [Bool.false_eq_true, if_false, List.find?_cons, h2]
        exact ih
      · have h1 : (kv.1 != key) = true := by simp [hk]
        rw [h1]
        simp only [if_true, List.find?_cons]
        rw [ih]
  rw [hfind]

theorem safeMap_run_get_absent (ops : List MapOp) (m : SafeMap) (key : String)
    (h : ∀ op ∈ ops, op.key? ≠ some key) : (m.run ops).Get key = m.Get key := by
  induction ops generalizing m with
  | nil => rfl
  | cons op rest ih =>
    have hrest : ∀ op' ∈ rest, op'.key? ≠ some key :=
      fun op' h' => h op' (List.mem_cons_of_mem _ h')
    have hop := h op (List.mem_cons_self _ _)
    simp only [SafeMap.run, List.foldl_cons] at ih ⊢
    rw [ih _ hrest]
    cases op with
    | get k => rfl
    | set k v =>
      simp only [MapOp.key?, ne_eq, Option.some.injEq] at hop
      exact safeMap_get_set_other m k key v (fun hk => hop hk.symm)

theorem safeMap_run_get_written (ops : List MapOp) (m : SafeMap) (key : String) (value : Int)
    (hmem : MapOp.set key value ∈ ops)
    (huniq : ∀ v, MapOp.set key v ∈ ops → v = value) :
    (m.run ops).Get key = (value, true) := by
  induction ops generalizing m with
  | nil => cases hmem
  | cons op rest ih =>
    simp only [SafeMap.run, List.foldl_cons] at ih ⊢
    by_cases hin : MapOp.set key value ∈ rest
    · exact ih _ hin (fun v hv => huniq v (List.mem_cons_of_mem _ hv))
    · have hop : op = MapOp.set key value := by
        rcases List.mem_cons.mp hmem with h | h
        · exact h.symm
        · exact absurd h hin
      subst hop
      have hrest : ∀ op' ∈ rest, op'.key? ≠ some key := by
        intro op' h' hk
        cases op' with
        | get k => simp [MapOp.key?] at hk
        | set k v =>
          simp only [MapOp.key?, Option.some.injEq] at hk
          subst hk
          have := huniq v (List.mem_cons_of_mem _ h')
          subst this
          exact hin h'
      have := safeMap_run_get_absent rest (m.Set key value) key hrest
      simp only [SafeMap.run] at this
      show (List.foldl SafeMap.apply (m.Set key value) rest).Get key = (value, true)
      rw [this]
      exact safeMap_get_set_same m key value

/-- C13. SafeMap behaves as a finite map under any serial order of its
operations: Get(k) right after Set(k, v) returns (v, true); Set(k, v)
does not change the result of Get(k') for k' != k; Get changes nothing;
Get of a key that no operation has set returns (0, false); and when
the writes to a key all carry the same value v, as with one writer per
key, Get of that key after the operations, in whatever order they took
effect, returns (v, true). -/
theorem safeMap_is_a_finite_map (m : SafeMap) (key other : String) (value : Int)
    (ops ops' : List MapOp) :
    (m.Set key value).Get key = (value, true)
    ∧ (other ≠ key → (m.Set key value).Get other = m.Get other)
    ∧ m.apply (MapOp.get key) = m
    ∧ NewSafeMap.Get key = (0, false)
    ∧ ((∀ op ∈ ops, op.key? ≠ some key) → (NewSafeMap.run ops).Get key = (0, false))
    ∧ (MapOp.set key value ∈ ops → (∀ v, MapOp.set key v ∈ ops → v = value) →
        ops'.Perm ops → (NewSafeMap.run ops').Get key = (value, true)) := by
  refine ⟨safeMap_get_set_same m key value, safeMap_get_set_other m key other value, rfl, rfl,
    ?_, ?_⟩
  · intro h
    rw [safeMap_run_get_absent ops NewSafeMap key h]
    rfl
  · intro hmem huniq hperm
    exact safeMap_run_get_written ops' NewSafeMap key value (hperm.mem_iff.mpr hmem)
      (fun v hv => huniq v (hperm.mem_iff.mp hv))

/-- C13 witness: the ten writers of demoSafeMap taking effect in reverse
order of their ids: Get("key-3") = (30, true) and Get("key-9") =
(90, true); "key-10" was never set and gives (0, false). -/
theorem safeMap_is_a_finite_map_witness :
    MapOp.set "key-3" 30 ∈ demoWrites
    ∧ demoWrites.reverse.Perm demoWrites
    ∧ (NewSafeMap.run demoWrites.reverse).Get "key-3" = (30, true)
    ∧ (NewSafeMap.run demoWrites.reverse).Get "key-9" = (90, true)
    ∧ (NewSafeMap.run demoWrites).Get "key-10" = (0, false) :=
  ⟨by decide, List.reverse_perm _,
   (safeMap_is_a_finite_map NewSafeMap "key-3" "" 30 demoWrites demoWrites.reverse).2.2.2.2.2
      (by decide) (fun v hv => by simpa [demoWrites] using hv) (List.reverse_perm _),
   (safeMap_is_a_finite_map NewSafeMap "key-9" "" 90 demoWrites demoWrites.reverse).2.2.2.2.2
      (by decide) (fun v hv => by simpa [demoWrites] using hv) (List.reverse_perm _),
   (safeMap_is_a_finite_map NewSafeMap "key-10" "" 0 demoWrites []).2.2.2.2.1 (by decide)⟩

end ConcurrencyAdvanced.Example

namespace ConcurrencyAdvanced.Example

/-! ### Contexts: cancellation -/

theorem cancel_getElem? (s : Scopes) (i j : Nat) (e : CtxErr) :
    (s.cancel i e)[j]? = (s[j]?).map
      (fun c => if s.reaches i j && c.err.isNone then { c with err := some e } else c) := by
  simp [Scopes.cancel]

theorem cancel_length (s : Scopes) (i : Nat) (e : CtxErr) :
    (s.cancel i e).length = s.length := by
  simp [Scopes.cancel]

theorem cancel_parentOf (s : Scopes) (i j : Nat) (e : CtxErr) :
    (s.cancel i e).parentOf j = s.parentOf j := by
  unfold Scopes.parentOf
  rw [cancel_getElem?]
  cases s[j]? with
  | none => rfl
  | some c =>
    simp only [Option.map_some', Option.some_bind]
    split <;> rfl

theorem cancel_parents (s : Scopes) (i : Nat) (e : CtxErr) :
    (s.cancel i e).map (fun c => c.parent) = s.map (fun c => c.parent) := by
  apply List.ext_getElem?
  intro j
  have := cancel_parentOf s i j e
  simp only [Scopes.parentOf] at this
  simp only [List.getElem?_map]
  cases h1 : (s.cancel i e)[j]? with
  | none =>
    cases h2 : s[j]? with
    | none => rfl
    | some c =>
      have hlt : j < s.length := (List.getElem?_eq_some.mp h2).1
      have : j < (s.cancel i e).length := by rw [cancel_length]; exact hlt
      rw [List.getElem?_eq_getElem this] at h1
      cases h1
  | some c' =>
    rw [cancel_getElem?] at h1
    cases h2 : s[j]? with
    | none => rw [h2] at h1; cases h1
    | some c =>
      rw [h2] at h1
      simp only [Option.map_some', Option.some.injEq] at h1
      rw [← h1]
      simp only [Option.map_some', Option.some.injEq]
      split <;> rfl

theorem cancel_reaches (s : Scopes) (i : Nat) (e : CtxErr) (k j : Nat) :
    (s.cancel i e).reaches k j = s.reaches k j := by
  unfold Scopes.reaches
  rw [cancel_parents]

/-- A second cancellation of the same context changes nothing, whatever
the two causes. -/
theorem cancel_cancel (s : Scopes) (i : Nat) (e e' : CtxErr) :
    (s.cancel i e).cancel i e' = s.cancel i e := by
  apply List.ext_getElem?
  intro j
  rw [cancel_getElem?, cancel_reaches, cancel_getElem?]
  cases s[j]? with
  | none => rfl
  | some c =>
    simp only [Option.map_some', Option.some.injEq]
    cases hr : s.reaches i j
    · simp
    · cases hc : c.err <;> simp [hc]

theorem done_eq (s : Scopes) (j : Nat) : s.done j = (s.err j).isSome := by
  unfold Scopes.done Scopes.err
  cases s[j]? <;> rfl

theorem cancel_err_of_done (s : Scopes) (i j : Nat) (e : CtxErr) (h : s.done j = true) :
    (s.cancel i e).err j = s.err j := by
  unfold Scopes.err
  rw [cancel_getElem?]
  unfold Scopes.done at h
  cases hs : s[j]? with
  | none => rfl
  | some c =>
    rw [hs] at h
    simp only at h
    cases hc : c.err with
    | none => rw [hc] at h; cases h
    | some x => simp [hc]

theorem climbs_mono (ps : List (Option Nat)) (i : Nat) (f : Nat) :
    ∀ (f' j : Nat), f ≤ f' → climbs ps i f j = true → climbs ps i f' j = true := by
  induction f with
  | zero => intro f' j _ h; simp [climbs] at h
  | succ f ih =>
    intro f' j hle h
    obtain ⟨g, rfl⟩ : ∃ g, f' = g + 1 := ⟨f' - 1, by omega⟩
    simp only [climbs, Bool.or_eq_true] at h ⊢
    rcases h with h | h
    · exact Or.inl h
    · right
      cases hp : (ps[j]?).bind id with
      | none => rw [hp] at h; cases h
      | some p =>
        rw [hp] at h
        exact ih g p (by omega) h

theorem climbs_le (ps : List (Option Nat)) (i : Nat)
    (hwf : ∀ j p : Nat, (ps[j]?).bind id = some p → p < j) (f : Nat) :
    ∀ j, climbs ps i f j = true → i ≤ j := by
  induction f with
  | zero => intro j h; simp [climbs] at h
  | succ f ih =>
    intro j h
    simp only [climbs, Bool.or_eq_true] at h
    rcases h with h | h
    · have : j = i := by simpa using h
      omega
    · cases hp : (ps[j]?).bind id with
      | none => rw [hp] at h; cases h
      | some p =>
        rw [hp] at h
        have := ih p h
        have := hwf j p hp
        omega

theorem parentOf_eq (s : Scopes) (j : Nat) :
    ((s.map (fun c => c.parent))[j]?).bind id = s.parentOf j := by
  unfold Scopes.parentOf
  simp only [List.getElem?_map]
  cases s[j]? <;> rfl

theorem reaches_self (s : Scopes) (i : Nat) : s.reaches i i = true := by
  simp [Scopes.reaches, climbs]

theorem reaches_le (s : Scopes) (hwf : s.WellFormed) (i j : Nat) (h : s.reaches i j = true) :
    i ≤ j := by
  refine climbs_le _ i ?_ (j + 1) j h
  intro j p hp
  rw [parentOf_eq] at hp
  exact hwf j p hp

theorem reaches_child (s : Scopes) (hwf : s.WellFormed) (i j p : Nat)
    (hp : s.parentOf j = some p) (h : s.reaches i p = true) : s.reaches i j = true := by
  have hlt := hwf j p hp
  unfold Scopes.reaches at h ⊢
  simp only [climbs, Bool.or_eq_true]
  right
  rw [parentOf_eq, hp]
  exact climbs_mono _ i (p + 1) j p (by omega) h

theorem cancel_done_of_reaches (s : Scopes) (i j : Nat) (e : CtxErr) (hj : j < s.length)
    (h : s.reaches i j = true) : (s.cancel i e).done j = true := by
  unfold Scopes.done
  rw [cancel_getElem?, List.getElem?_eq_getElem hj]
  simp only [Option.map_some', h, Bool.true_and]
  cases hc : (s[j]).err <;> simp [hc]

theorem cancel_unchanged_of_not_reaches (s : Scopes) (i j : Nat) (e : CtxErr)
    (h : s.reaches i j = false) : (s.cancel i e)[j]? = s[j]? := by
  rw [cancel_getElem?]
  cases s[j]? with
  | none => rfl
  | some c => simp [h]

theorem cancel_done_cases (s : Scopes) (i j : Nat) (e : CtxErr)
    (h : (s.cancel i e).done j = true) : s.done j = true ∨ s.reaches i j = true := by
  cases hr : s.reaches i j
  · left
    have := cancel_unchanged_of_not_reaches s i j e hr
    unfold Scopes.done at h ⊢
    rwa [this] at h
  · exact Or.inr rfl

end ConcurrencyAdvanced.Example
namespace ConcurrencyAdvanced.Example

theorem derive_getElem?_old (s : Scopes) (parent : Option Nat) (j : Nat) (hj : j < s.length) :
    (s.derive parent)[j]? = s[j]? := by
  unfold Scopes.derive
  exact List.getElem?_append_left hj

theorem derive_getElem?_new (s : Scopes) (parent : Option Nat) :
    (s.derive parent)[s.length]?
      = some { parent := parent.filter (fun p => decide (p < s.length)),
               err := parent.bind s.err } := by
  unfold Scopes.derive
  simp

theorem derive_length (s : Scopes) (parent : Option Nat) :
    (s.derive parent).length = s.length + 1 := by
  simp [Scopes.derive]

theorem parentOf_lt_length (s : Scopes) (j p : Nat) (h : s.parentOf j = some p) :
    j < s.length := by
  unfold Scopes.parentOf at h
  by_contra hge
  rw [List.getElem?_eq_none (by omega)] at h
  cases h

theorem done_lt_length (s : Scopes) (j : Nat) (h : s.done j = true) : j < s.length := by
  unfold Scopes.done at h
  by_contra hge
  rw [List.getElem?_eq_none (by omega)] at h
  cases h

theorem derive_wellFormed (s : Scopes) (parent : Option Nat) (hwf : s.WellFormed) :
    (s.derive parent).WellFormed := by
  intro j p hp
  have hj := parentOf_lt_length _ j p hp
  rw [derive_length] at hj
  unfold Scopes.parentOf at hp
  by_cases hlt : j < s.length
  · rw [derive_getElem?_old s parent j hlt] at hp
    exact hwf j p hp
  · have hje : j = s.length := by omega
    subst hje
    rw [derive_getElem?_new] at hp
    simp only [Option.some_bind] at hp
    cases parent with
    | none => simp at hp
    | some q =>
      simp only [Option.filter] at hp
      split at hp
      · rename_i hq
        cases hp
        simpa using hq
      · cases hp

theorem cancel_wellFormed (s : Scopes) (i : Nat) (e : CtxErr) (hwf : s.WellFormed) :
    (s.cancel i e).WellFormed := by
  intro j p hp
  rw [cancel_parentOf] at hp
  exact hwf j p hp

theorem apply_wellFormed (s : Scopes) (op : ScopeOp) (hwf : s.WellFormed) :
    (s.apply op).WellFormed := by
  cases op with
  | derive parent => exact derive_wellFormed s parent hwf
  | cancel i => exact cancel_wellFormed s i _ hwf
  | deadline i => exact cancel_wellFormed s i _ hwf

theorem derive_done_old (s : Scopes) (parent : Option Nat) (j : Nat) (hj : j < s.length) :
    (s.derive parent).done j = s.done j := by
  unfold Scopes.done
  rw [derive_getElem?_old s parent j hj]

theorem derive_err_old (s : Scopes) (parent : Option Nat) (j : Nat) (hj : j < s.length) :
    (s.derive parent).err j = s.err j := by
  unfold Scopes.err
  rw [derive_getElem?_old s parent j hj]

theorem derive_propagated (s : Scopes) (parent : Option Nat) (hwf : s.WellFormed)
    (hprop : s.Propagated) : (s.derive parent).Propagated := by
  intro j p hp hd
  have hwf' := derive_wellFormed s parent hwf
  have hpj := hwf' j p hp
  have hj := parentOf_lt_length _ j p hp
  rw [derive_length] at hj
  by_cases hlt : j < s.length
  · rw [derive_done_old s parent j hlt]
    rw [derive_done_old s parent p (by omega)] at hd
    unfold Scopes.parentOf at hp
    rw [derive_getElem?_old s parent j hlt] at hp
    exact hprop j p hp hd
  · have hje : j = s.length := by omega
    subst hje
    rw [derive_done_old s parent p hpj] at hd
    unfold Scopes.parentOf at hp
    rw [derive_getElem?_new] at hp
    simp only [Option.some_bind] at hp
    unfold Scopes.done
    rw [derive_getElem?_new]
    simp only
    cases parent with
    | none => simp at hp
    | some q =>
      simp only [Option.filter] at hp
      split at hp
      · cases hp
        simp only [Option.some_bind]
        rw [← done_eq]
        exact hd
      · cases hp

theorem cancel_done_mono (s : Scopes) (i j : Nat) (e : CtxErr) (h : s.done j = true) :
    (s.cancel i e).done j = true := by
  rw [done_eq, cancel_err_of_done s i j e h, ← done_eq]
  exact h

theorem cancel_propagated (s : Scopes) (i : Nat) (e : CtxErr) (hwf : s.WellFormed)
    (hprop : s.Propagated) : (s.cancel i e).Propagated := by
  intro j p hp hd
  rw [cancel_parentOf] at hp
  have hj := parentOf_lt_length s j p hp
  rcases cancel_done_cases s i p e hd with h | h
  · exact cancel_done_mono s i j e (hprop j p hp h)
  · exact cancel_done_of_reaches s i j e hj (reaches_child s hwf i j p hp h)

theorem apply_propagated (s : Scopes) (op : ScopeOp) (hwf : s.WellFormed)
    (hprop : s.Propagated) : (s.apply op).Propagated := by
  cases op with
  | derive parent => exact derive_propagated s parent hwf hprop
  | cancel i => exact cancel_propagated s i _ hwf hprop
  | deadline i => exact cancel_propagated s i _ hwf hprop

theorem foldl_apply_invariant (ops : List ScopeOp) :
    ∀ s : Scopes, s.WellFormed → s.Propagated →
      (ops.foldl Scopes.apply s).WellFormed ∧ (ops.foldl Scopes.apply s).Propagated := by
  induction ops with
  | nil => intro s h1 h2; exact ⟨h1, h2⟩
  | cons op rest ih =>
    intro s h1 h2
    exact ih (s.apply op) (apply_wellFormed s op h1) (apply_propagated s op h1 h2)

/-- The contexts of a program are created parent first, and a context
whose parent is done is done. -/
theorem run_invariant (ops : List ScopeOp) :
    (Scopes.run ops).WellFormed ∧ (Scopes.run ops).Propagated := by
  refine foldl_apply_invariant ops [] ?_ ?_
  · intro j p hp
    simp [Scopes.parentOf] at hp
  · intro j p hp
    simp [Scopes.parentOf] at hp

theorem climbs_done (s : Scopes) (hprop : s.Propagated) (i : Nat) (hi : s.done i = true)
    (f : Nat) : ∀ j, climbs (s.map (fun c => c.parent)) i f j = true → s.done j = true := by
  induction f with
  | zero => intro j h; simp [climbs] at h
  | succ f ih =>
    intro j h
    simp only [climbs, Bool.or_eq_true] at h
    rcases h with h | h
    · have : j = i := by simpa using h
      rw [this]; exact hi
    · rw [parentOf_eq] at h
      cases hp : s.parentOf j with
      | none => rw [hp] at h; cases h
      | some p =>
        rw [hp] at h
        exact hprop j p hp (ih p h)

/-- Cancelling a context that is already done, by its own earlier
cancellation, its deadline or the cancellation of an ancestor, changes
nothing. -/
theorem cancel_of_done (s : Scopes) (hprop : s.Propagated) (i : Nat) (e : CtxErr)
    (hi : s.done i = true) : s.cancel i e = s := by
  apply List.ext_getElem?
  intro j
  rw [cancel_getElem?]
  cases hs : s[j]? with
  | none => rfl
  | some c =>
    simp only [Option.map_some', Option.some.injEq]
    cases hr : s.reaches i j
    · simp
    · have hd := climbs_done s hprop i hi (j + 1) j hr
      unfold Scopes.done at hd
      rw [hs] at hd
      simp only at hd
      cases hc : c.err with
      | none => rw [hc] at hd; cases hd
      | some x => simp [hc]

/-- Cancelling a context leaves the contexts created before it, its
ancestors among them, as they are. -/
theorem cancel_getElem?_of_lt (s : Scopes) (hwf : s.WellFormed) (i j : Nat) (e : CtxErr)
    (hlt : j < i) : (s.cancel i e)[j]? = s[j]? := by
  apply cancel_unchanged_of_not_reaches
  cases hr : s.reaches i j
  · rfl
  · have := reaches_le s hwf i j hr
    omega

theorem apply_done_mono (s : Scopes) (op : ScopeOp) (j : Nat) (h : s.done j = true) :
    (s.apply op).done j = true ∧ (s.apply op).err j = s.err j := by
  have hj := done_lt_length s j h
  cases op with
  | derive parent =>
    exact ⟨by rw [Scopes.apply, derive_done_old s parent j hj]; exact h,
      derive_err_old s parent j hj⟩
  | cancel i => exact ⟨cancel_done_mono s i j _ h, cancel_err_of_done s i j _ h⟩
  | deadline i => exact ⟨cancel_done_mono s i j _ h, cancel_err_of_done s i j _ h⟩

theorem foldl_apply_done_mono (ops : List ScopeOp) :
    ∀ (s : Scopes) (j : Nat), s.done j = true →
      (ops.foldl Scopes.apply s).done j = true ∧ (ops.foldl Scopes.apply s).err j = s.err j := by
  induction ops with
  | nil => intro s j h; exact ⟨h, rfl⟩
  | cons op rest ih =>
    intro s j h
    have h1 := apply_done_mono s op j h
    have h2 := ih (s.apply op) j h1.1
    exact ⟨h2.1, h2.2.trans h1.2⟩

end ConcurrencyAdvanced.Example
namespace ConcurrencyAdvanced.Example.Cascade

/-! ### `demoContextCascade` -/

theorem cascade_inv_init : Inv init := by
  constructor <;>
    simp [init, created, chain, Scopes.run, Scopes.apply, Scopes.derive, Scopes.err,
      MainPC.isCancelled, ctx1Of, ctx2Of]

theorem chain_eq_three (b : Bool) (n : Nat) : chain b (n + 3) = chain b 3 := by
  simp [chain]

theorem chain_cancel_root (n : Nat) :
    (chain false n).cancel 0 CtxErr.canceled = chain true n := by
  match n with
  | 0 => decide
  | 1 => decide
  | 2 => decide
  | n + 3 => rw [chain_eq_three false n, chain_eq_three true n]; decide

theorem chain_false_done (n i : Nat) : (chain false n).done i = false := by
  unfold Scopes.done
  cases h : (chain false n)[i]? with
  | none => rfl
  | some c =>
    have hm := List.mem_iff_getElem?.mpr ⟨_, h⟩
    simp only [chain, List.mem_map] at hm
    obtain ⟨p, _, rfl⟩ := hm
    rfl

theorem chain_true_done (n i : Nat) (h : i < n) (h3 : n ≤ 3) : (chain true n).done i = true := by
  have : n = 1 ∨ n = 2 ∨ n = 3 := by omega
  rcases this with rfl | rfl | rfl
  · have : i = 0 := by omega
    subst this; decide
  · have : i = 0 ∨ i = 1 := by omega
    rcases this with rfl | rfl <;> decide
  · have : i = 0 ∨ i = 1 ∨ i = 2 := by omega
    rcases this with rfl | rfl | rfl <;> decide

theorem chain_true_cancel (n i : Nat) (e : CtxErr) : (chain true n).cancel i e = chain true n := by
  apply List.ext_getElem?
  intro j
  rw [cancel_getElem?]
  cases h : (chain true n)[j]? with
  | none => rfl
  | some c =>
    have hm := List.mem_iff_getElem?.mpr ⟨_, h⟩
    simp only [chain, List.mem_map] at hm
    obtain ⟨p, _, rfl⟩ := hm
    simp

theorem chain_derive_one (b : Bool) : (chain b 1).derive (some 0) = chain b 2 := by
  cases b <;> decide

theorem chain_derive_two (b : Bool) : (chain b 2).derive (some 1) = chain b 3 := by
  cases b <;> decide

theorem head?_append_of_head? (xs ys : List Nat) (x : Nat) (h : xs.head? = some x) :
    (xs ++ ys).head? = some x := by
  cases xs with
  | nil => cases h
  | cons a rest => simpa using h

set_option maxHeartbeats 1600000 in
theorem cascade_step_inv (a : Action) (s s' : State) (hinv : Inv s) (h : step a s = some s') :
    Inv s' := by
  obtain ⟨scopes, main, l1, c1, l2, c2, l3, calls⟩ := s
  obtain ⟨h1, h2, h3, h4, h5, h6, h7, h8, h9⟩ := hinv
  simp only at h1 h2 h3 h4 h5 h6 h7 h8 h9
  subst h1 h2 h3
  cases a with
  | rootCancel =>
    simp only [step] at h
    cases main with
    | cancelled => simp at h
    | sleeping =>
      simp only [Option.some.injEq] at h
      subst h
      obtain ⟨hc, hl1, hl2, hl3⟩ := h6 rfl
      subst hc
      constructor
      · simp only [created]
        exact chain_cancel_root _
      · simp
      · simp
      · simpa using h4
      · simpa using h5
      · simp
      · simp
      · simp
        rcases hl1 with rfl | rfl <;> simp
      · simp
        rcases hl2 with rfl | rfl | rfl <;> simp
  | enter1 =>
    simp only [step] at h
    cases l1 with
    | entering =>
      simp only [Option.some.injEq] at h
      subst h
      have hl2 : l2 = none := h4.mpr rfl
      subst hl2
      have hl3 : l3 = none := h5.mpr (Or.inl rfl)
      subst hl3
      constructor
      · show (chain main.isCancelled (created LevelPC.entering none)).derive (some 0)
          = chain main.isCancelled (created LevelPC.waiting (some LevelPC.entering))
        exact chain_derive_one _
      · show some (chain main.isCancelled (created LevelPC.entering none)).length = some 1
        cases main <;> rfl
      · rfl
      · simp
      · simp
      · intro hm
        have := h6 hm
        simp [this.1]
      · exact h7
      · simpa using h8
      · simpa using h9
    | waiting => simp at h
    | woken => simp at h
    | returned => simp at h
  | enter2 =>
    simp only [step] at h
    split at h
    · simp only [Option.some.injEq] at h
      subst h
      have hl1 : l1 ≠ LevelPC.entering := fun hc => by simpa using h4.mpr hc
      have hl3 : l3 = none := h5.mpr (Or.inr rfl)
      subst hl3
      have hcr : created l1 (some LevelPC.entering) = 2 := by simp [created, hl1]
      have hcr' : created l1 (some LevelPC.waiting) = 3 := by simp [created, hl1]
      have hc1 : ctx1Of l1 = some 1 := by simp [ctx1Of, hl1]
      constructor
      · show (chain main.isCancelled (created l1 (some LevelPC.entering))).derive (ctx1Of l1)
          = chain main.isCancelled (created l1 (some LevelPC.waiting))
        rw [hcr, hcr', hc1]
        exact chain_derive_two _
      · rfl
      · show some (chain main.isCancelled (created l1 (some LevelPC.entering))).length = some 2
        rw [hcr]
        cases main <;> rfl
      · simpa using hl1
      · simp
      · intro hm
        have := h6 hm
        simp only at this ⊢
        refine ⟨this.1, this.2.1, ?_, ?_⟩ <;> simp
      · exact h7
      · exact h8
      · simpa using h9
    · cases h
  | wake1 =>
    simp only [step] at h
    cases l1 with
    | waiting =>
      simp only at h
      split at h
      · rename_i hd
        simp only [Option.some.injEq] at h
        subst h
        have hmain : main = MainPC.cancelled := by
          cases main with
          | cancelled => rfl
          | sleeping =>
            simp [doneAt, ctx1Of, MainPC.isCancelled, chain_false_done] at hd
        subst hmain
        constructor
        · rfl
        · rfl
        · rfl
        · simpa using h4
        · exact h5
        · intro hm; cases hm
        · exact h7
        · simpa using h8
        · exact h9
      · cases h
    | entering => simp at h
    | woken => simp at h
    | returned => simp at h
  | return1 =>
    simp only [step] at h
    cases l1 with
    | woken =>
      simp only [Option.some.injEq] at h
      subst h
      have hmain : main = MainPC.cancelled := by
        cases main with
        | cancelled => rfl
        | sleeping => have := (h6 rfl).2.1; simp at this
      subst hmain
      constructor
      · show cancelAt (chain true (created LevelPC.woken l2)) (ctx1Of LevelPC.woken)
          = chain true (created LevelPC.returned l2)
        exact chain_true_cancel _ 1 _
      · rfl
      · rfl
      · simpa using h4
      · exact h5
      · intro hm; cases hm
      · intro _
        exact head?_append_of_head? _ _ 0 (h7 rfl)
      · simp [ctx1Of]
      · simpa [ctx1Of] using h9
    | entering => simp at h
    | waiting => simp at h
    | returned => simp at h
  | wake2 =>
    simp only [step] at h
    split at h
    · split at h
      · rename_i hd
        simp only [Option.some.injEq] at h
        subst h
        have hmain : main = MainPC.cancelled := by
          cases main with
          | cancelled => rfl
          | sleeping =>
            simp [doneAt, ctx2Of, MainPC.isCancelled, chain_false_done] at hd
        subst hmain
        constructor
        · rfl
        · rfl
        · rfl
        · simpa using h4
        · simpa using h5
        · intro hm; cases hm
        · exact h7
        · exact h8
        · simpa using h9
      · cases h
    · cases h
  | return2 =>
    simp only [step] at h
    split at h
    · simp only [Option.some.injEq] at h
      subst h
      have hmain : main = MainPC.cancelled := by
        cases main with
        | cancelled => rfl
        | sleeping => have := (h6 rfl).2.2.1; simp at this
      subst hmain
      constructor
      · show cancelAt (chain true (created l1 (some LevelPC.woken))) (ctx2Of (some LevelPC.woken))
          = chain true (created l1 (some LevelPC.returned))
        exact chain_true_cancel _ 2 _
      · rfl
      · rfl
      · simpa using h4
      · simpa using h5
      · intro hm; cases hm
      · intro _
        exact head?_append_of_head? _ _ 0 (h7 rfl)
      · simpa [ctx2Of] using h8
      · simp [ctx2Of]
    · cases h
  | wake3 =>
    simp only [step] at h
    split at h
    · split at h
      · rename_i hd
        simp only [Option.some.injEq] at h
        subst h
        have hmain : main = MainPC.cancelled := by
          cases main with
          | cancelled => rfl
          | sleeping =>
            simp [doneAt, MainPC.isCancelled, chain_false_done] at hd
            cases hc : ctx2Of l2 <;> simp [hc, doneAt, chain_false_done] at hd
        subst hmain
        constructor
        · rfl
        · rfl
        · rfl
        · exact h4
        · simpa using h5
        · intro hm; cases hm
        · exact h7
        · exact h8
        · exact h9
      · cases h
    · cases h

theorem cascade_run_inv (sched : List Action) :
    ∀ s s', Inv s → run sched s = some s' → Inv s' := by
  induction sched with
  | nil => intro s s' hinv h; simp only [run, Option.some.injEq] at h; subst h; exact hinv
  | cons a rest ih =>
    intro s s' hinv h
    simp only [run] at h
    cases hs : step a s with
    | none => rw [hs] at h; cases h
    | some s1 =>
      rw [hs] at h
      exact ih s1 s' (cascade_step_inv a s s1 hinv hs) h

end ConcurrencyAdvanced.Example.Cascade
namespace ConcurrencyAdvanced.Example.Cascade

theorem chain_length (b : Bool) (n : Nat) (h : n ≤ 3) : (chain b n).length = n := by
  simp [chain]; omega

theorem created_le (l1 : LevelPC) (l2 : Option LevelPC) : created l1 l2 ≤ 3 := by
  unfold created
  split <;> split <;> omega

theorem cancelAt_done_mono (s : Scopes) (c : Option Nat) (j : Nat) (h : s.done j = true) :
    (cancelAt s c).done j = true ∧ (cancelAt s c).err j = s.err j := by
  cases c with
  | none => exact ⟨h, rfl⟩
  | some i => exact ⟨cancel_done_mono s i j _ h, cancel_err_of_done s i j _ h⟩

theorem derive_done_mono (s : Scopes) (parent : Option Nat) (j : Nat) (h : s.done j = true) :
    (s.derive parent).done j = true ∧ (s.derive parent).err j = s.err j :=
  apply_done_mono s (ScopeOp.derive parent) j h

/-- No step of the demo makes a done context active again or changes
its error. -/
theorem cascade_step_done_mono (a : Action) (s s' : State) (j : Nat)
    (h : step a s = some s') (hd : s.scopes.done j = true) :
    s'.scopes.done j = true ∧ s'.scopes.err j = s.scopes.err j := by
  cases a <;> simp only [step] at h <;> split at h <;>
    first
    | (cases h; done)
    | (simp only [Option.some.injEq] at h; subst h
       first
       | exact ⟨cancel_done_mono _ _ _ _ hd, cancel_err_of_done _ _ _ _ hd⟩
       | exact derive_done_mono _ _ _ hd
       | exact cancelAt_done_mono _ _ _ hd)
    | (split at h
       · simp only [Option.some.injEq] at h; subst h; exact ⟨hd, rfl⟩
       · cases h)

theorem cascade_step_remaining (a : Action) (s s' : State) (hinv : Inv s)
    (h : step a s = some s') : remaining s' + 1 = remaining s := by
  obtain ⟨scopes, main, l1, c1, l2, c2, l3, calls⟩ := s
  obtain ⟨h1, h2, h3, h4, h5, h6, h7, h8, h9⟩ := hinv
  simp only at h1 h2 h3 h4 h5 h6 h7 h8 h9
  cases a with
  | rootCancel =>
    simp only [step] at h
    cases main with
    | cancelled => simp at h
    | sleeping =>
      simp only [Option.some.injEq] at h
      subst h
      simp only [remaining]
      omega
  | enter1 =>
    simp only [step] at h
    cases l1 with
    | entering =>
      simp only [Option.some.injEq] at h
      subst h
      have hl2 : l2 = none := h4.mpr rfl
      subst hl2
      simp only [remaining, LevelPC.left]
      omega
    | waiting => simp at h
    | woken => simp at h
    | returned => simp at h
  | enter2 =>
    simp only [step] at h
    split at h
    · simp only [Option.some.injEq] at h
      subst h
      have hl3 : l3 = none := h5.mpr (Or.inr rfl)
      subst hl3
      simp only [remaining, LevelPC.left]
    · cases h
  | wake1 =>
    simp only [step] at h
    cases l1 with
    | waiting =>
      simp only at h
      split at h
      · simp only [Option.some.injEq] at h
        subst h
        simp only [remaining, LevelPC.left]
        omega
      · cases h
    | entering => simp at h
    | woken => simp at h
    | returned => simp at h
  | return1 =>
    simp only [step] at h
    cases l1 with
    | woken =>
      simp only [Option.some.injEq] at h
      subst h
      simp only [remaining, LevelPC.left]
      omega
    | entering => simp at h
    | waiting => simp at h
    | returned => simp at h
  | wake2 =>
    simp only [step] at h
    split at h
    · split at h
      · simp only [Option.some.injEq] at h
        subst h
        simp only [remaining, LevelPC.left]
        omega
      · cases h
    · cases h
  | return2 =>
    simp only [step] at h
    split at h
    · simp only [Option.some.injEq] at h
      subst h
      simp only [remaining, LevelPC.left]
      omega
    · cases h
  | wake3 =>
    simp only [step] at h
    split at h
    · split at h
      · simp only [Option.some.injEq] at h
        subst h
        simp only [remaining]
      · cases h
    · cases h

theorem cascade_run_remaining (sched : List Action) :
    ∀ s s', Inv s → run sched s = some s' → sched.length + remaining s' = remaining s := by
  induction sched with
  | nil => intro s s' _ h; simp only [run, Option.some.injEq] at h; subst h; simp
  | cons a rest ih =>
    intro s s' hinv h
    simp only [run] at h
    cases hs : step a s with
    | none => rw [hs] at h; cases h
    | some s1 =>
      rw [hs] at h
      have h1 := cascade_step_remaining a s s1 hinv hs
      have h2 := ih s1 s' (cascade_step_inv a s s1 hinv hs) h
      simp only [List.length_cons]
      omega

/-- Until every goroutine is through, some goroutine can take a step. -/
theorem cascade_progress (s : State) (hinv : Inv s) (hfin : finished s = false) :
    ∃ a s', step a s = some s' := by
  obtain ⟨scopes, main, l1, c1, l2, c2, l3, calls⟩ := s
  obtain ⟨h1, h2, h3, h4, h5, h6, h7, h8, h9⟩ := hinv
  simp only at h1 h2 h3 h4 h5 h6 h7 h8 h9
  subst h1 h2 h3
  cases main with
  | sleeping => exact ⟨Action.rootCancel, _, rfl⟩
  | cancelled =>
    cases l1 with
    | entering => exact ⟨Action.enter1, _, rfl⟩
    | woken => exact ⟨Action.return1, _, rfl⟩
    | waiting =>
      have hc : 2 ≤ created LevelPC.waiting l2 := by simp [created]
      have hd : doneAt (chain true (created LevelPC.waiting l2)) (ctx1Of LevelPC.waiting) = true :=
        chain_true_done _ 1 (by omega) (created_le _ _)
      exact ⟨Action.wake1, Option.isSome_iff_exists.mp (by simp [step, MainPC.isCancelled, hd])⟩
    | returned =>
      cases l2 with
      | none => simp at h4
      | some pc2 =>
        cases pc2 with
        | entering => exact ⟨Action.enter2, _, rfl⟩
        | woken => exact ⟨Action.return2, _, rfl⟩
        | waiting =>
          have hd : doneAt (chain true (created LevelPC.returned (some LevelPC.waiting)))
              (ctx2Of (some LevelPC.waiting)) = true := by decide
          exact ⟨Action.wake2, Option.isSome_iff_exists.mp (by simp [step, MainPC.isCancelled, hd])⟩
        | returned =>
          cases l3 with
          | none => simp at h5
          | some pc3 =>
            cases pc3 with
            | woken => simp [finished] at hfin
            | waiting =>
              have hd : doneAt (chain true (created LevelPC.returned (some LevelPC.returned)))
                  (ctx2Of (some LevelPC.returned)) = true := by decide
              exact ⟨Action.wake3,
                Option.isSome_iff_exists.mp (by simp [step, MainPC.isCancelled, hd])⟩

/-- The demo as it runs ends with every goroutine through. -/
theorem cascade_demo_run : run demoSchedule init = some demoFinal ∧ finished demoFinal = true := by
  decide

theorem inv_quiet (s : State) (hinv : Inv s) (hm : s.main = MainPC.sleeping) (j : Nat) :
    s.scopes.done j = false := by
  rw [hinv.scopes_eq, hm]
  exact chain_false_done _ j

theorem inv_all_done (s : State) (hinv : Inv s) (hm : s.main = MainPC.cancelled) (j : Nat)
    (hj : j < s.scopes.length) : s.scopes.done j = true := by
  rw [hinv.scopes_eq, hm] at hj ⊢
  rw [chain_length _ _ (created_le _ _)] at hj
  exact chain_true_done _ j hj (created_le _ _)

end ConcurrencyAdvanced.Example.Cascade
namespace ConcurrencyBasics.Exercise

/-! ### Closing the `tasks` channel -/

theorem performAll_sends (ts : List Task) (rest : List ProducerOp) :
    ∀ sent : List Task,
      performAll (ts.map ProducerOp.send ++ rest) { sent := sent, closed := false }
        = performAll rest { sent := sent ++ ts, closed := false } := by
  induction ts with
  | nil => intro sent; simp
  | cons t ts ih =>
    intro sent
    have hstep : performAll (ProducerOp.send t :: (ts.map ProducerOp.send ++ rest))
        { sent := sent, closed := false }
        = performAll (ts.map ProducerOp.send ++ rest) { sent := sent ++ [t], closed := false } := by
      simp [performAll, ProducerOp.perform, TaskChan.send]
    rw [List.map_cons, List.cons_append, hstep, ih]
    simp

theorem filterMap_task?_sends (ts : List Task) :
    (ts.map ProducerOp.send ++ [ProducerOp.close]).filterMap ProducerOp.task? = ts := by
  induction ts with
  | nil => rfl
  | cons t ts ih => simpa [ProducerOp.task?] using ih

theorem producer_eq_sends_close (timerReady : Nat → Bool) :
    ∃ ts : List Task, producer timerReady = ts.map ProducerOp.send ++ [ProducerOp.close] := by
  obtain ⟨k, _, hshape, _, _⟩ := producerFrom_shape timerReady 20 1
  refine ⟨(List.range' 1 k).map (fun j : Nat => { ID := (j : Int) }), ?_⟩
  rw [producer, hshape, List.map_map]
  rfl

/-- On every path the producer closes the open `tasks` channel once,
after its sends, and no operation panics. -/
theorem producer_performs_without_panic (timerReady : Nat → Bool) :
    performAll (producer timerReady) TaskChan.make
      = Except.ok { sent := (producer timerReady).filterMap ProducerOp.task?, closed := true } := by
  obtain ⟨ts, hts⟩ := producer_eq_sends_close timerReady
  rw [hts, filterMap_task?_sends, TaskChan.make, performAll_sends]
  simp [performAll, ProducerOp.perform, TaskChan.close]

/-- One more `close(tasks)` after the producer's own would panic. -/
theorem producer_then_close_panics (timerReady : Nat → Bool) :
    performAll (producer timerReady ++ [ProducerOp.close]) TaskChan.make
      = Except.error ChanPanic.closeOfClosed := by
  obtain ⟨ts, hts⟩ := producer_eq_sends_close timerReady
  rw [hts, List.append_assoc, TaskChan.make, performAll_sends]
  simp [performAll, ProducerOp.perform, TaskChan.close]

end ConcurrencyBasics.Exercise
namespace ConcurrencyAdvanced.Example

/-! ### Cancellation: idempotence and propagation -/

theorem cancel_child_keeps_parent (s : Scopes) (hwf : s.WellFormed) (j p : Nat) (e : CtxErr)
    (hp : s.parentOf j = some p) : (s.cancel j e).done p = s.done p := by
  unfold Scopes.done
  rw [cancel_getElem?_of_lt s hwf j p e (hwf j p hp)]

theorem run_append (ops later : List ScopeOp) :
    Scopes.run (ops ++ later) = later.foldl Scopes.apply (Scopes.run ops) := by
  simp [Scopes.run, List.foldl_append]

theorem Cascade.chain_eq_run (b : Bool) (n : Nat) : ∃ ops, Cascade.chain b n = Scopes.run ops := by
  have h3 : ∀ b, ∃ ops, Cascade.chain b 3 = Scopes.run ops := by
    intro b
    cases b
    · exact ⟨[ScopeOp.derive none, ScopeOp.derive (some 0), ScopeOp.derive (some 1)], by decide⟩
    · exact ⟨[ScopeOp.derive none, ScopeOp.derive (some 0), ScopeOp.derive (some 1),
        ScopeOp.cancel 0], by decide⟩
  match n with
  | 0 => exact ⟨[], by cases b <;> decide⟩
  | 1 =>
    cases b
    · exact ⟨[ScopeOp.derive none], by decide⟩
    · exact ⟨[ScopeOp.derive none, ScopeOp.cancel 0], by decide⟩
  | 2 =>
    cases b
    · exact ⟨[ScopeOp.derive none, ScopeOp.derive (some 0)], by decide⟩
    · exact ⟨[ScopeOp.derive none, ScopeOp.derive (some 0), ScopeOp.cancel 0], by decide⟩
  | n + 3 => rw [Cascade.chain_eq_three]; exact h3 b

theorem Cascade.inv_wellFormed (s : Cascade.State) (hinv : Cascade.Inv s) :
    s.scopes.WellFormed := by
  obtain ⟨ops, hops⟩ := Cascade.chain_eq_run s.main.isCancelled (Cascade.created s.level1 s.level2)
  rw [hinv.scopes_eq, hops]
  exact (run_invariant ops).1

/-- The deferred `cancel()` of `level1` and of `level2` changes no context. -/
theorem Cascade.return_keeps_scopes (s s' : Cascade.State) (hinv : Cascade.Inv s)
    (h : Cascade.step Cascade.Action.return1 s = some s'
      ∨ Cascade.step Cascade.Action.return2 s = some s') :
    s'.scopes = s.scopes := by
  rcases h with h | h
  · have hinv' := Cascade.cascade_step_inv _ s s' hinv h
    rw [hinv'.scopes_eq, hinv.scopes_eq]
    simp only [Cascade.step] at h
    split at h
    · rename_i hl1
      simp only [Option.some.injEq] at h
      subst h
      simp [hl1, Cascade.created]
    · cases h
  · have hinv' := Cascade.cascade_step_inv _ s s' hinv h
    rw [hinv'.scopes_eq, hinv.scopes_eq]
    simp only [Cascade.step] at h
    split at h
    · rename_i hl2
      simp only [Option.some.injEq] at h
      subst h
      simp [hl2, Cascade.created]
    · cases h

end ConcurrencyAdvanced.Example

namespace ConcurrencyBasics.Exercise

/-- C11 (as stated, refuted). Closing a channel twice is not the same as
closing it once: the first `close(tasks)` on the freshly made channel
succeeds and leaves it closed; a second `close(tasks)` changes the
outcome to the run-time panic "close of closed channel". -/
theorem second_close_of_channel_panics :
    performAll [ProducerOp.close] TaskChan.make = Except.ok { sent := [], closed := true }
    ∧ performAll [ProducerOp.close, ProducerOp.close] TaskChan.make
        = Except.error ChanPanic.closeOfClosed := by
  constructor <;> rfl

end ConcurrencyBasics.Exercise

namespace ConcurrencyAdvanced.Example

/-- C11 (amended). Cancelling a scope twice has the same effect as
cancelling it once. For the contexts reached by any sequence of
operations, a second `cancel` of context `i` changes nothing, whatever
the causes; cancelling a context that is already done (its deadline has
passed or an ancestor was cancelled) changes nothing, and `cancel` is
total, so no call fails. In `demoContextTimeout` the deferred `cancel()`
after the deadline leaves the context as the deadline left it, with
error `DeadlineExceeded`; in `demoContextCascade` the deferred cancels of
`level1` and `level2` change no context. Closing a channel is not
idempotent, but the producer of `exercise.go` closes `tasks` exactly
once on every path, without panic; one more `close` would panic. -/
theorem cancel_twice_is_cancel_once (ops : List ScopeOp) (i : Nat) (e e' : CtxErr)
    (timerReady : Nat → Bool) :
    ((Scopes.run ops).cancel i e).cancel i e' = (Scopes.run ops).cancel i e
    ∧ ((Scopes.run ops).done i = true → (Scopes.run ops).cancel i e = Scopes.run ops)
    ∧ Scopes.run demoContextTimeout = Scopes.run [ScopeOp.derive none, ScopeOp.deadline 0]
    ∧ (Scopes.run demoContextTimeout).err 0 = some CtxErr.deadlineExceeded
    ∧ (∀ sched s s', Cascade.run sched Cascade.init = some s →
        (Cascade.step Cascade.Action.return1 s = some s'
          ∨ Cascade.step Cascade.Action.return2 s = some s') →
        s'.scopes = s.scopes)
    ∧ ConcurrencyBasics.Exercise.performAll (ConcurrencyBasics.Exercise.producer timerReady)
          ConcurrencyBasics.Exercise.TaskChan.make
        = Except.ok
            { sent := (ConcurrencyBasics.Exercise.producer timerReady).filterMap
                ConcurrencyBasics.Exercise.ProducerOp.task?
              closed := true }
    ∧ ConcurrencyBasics.Exercise.performAll
          (ConcurrencyBasics.Exercise.producer timerReady
            ++ [ConcurrencyBasics.Exercise.ProducerOp.close])
          ConcurrencyBasics.Exercise.TaskChan.make
        = Except.error ConcurrencyBasics.Exercise.ChanPanic.closeOfClosed := by
  refine ⟨cancel_cancel _ i e e', ?_, by decide, by decide, ?_,
    ConcurrencyBasics.Exercise.producer_performs_without_panic timerReady,
    ConcurrencyBasics.Exercise.producer_then_close_panics timerReady⟩
  · intro hd
    exact cancel_of_done _ (run_invariant ops).2 i e hd
  · intro sched s s' hrun h
    exact Cascade.return_keeps_scopes s s'
      (Cascade.cascade_run_inv sched _ s Cascade.cascade_inv_init hrun) h

/-- C11 witness: in `demoContextCascade`, once the root is
cancelled, the context of `level2` (index 2) is done, so a call of its
cancel function changes nothing, and calling it twice is the same as
calling it once. -/
theorem cancel_twice_is_cancel_once_witness :
    (Scopes.run [ScopeOp.derive none, ScopeOp.derive (some 0), ScopeOp.derive (some 1),
        ScopeOp.cancel 0]).done 2 = true
    ∧ (Scopes.run [ScopeOp.derive none, ScopeOp.derive (some 0), ScopeOp.derive (some 1),
        ScopeOp.cancel 0]).cancel 2 CtxErr.canceled
      = Scopes.run [ScopeOp.derive none, ScopeOp.derive (some 0), ScopeOp.derive (some 1),
        ScopeOp.cancel 0] :=
  ⟨by decide,
   (cancel_twice_is_cancel_once
      [ScopeOp.derive none, ScopeOp.derive (some 0), ScopeOp.derive (some 1), ScopeOp.cancel 0]
      2 CtxErr.canceled CtxErr.canceled (fun _ => false)).2.1 (by decide)⟩

/-- C12. In `demoContextCascade` (root -> `level1` -> `level2`, with
`level3` waiting on the context of `level2`), for every state `s` the
demo reaches: before `rootCancel()` no context is done and no cancel
function has been called; the step `rootCancel()` alone makes every
existing context done, the only cancel call being the root's; after it
every context, also one derived later, is done, and the first cancel
call is the root's; `level1` and `level2` call their own cancel only
when returning, after their `<-ctx.Done()`; no step makes a done context
active again or changes its error; cancelling a context leaves its
parent as it is; and the demo keeps making steps until all three levels
have seen the signal, within 8 steps in all. The last two facts on
contexts hold for the contexts of any program as well. -/
theorem root_cancel_reaches_every_descendant (sched : List Cascade.Action) (s : Cascade.State)
    (hrun : Cascade.run sched Cascade.init = some s) :
    (s.main = Cascade.MainPC.sleeping → s.cancelCalls = [] ∧ ∀ j, s.scopes.done j = false)
    ∧ (∀ s', Cascade.step Cascade.Action.rootCancel s = some s' →
        s'.cancelCalls = [0] ∧ ∀ j, j < s'.scopes.length → s'.scopes.done j = true)
    ∧ (s.main = Cascade.MainPC.cancelled →
        s.cancelCalls.head? = some 0 ∧ ∀ j, j < s.scopes.length → s.scopes.done j = true)
    ∧ (1 ∈ s.cancelCalls ↔ s.level1 = Cascade.LevelPC.returned)
    ∧ (2 ∈ s.cancelCalls ↔ s.level2 = some Cascade.LevelPC.returned)
    ∧ (∀ a s' j, Cascade.step a s = some s' → s.scopes.done j = true →
        s'.scopes.done j = true ∧ s'.scopes.err j = s.scopes.err j)
    ∧ (∀ j p e, s.scopes.parentOf j = some p → (s.scopes.cancel j e).done p = s.scopes.done p)
    ∧ (Cascade.finished s = false → ∃ a s', Cascade.step a s = some s')
    ∧ sched.length + Cascade.remaining s = 8
    ∧ (∀ (ops later : List ScopeOp) (j : Nat), (Scopes.run ops).done j = true →
        (Scopes.run (ops ++ later)).done j = true
          ∧ (Scopes.run (ops ++ later)).err j = (Scopes.run ops).err j)
    ∧ (∀ (ops : List ScopeOp) (j p : Nat) (e : CtxErr), (Scopes.run ops).parentOf j = some p →
        ((Scopes.run ops).cancel j e).done p = (Scopes.run ops).done p) := by
  have hinv := Cascade.cascade_run_inv sched _ s Cascade.cascade_inv_init hrun
  refine ⟨?_, ?_, ?_, hinv.own1, hinv.own2, ?_, ?_, Cascade.cascade_progress s hinv, ?_, ?_, ?_⟩
  · intro hm
    exact ⟨(hinv.quiet hm).1, Cascade.inv_quiet s hinv hm⟩
  · intro s' hstep
    have hinv' := Cascade.cascade_step_inv _ s s' hinv hstep
    simp only [Cascade.step] at hstep
    split at hstep
    · rename_i hm
      simp only [Option.some.injEq] at hstep
      have hc := (hinv.quiet hm).1
      refine ⟨by rw [← hstep, hc]; rfl, ?_⟩
      intro j hj
      exact Cascade.inv_all_done s' hinv' (by rw [← hstep]) j hj
    · cases hstep
  · intro hm
    exact ⟨hinv.root_first hm, Cascade.inv_all_done s hinv hm⟩
  · intro a s' j hstep hd
    exact Cascade.cascade_step_done_mono a s s' j hstep hd
  · intro j p e hp
    exact cancel_child_keeps_parent s.scopes (Cascade.inv_wellFormed s hinv) j p e hp
  · have := Cascade.cascade_run_remaining sched _ s Cascade.cascade_inv_init hrun
    rw [this]; rfl
  · intro ops later j hd
    rw [run_append]
    exact foldl_apply_done_mono later (Scopes.run ops) j hd
  · intro ops j p e hp
    exact cancel_child_keeps_parent _ (run_invariant ops).1 j p e hp

/-- C12 witness: with all three levels started, `rootCancel()` leads
to `Cascade.cancelledState`, where the only cancel call is the root's
and all three contexts are done. -/
theorem root_cancel_reaches_every_descendant_witness :
    Cascade.run [Cascade.Action.enter1, Cascade.Action.enter2, Cascade.Action.rootCancel]
        Cascade.init = some Cascade.cancelledState
    ∧ Cascade.cancelledState.cancelCalls = [0]
    ∧ (Cascade.cancelledState.cancelCalls.head? = some 0
        ∧ ∀ j, j < Cascade.cancelledState.scopes.length →
            Cascade.cancelledState.scopes.done j = true) :=
  ⟨by decide, by decide,
   (root_cancel_reaches_every_descendant
      [Cascade.Action.enter1, Cascade.Action.enter2, Cascade.Action.rootCancel]
      Cascade.cancelledState (by decide)).2.2.1 rfl⟩

end ConcurrencyAdvanced.Example

/-! ### `float64` comparisons -/

theorem F64.le_fin (a b : ℚ) : (F64.fin a).le (F64.fin b) = decide (a ≤ b) := rfl

theorem F64.gt_fin (a b : ℚ) : (F64.fin a).gt (F64.fin b) = decide (b < a) := rfl

theorem F64.lt_fin (a b : ℚ) : (F64.fin a).lt (F64.fin b) = decide (a < b) := rfl

namespace FunctionsAndMethods.Example

/-! ### Bank accounts -/

theorem example_withdraw_fin (rnd : ℚ → F64) (owner : String) (b a : ℚ) :
    BankAccount.Withdraw rnd { Owner := owner, Balance := F64.fin b } (F64.fin a)
      = if 0 < a ∧ a ≤ b then ({ Owner := owner, Balance := rnd (b - a) }, none)
        else ({ Owner := owner, Balance := F64.fin b },
              some (if a ≤ 0 then "取款金额必须大于0" else "余额不足")) := by
  unfold BankAccount.Withdraw
  simp only [F64.le_fin, F64.gt_fin, decide_eq_true_eq, F64.sub]
  by_cases h1 : a ≤ 0
  · have : ¬(0 < a ∧ a ≤ b) := fun h => absurd h.1 (not_lt.mpr h1)
    simp [h1, this]
  · by_cases h2 : b < a
    · have : ¬(0 < a ∧ a ≤ b) := fun h => absurd h.2 (not_le.mpr h2)
      simp [h1, h2, this]
    · have : 0 < a ∧ a ≤ b := ⟨not_le.mp h1, not_lt.mp h2⟩
      simp [h1, h2, this]

theorem deposit_fin (rnd : ℚ → F64) (owner : String) (b a : ℚ) :
    BankAccount.Deposit rnd { Owner := owner, Balance := F64.fin b } (F64.fin a)
      = if 0 < a then ({ Owner := owner, Balance := rnd (b + a) }, none)
        else ({ Owner := owner, Balance := F64.fin b }, some "存款金额必须大于0") := by
  unfold BankAccount.Deposit
  simp only [F64.le_fin, decide_eq_true_eq, F64.add]
  by_cases h1 : a ≤ 0
  · simp [h1, not_lt.mpr h1]
  · simp [h1, not_le.mp h1]

/-- With exact arithmetic and finite amounts, one call keeps the balance
finite and non-negative. -/
theorem apply_exact_nonneg (owner : String) (b : ℚ) (hb : 0 ≤ b) (op : AccountOp)
    (hop : op.amount.isFinite = true) :
    ∃ b', BankAccount.apply F64.exact { Owner := owner, Balance := F64.fin b } op
        = { Owner := owner, Balance := F64.fin b' } ∧ 0 ≤ b' := by
  cases op with
  | deposit amount =>
    cases amount with
    | fin a =>
      simp only [BankAccount.apply, deposit_fin]
      by_cases h : 0 < a
      · exact ⟨b + a, by simp [h, F64.exact], by linarith⟩
      · exact ⟨b, by simp [h], hb⟩
    | nan => simp [AccountOp.amount, F64.isFinite] at hop
    | negInf => simp [AccountOp.amount, F64.isFinite] at hop
    | posInf => simp [AccountOp.amount, F64.isFinite] at hop
  | withdraw amount =>
    cases amount with
    | fin a =>
      simp only [BankAccount.apply, example_withdraw_fin]
      by_cases h : 0 < a ∧ a ≤ b
      · exact ⟨b - a, by simp [h, F64.exact], by linarith [h.2]⟩
      · exact ⟨b, by simp [h], hb⟩
    | nan => simp [AccountOp.amount, F64.isFinite] at hop
    | negInf => simp [AccountOp.amount, F64.isFinite] at hop
    | posInf => simp [AccountOp.amount, F64.isFinite] at hop

theorem run_exact_nonneg (owner : String) (ops : List AccountOp) :
    ∀ b : ℚ, 0 ≤ b → (∀ op ∈ ops, op.amount.isFinite = true) →
      ∃ b', BankAccount.run F64.exact ops { Owner := owner, Balance := F64.fin b }
          = { Owner := owner, Balance := F64.fin b' } ∧ 0 ≤ b' := by
  induction ops with
  | nil => intro b hb _; exact ⟨b, rfl, hb⟩
  | cons op rest ih =>
    intro b hb hops
    obtain ⟨b1, h1, hb1⟩ := apply_exact_nonneg owner b hb op (hops op (List.mem_cons_self _ _))
    obtain ⟨b2, h2, hb2⟩ := ih b1 hb1 (fun o ho => hops o (List.mem_cons_of_mem _ ho))
    refine ⟨b2, ?_, hb2⟩
    simp only [BankAccount.run, List.foldl_cons] at h2 ⊢
    rw [h1]
    exact h2

end FunctionsAndMethods.Example

namespace FunctionsAndMethods.ErrorDemo

theorem withdraw_asExample (rnd : ℚ → F64) (acc : BankAccount) (amount : F64) :
    (acc.Withdraw rnd amount).1.asExample = (acc.asExample.Withdraw rnd amount).1
    ∧ (acc.Withdraw rnd amount).2 = (acc.asExample.Withdraw rnd amount).2 := by
  unfold BankAccount.Withdraw Example.BankAccount.Withdraw BankAccount.asExample
  split
  · exact ⟨rfl, rfl⟩
  · split <;> exact ⟨rfl, rfl⟩

theorem withdraw_fin (rnd : ℚ → F64) (owner : String) (b a : ℚ) :
    BankAccount.Withdraw rnd { Owner := owner, Balance := F64.fin b } (F64.fin a)
      = if 0 < a ∧ a ≤ b then ({ Owner := owner, Balance := rnd (b - a) }, none)
        else ({ Owner := owner, Balance := F64.fin b },
              some (if a ≤ 0 then "取款金额必须大于0" else "余额不足")) := by
  unfold BankAccount.Withdraw
  simp only [F64.le_fin, F64.gt_fin, decide_eq_true_eq, F64.sub]
  by_cases h1 : a ≤ 0
  · have : ¬(0 < a ∧ a ≤ b) := fun h => absurd h.1 (not_lt.mpr h1)
    simp [h1, this]
  · by_cases h2 : b < a
    · have : ¬(0 < a ∧ a ≤ b) := fun h => absurd h.2 (not_le.mpr h2)
      simp [h1, h2, this]
    · have : 0 < a ∧ a ≤ b := ⟨not_le.mp h1, not_lt.mp h2⟩
      simp [h1, h2, this]

theorem withdraw_failure_unchanged (rnd : ℚ → F64) (acc : BankAccount) (amount : F64)
    (h : (acc.Withdraw rnd amount).2 ≠ none) : (acc.Withdraw rnd amount).1 = acc := by
  unfold BankAccount.Withdraw at h ⊢
  split
  · rfl
  · split
    · rfl
    · rename_i h1 h2
      simp [h1, h2] at h

end FunctionsAndMethods.ErrorDemo
namespace FunctionsAndMethods.ErrorDemo

/-- C21. With the amounts taken as exact rationals (the balance is the
finite value `b`, the amount the finite value `a`, and the difference
and the sum are not rounded), `BankAccount.Withdraw(amount)` of
`error_demo.go` succeeds iff 0 < amount <= Balance; on success the
balance is exactly `b - a`, which is >= 0, and Owner is unchanged; on
failure the account is unchanged. `Withdraw` of `example.go` behaves the
same, `Deposit` succeeds iff amount > 0 and then adds the amount, and a
non-negative balance stays non-negative (and finite) under every sequence
of `Deposit` and `Withdraw` calls with finite amounts. A failed
`Withdraw` leaves the account unchanged for every `float64` amount. -/
theorem withdraw_succeeds_iff_amount_within_balance (rnd : ℚ → F64) (owner : String)
    (b a : ℚ) (hsub : rnd (b - a) = F64.fin (b - a)) (hadd : rnd (b + a) = F64.fin (b + a)) :
    ((BankAccount.Withdraw rnd { Owner := owner, Balance := F64.fin b } (F64.fin a)).2 = none
        ↔ (0 < a ∧ a ≤ b))
    ∧ ((0 < a ∧ a ≤ b) →
        (BankAccount.Withdraw rnd { Owner := owner, Balance := F64.fin b } (F64.fin a)).1
          = { Owner := owner, Balance := F64.fin (b - a) } ∧ 0 ≤ b - a)
    ∧ (∀ (acc : BankAccount) (amount : F64), (acc.Withdraw rnd amount).2 ≠ none →
        (acc.Withdraw rnd amount).1 = acc)
    ∧ (∀ (acc : BankAccount) (amount : F64),
        (acc.Withdraw rnd amount).1.asExample = (acc.asExample.Withdraw rnd amount).1
        ∧ (acc.Withdraw rnd amount).2 = (acc.asExample.Withdraw rnd amount).2)
    ∧ ((Example.BankAccount.Deposit rnd { Owner := owner, Balance := F64.fin b }
          (F64.fin a)).2 = none ↔ 0 < a)
    ∧ (0 < a →
        (Example.BankAccount.Deposit rnd { Owner := owner, Balance := F64.fin b } (F64.fin a)).1
          = { Owner := owner, Balance := F64.fin (b + a) })
    ∧ (¬ 0 < a →
        (Example.BankAccount.Deposit rnd { Owner := owner, Balance := F64.fin b } (F64.fin a)).1
          = { Owner := owner, Balance := F64.fin b })
    ∧ (0 ≤ b → ∀ ops : List Example.AccountOp, (∀ op ∈ ops, op.amount.isFinite = true) →
        ∃ b', Example.BankAccount.run F64.exact ops { Owner := owner, Balance := F64.fin b }
            = { Owner := owner, Balance := F64.fin b' } ∧ 0 ≤ b') := by
  refine ⟨?_, ?_, withdraw_failure_unchanged rnd, withdraw_asExample rnd, ?_, ?_, ?_, ?_⟩
  · rw [withdraw_fin]
    by_cases h : 0 < a ∧ a ≤ b
    · simp [h]
    · simp [h]
  · intro h
    rw [withdraw_fin, if_pos h, hsub]
    exact ⟨rfl, by linarith [h.2]⟩
  · rw [Example.deposit_fin]
    by_cases h : 0 < a
    · simp [h]
    · simp [h]
  · intro h
    rw [Example.deposit_fin, if_pos h, hadd]
  · intro h
    rw [Example.deposit_fin, if_neg h]
  · intro hb ops hops
    exact Example.run_exact_nonneg owner ops b hb hops

/-- C21 witness: the withdrawals of `main` on the account of 1000:
`Withdraw(300)` succeeds and leaves 700; on the account of 700,
`Withdraw(1000)` and `Withdraw(-100)` fail. -/
theorem withdraw_succeeds_iff_amount_within_balance_witness :
    (acc.Withdraw F64.exact (F64.fin 300)).2 = none
    ∧ (acc.Withdraw F64.exact (F64.fin 300)).1
        = { Owner := "张三", Balance := F64.fin (1000 - 300) }
    ∧ (BankAccount.Withdraw F64.exact { Owner := "张三", Balance := F64.fin 700 }
        (F64.fin 1000)).2 ≠ none
    ∧ (BankAccount.Withdraw F64.exact { Owner := "张三", Balance := F64.fin 700 }
        (F64.fin (-100))).2 ≠ none :=
  ⟨(withdraw_succeeds_iff_amount_within_balance F64.exact "张三" 1000 300 rfl rfl).1.mpr
      ⟨by norm_num, by norm_num⟩,
   ((withdraw_succeeds_iff_amount_within_balance F64.exact "张三" 1000 300 rfl rfl).2.1
      ⟨by norm_num, by norm_num⟩).1,
   fun h => absurd
     ((withdraw_succeeds_iff_amount_within_balance F64.exact "张三" 700 1000 rfl rfl).1.mp h).2
     (by norm_num),
   fun h => absurd
     ((withdraw_succeeds_iff_amount_within_balance F64.exact "张三" 700 (-100) rfl rfl).1.mp h).1
     (by norm_num)⟩

end FunctionsAndMethods.ErrorDemo

namespace FunctionsAndMethods.ExerciseSimple

/-! ### Student scores -/

theorem setScore_spec (s : Student) (score : F64) :
    ((s.SetScore score).2 = none ↔ (score.lt (F64.fin 0) = false ∧ score.gt (F64.fin 100) = false))
    ∧ ((s.SetScore score).2 = none → (s.SetScore score).1 = { s with Score := score })
    ∧ ((s.SetScore score).2 ≠ none → (s.SetScore score).1 = s) := by
  unfold Student.SetScore
  cases h1 : score.lt (F64.fin 0) <;> cases h2 : score.gt (F64.fin 100) <;> simp

theorem in_range_iff (score : F64) (hnan : score ≠ F64.nan) :
    (score.lt (F64.fin 0) = false ∧ score.gt (F64.fin 100) = false)
      ↔ ((F64.fin 0).le score = true ∧ score.le (F64.fin 100) = true) := by
  cases score with
  | nan => exact absurd rfl hnan
  | negInf => simp [F64.lt, F64.gt, F64.le]
  | posInf => simp [F64.lt, F64.gt, F64.le]
  | fin q => simp [F64.lt, F64.gt, F64.le]

theorem addBonus_spec (rnd : ℚ → F64) (s : Student) (bonus : F64) :
    ((s.AddBonus rnd bonus).2 ≠ none ↔ (F64.add rnd s.Score bonus).gt (F64.fin 100) = true)
    ∧ ((s.AddBonus rnd bonus).2 = none →
        (s.AddBonus rnd bonus).1 = { s with Score := F64.add rnd s.Score bonus })
    ∧ ((s.AddBonus rnd bonus).2 ≠ none → (s.AddBonus rnd bonus).1 = s) := by
  unfold Student.AddBonus
  cases h : (F64.add rnd s.Score bonus).gt (F64.fin 100) <;> simp [h]

/-- What `SetScore` and `AddBonus` do on every input, NaN apart for the
range test of `SetScore`: `SetScore(score)` succeeds iff neither
`score < 0` nor `score > 100`, which for a score other than NaN is
0 <= score <= 100, and then sets Score = score; `AddBonus(bonus)` fails
iff the `float64` sum Score + bonus is > 100 and otherwise sets Score to
that sum; a failed call leaves the student unchanged; after a call of
either method Score is not > 100 if it was not before. -/
theorem score_methods_keep_score_at_most_100 (rnd : ℚ → F64) (s : Student) (score bonus : F64) :
    (score ≠ F64.nan →
      ((s.SetScore score).2 = none
        ↔ ((F64.fin 0).le score = true ∧ score.le (F64.fin 100) = true)))
    ∧ ((s.SetScore score).2 = none → (s.SetScore score).1 = { s with Score := score })
    ∧ ((s.SetScore score).2 ≠ none → (s.SetScore score).1 = s)
    ∧ ((s.AddBonus rnd bonus).2 ≠ none ↔ (F64.add rnd s.Score bonus).gt (F64.fin 100) = true)
    ∧ ((s.AddBonus rnd bonus).2 = none →
        (s.AddBonus rnd bonus).1 = { s with Score := F64.add rnd s.Score bonus })
    ∧ ((s.AddBonus rnd bonus).2 ≠ none → (s.AddBonus rnd bonus).1 = s)
    ∧ (s.Score.gt (F64.fin 100) = false →
        (s.SetScore score).1.Score.gt (F64.fin 100) = false
        ∧ (s.AddBonus rnd bonus).1.Score.gt (F64.fin 100) = false) := by
  obtain ⟨h1, h2, h3⟩ := setScore_spec s score
  obtain ⟨h4, h5, h6⟩ := addBonus_spec rnd s bonus
  refine ⟨fun hnan => h1.trans (in_range_iff score hnan), h2, h3, h4, h5, h6, ?_⟩
  intro hs
  constructor
  · by_cases he : (s.SetScore score).2 = none
    · rw [h2 he]
      exact (h1.mp he).2
    · rw [h3 he]; exact hs
  · by_cases he : (s.AddBonus rnd bonus).2 = none
    · rw [h5 he]
      cases hg : (F64.add rnd s.Score bonus).gt (F64.fin 100)
      · rfl
      · exact absurd he (h4.mpr hg)
    · rw [h6 he]; exact hs

/-- The calls of `main`: `student2.AddBonus(5)` succeeds with 58 + 5 = 63,
a passing score, and `student1.SetScore(150)` fails and changes nothing. -/
theorem score_calls_of_main :
    (student2.AddBonus F64.exact (F64.fin 5)).2 = none
    ∧ (student2.AddBonus F64.exact (F64.fin 5)).1.Score = F64.fin 63
    ∧ (student2.AddBonus F64.exact (F64.fin 5)).1.IsPassed = true
    ∧ (student1.SetScore (F64.fin 150)).2 ≠ none
    ∧ (student1.SetScore (F64.fin 150)).1 = student1 := by
  have h63 : F64.add F64.exact (F64.fin 58) (F64.fin 5) = F64.fin 63 := by
    simp only [F64.add, F64.exact]; norm_num
  refine ⟨?_, ?_, ?_, by decide, by decide⟩
  · simp only [Student.AddBonus, student2, h63]; decide
  · simp only [Student.AddBonus, student2, h63]; decide
  · simp only [Student.AddBonus, student2, h63]; decide

/-- C22 (the code at the failing input). `SetScore` with a NaN score: both
tests `score < 0` and `score > 100` are false, so the call returns nil
and the student's Score is NaN, although NaN is not within 0..100
(`0 <= NaN` and `NaN <= 100` are false). -/
theorem setScore_accepts_nan :
    (student1.SetScore F64.nan).2 = none
    ∧ (student1.SetScore F64.nan).1.Score = F64.nan
    ∧ (F64.fin 0).le F64.nan = false
    ∧ F64.nan.le (F64.fin 100) = false := by
  decide

end FunctionsAndMethods.ExerciseSimple

/-! ### `float64`: the order of the values other than NaN -/

theorem F64.lt_self (x : F64) : x.lt x = false := by
  cases x <;> simp [F64.lt]

theorem F64.lt_flip (x y : F64) (h : x.lt y = true) : y.lt x = false := by
  cases x <;> cases y <;> simp [F64.lt] at h ⊢
  exact le_of_lt h

theorem F64.lt_chain (x y z : F64) (h1 : x.lt y = true) (h2 : y.lt z = true) :
    x.lt z = true := by
  cases x <;> cases y <;> cases z <;> simp [F64.lt] at h1 h2 ⊢
  exact lt_trans h1 h2

theorem F64.eq_of_not_lt (x y : F64) (hx : x ≠ F64.nan) (hy : y ≠ F64.nan)
    (h1 : x.lt y = false) (h2 : y.lt x = false) : x = y := by
  cases x <;> cases y <;> simp [F64.lt] at h1 h2 hx hy ⊢
  exact le_antisymm h2 h1

theorem F64.ge_of_not_lt (x y : F64) (hx : x ≠ F64.nan) (hy : y ≠ F64.nan)
    (h : x.lt y = false) : x.ge y = true := by
  cases x <;> cases y <;> simp [F64.lt, F64.ge, F64.le] at h hx hy ⊢
  exact h

namespace Slices

/-! ### Insertion sort -/

theorem sink_perm {α : Type} (cmp : α → α → Int) (x : α) (l : List α) :
    (sink cmp x l).Perm (x :: l) := by
  induction l with
  | nil => exact List.Perm.refl _
  | cons y more ih =>
    simp only [sink]
    split
    · exact ((List.Perm.cons y ih).trans (List.Perm.swap x y more))
    · exact List.Perm.refl _

theorem foldl_sink_perm {α : Type} (cmp : α → α → Int) (data : List α) :
    ∀ acc : List α,
      (data.foldl (fun sortedRev x => sink cmp x sortedRev) acc).Perm (data ++ acc) := by
  induction data with
  | nil => intro acc; exact List.Perm.refl _
  | cons x rest ih =>
    intro acc
    simp only [List.foldl_cons]
    refine (ih (sink cmp x acc)).trans ?_
    refine (List.Perm.append_left rest (sink_perm cmp x acc)).trans ?_
    exact List.perm_middle

theorem insertionSortCmpFunc_perm {α : Type} (cmp : α → α → Int) (data : List α) :
    (insertionSortCmpFunc cmp data).Perm data := by
  unfold insertionSortCmpFunc
  refine (List.reverse_perm _).trans ?_
  simpa using foldl_sink_perm cmp data []

theorem StrictWeakOn.asymm {α : Type} {cmp : α → α → Int} {xs : List α}
    (h : StrictWeakOn cmp xs) {a b : α} (ha : a ∈ xs) (hb : b ∈ xs) (hab : cmp a b < 0) :
    ¬ cmp b a < 0 :=
  fun hba => h.irrefl a ha (h.trans a ha b hb a ha hab hba)

theorem StrictWeakOn.not_lt_trans {α : Type} {cmp : α → α → Int} {xs : List α}
    (h : StrictWeakOn cmp xs) {a b c : α} (ha : a ∈ xs) (hb : b ∈ xs) (hc : c ∈ xs)
    (hab : ¬ cmp a b < 0) (hbc : ¬ cmp b c < 0) : ¬ cmp a c < 0 := by
  intro hac
  have hba : ¬ cmp b a < 0 := fun hba => hbc (h.trans b hb a ha c hc hba hac)
  have hcb : ¬ cmp c b < 0 := fun hcb => hab (h.trans a ha c hc b hb hac hcb)
  exact (h.incomp_trans a ha b hb c hc ⟨hab, hba⟩ ⟨hbc, hcb⟩).1 hac

theorem sink_sorted {α : Type} (cmp : α → α → Int) (xs : List α) (h : StrictWeakOn cmp xs)
    (x : α) (hx : x ∈ xs) (l : List α) (hl : ∀ y ∈ l, y ∈ xs)
    (hs : l.Pairwise (fun a b => ¬ cmp a b < 0)) :
    (sink cmp x l).Pairwise (fun a b => ¬ cmp a b < 0) := by
  induction l with
  | nil => simp [sink]
  | cons y more ih =>
    have hy : y ∈ xs := hl y (List.mem_cons_self _ _)
    have hmore : ∀ z ∈ more, z ∈ xs := fun z hz => hl z (List.mem_cons_of_mem _ hz)
    rw [List.pairwise_cons] at hs
    simp only [sink]
    split
    · rename_i hxy
      rw [List.pairwise_cons]
      refine ⟨?_, ih hmore hs.2⟩
      intro z hz
      rcases List.mem_cons.mp ((sink_perm cmp x more).mem_iff.mp hz) with rfl | hz
      · exact h.asymm hx hy hxy
      · exact hs.1 z hz
    · rename_i hxy
      rw [List.pairwise_cons, List.pairwise_cons]
      refine ⟨?_, hs⟩
      intro z hz
      rcases List.mem_cons.mp hz with rfl | hz
      · exact hxy
      · exact h.not_lt_trans hx hy (hmore z hz) hxy (hs.1 z hz)

theorem foldl_sink_sorted {α : Type} (cmp : α → α → Int) (xs : List α)
    (h : StrictWeakOn cmp xs) (data : List α) :
    ∀ acc : List α, (∀ y ∈ data, y ∈ xs) → (∀ y ∈ acc, y ∈ xs) →
      acc.Pairwise (fun a b => ¬ cmp a b < 0) →
      (data.foldl (fun sortedRev x => sink cmp x sortedRev) acc).Pairwise
        (fun a b => ¬ cmp a b < 0) := by
  induction data with
  | nil => intro acc _ _ hs; exact hs
  | cons x rest ih =>
    intro acc hdata hacc hs
    simp only [List.foldl_cons]
    have hx : x ∈ xs := hdata x (List.mem_cons_self _ _)
    refine ih (sink cmp x acc) (fun y hy => hdata y (List.mem_cons_of_mem _ hy)) ?_
      (sink_sorted cmp xs h x hx acc hacc hs)
    intro y hy
    rcases List.mem_cons.mp ((sink_perm cmp x acc).mem_iff.mp hy) with rfl | hy
    · exact hx
    · exact hacc y hy

/-- The library's insertion sort behaves as `slices.SortFunc` is
documented to. -/
theorem insertionSortCmpFunc_spec {α : Type} :
    SortFuncSpec (insertionSortCmpFunc : (α → α → Int) → List α → List α) := by
  constructor
  · exact insertionSortCmpFunc_perm
  · intro cmp xs h
    unfold Ascending insertionSortCmpFunc
    rw [List.pairwise_reverse]
    exact foldl_sink_sorted cmp xs h xs [] (fun y hy => hy) (by simp) List.Pairwise.nil

end Slices
namespace CompositeTypes.Exercise

/-! ### `GetTopStudents` -/

theorem cmp_neg_iff (sm : ScoreManager) (a b : Student) :
    sm.cmp a b < 0 ↔ (sm.scoreOf b.ID).lt (sm.scoreOf a.ID) = true := by
  unfold ScoreManager.cmp
  simp only [F64.gt]
  by_cases h1 : (sm.scoreOf b.ID).lt (sm.scoreOf a.ID) = true
  · simp [h1]
  · by_cases h2 : (sm.scoreOf a.ID).lt (sm.scoreOf b.ID) = true <;> simp [h1, h2]

theorem cmp_pos_iff (sm : ScoreManager) (a b : Student) :
    0 < sm.cmp a b ↔ (sm.scoreOf a.ID).lt (sm.scoreOf b.ID) = true := by
  unfold ScoreManager.cmp
  simp only [F64.gt]
  by_cases h1 : (sm.scoreOf b.ID).lt (sm.scoreOf a.ID) = true
  · have := F64.lt_flip _ _ h1
    simp [h1, this]
  · by_cases h2 : (sm.scoreOf a.ID).lt (sm.scoreOf b.ID) = true <;> simp [h1, h2]

/-- When no listed student has a NaN score, the comparison function is
what `slices.SortFunc` requires. -/
theorem cmp_strictWeakOn (sm : ScoreManager) (xs : List Student)
    (hnan : ∀ s ∈ xs, sm.scoreOf s.ID ≠ F64.nan) : Slices.StrictWeakOn sm.cmp xs := by
  constructor
  · intro a _
    rw [cmp_neg_iff, F64.lt_self]
    simp
  · intro a _ b _ c _ hab hbc
    rw [cmp_neg_iff] at hab hbc ⊢
    exact F64.lt_chain _ _ _ hbc hab
  · intro a ha b hb c hc hab hbc
    simp only [cmp_neg_iff, Bool.not_eq_true] at hab hbc ⊢
    have e1 := F64.eq_of_not_lt _ _ (hnan a ha) (hnan b hb) hab.2 hab.1
    have e2 := F64.eq_of_not_lt _ _ (hnan b hb) (hnan c hc) hbc.2 hbc.1
    rw [e1, e2]
    exact ⟨F64.lt_self _, F64.lt_self _⟩
  · intro a _ b _
    rw [cmp_pos_iff, cmp_neg_iff]

theorem getTopStudents_eq (sortFunc : (Student → Student → Int) → List Student → List Student)
    (sm : ScoreManager) (n : Int) (hn : 0 < n) (hne : sm.Students ≠ []) :
    sm.GetTopStudents sortFunc n
      = (sm, some ((sortFunc sm.cmp sm.Students).take (min n.toNat sm.Students.length))) := by
  unfold ScoreManager.GetTopStudents
  have hlen : sm.Students.length ≠ 0 := fun h => hne (List.length_eq_zero.mp h)
  rw [if_neg (by simp only [not_or, not_le]; exact ⟨hn, hlen⟩)]
  simp only
  congr 3
  split
  · rename_i hgt
    have : sm.Students.length ≤ n.toNat := by omega
    simp [Nat.min_eq_right this]
  · rename_i hle
    have : n.toNat ≤ sm.Students.length := by omega
    simp [Nat.min_eq_left this]

end CompositeTypes.Exercise
namespace CompositeTypes.Exercise

/-- The sort of `main`: with the scores 95.5, 88 and 92.5 the insertion
sort puts 张三 first, 王五 second and 李四 last. -/
theorem demo_sorted :
    Slices.insertionSortCmpFunc demoManager.cmp [zhangSan, liSi, wangWu]
      = [zhangSan, wangWu, liSi] := by
  have h1 : demoManager.scoreOf zhangSan.ID = F64.fin (191 / 2) := rfl
  have h2 : demoManager.scoreOf liSi.ID = F64.fin 88 := rfl
  have h3 : demoManager.scoreOf wangWu.ID = F64.fin (185 / 2) := rfl
  have c21 : ¬ demoManager.cmp liSi zhangSan < 0 := by
    rw [cmp_neg_iff, h1, h2, F64.lt_fin]; norm_num
  have c32 : demoManager.cmp wangWu liSi < 0 := by
    rw [cmp_neg_iff, h2, h3, F64.lt_fin]; norm_num
  have c31 : ¬ demoManager.cmp wangWu zhangSan < 0 := by
    rw [cmp_neg_iff, h1, h3, F64.lt_fin]; norm_num
  simp only [Slices.insertionSortCmpFunc, List.foldl_cons, List.foldl_nil, Slices.sink,
    if_neg c21, if_pos c32, if_neg c31]
  rfl

/-- C23 (as stated, refuted). Three students with the scores 1, NaN and
2, and n = 1: every comparison with the NaN score yields 0, so the
insertion sort that `slices.SortFunc` runs on a short slice leaves the
three students in place, and the student returned has score 1 while a
student not returned has score 2. -/
theorem getTopStudents_misled_by_nan_score :
    (nanManager.GetTopStudents Slices.insertionSortCmpFunc 1).2 = some [zhangSan]
    ∧ wangWu ∈ nanManager.Students
    ∧ wangWu ∉ [zhangSan]
    ∧ nanManager.scoreOf zhangSan.ID = F64.fin 1
    ∧ nanManager.scoreOf wangWu.ID = F64.fin 2
    ∧ (nanManager.scoreOf zhangSan.ID).ge (nanManager.scoreOf wangWu.ID) = false := by
  decide

/-- C23 (amended). For every sort function that behaves as
`slices.SortFunc` is documented to, `GetTopStudents(n)` returns nil when
n <= 0 or there are no students, and leaves `sm` as it is; otherwise it
returns a list `top` of min(n, len(Students)) students which, together
with the students `rest` not returned, is a rearrangement of
`sm.Students` (so `top` is a sub-multiset of it); and if no listed
student has a NaN score (a student without a recorded score counting as
0), `top` is in non-increasing order of score and every returned
student's score is >= that of every student not returned. -/
theorem getTopStudents_returns_the_best
    (sortFunc : (Student → Student → Int) → List Student → List Student)
    (hspec : Slices.SortFuncSpec sortFunc) (sm : ScoreManager) (n : Int) :
    ((n ≤ 0 ∨ sm.Students = []) → (sm.GetTopStudents sortFunc n).2 = none)
    ∧ (sm.GetTopStudents sortFunc n).1 = sm
    ∧ (0 < n → sm.Students ≠ [] →
        ∃ top rest,
          (sm.GetTopStudents sortFunc n).2 = some top
          ∧ top.length = min n.toNat sm.Students.length
          ∧ (top ++ rest).Perm sm.Students
          ∧ top.Subperm sm.Students
          ∧ ((∀ s ∈ sm.Students, sm.scoreOf s.ID ≠ F64.nan) →
              top.Pairwise (fun a b => (sm.scoreOf a.ID).ge (sm.scoreOf b.ID) = true)
              ∧ ∀ a ∈ top, ∀ b ∈ rest, (sm.scoreOf a.ID).ge (sm.scoreOf b.ID) = true)) := by
  refine ⟨?_, ?_, ?_⟩
  · intro h
    unfold ScoreManager.GetTopStudents
    rw [if_pos]
    rcases h with h | h
    · exact Or.inl h
    · exact Or.inr (by rw [h]; rfl)
  · unfold ScoreManager.GetTopStudents
    split <;> rfl
  · intro hn hne
    have hperm := hspec.perm sm.cmp sm.Students
    refine ⟨(sortFunc sm.cmp sm.Students).take (min n.toNat sm.Students.length),
      (sortFunc sm.cmp sm.Students).drop (min n.toNat sm.Students.length), ?_, ?_, ?_, ?_, ?_⟩
    · rw [getTopStudents_eq sortFunc sm n hn hne]
    · rw [List.length_take, hperm.length_eq]
      omega
    · rw [List.take_append_drop]
      exact hperm
    · exact ((List.take_sublist _ _).subperm).trans hperm.subperm
    · intro hnan
      have hasc := hspec.sorted sm.cmp sm.Students (cmp_strictWeakOn sm sm.Students hnan)
      have hge : (sortFunc sm.cmp sm.Students).Pairwise
          (fun a b => (sm.scoreOf a.ID).ge (sm.scoreOf b.ID) = true) := by
        refine List.Pairwise.imp_of_mem ?_ hasc
        intro a b ha hb hab
        rw [cmp_neg_iff] at hab
        exact F64.ge_of_not_lt _ _ (hnan a (hperm.mem_iff.mp ha)) (hnan b (hperm.mem_iff.mp hb))
          (by simpa using hab)
      rw [← List.take_append_drop (min n.toNat sm.Students.length) (sortFunc sm.cmp sm.Students),
        List.pairwise_append] at hge
      exact ⟨hge.1, hge.2.2⟩

/-- C23 witness: the Top 2 of `main`, with the library's insertion sort:
no score is NaN, and for the scores 95.5, 88 and 92.5 and n = 2 the
students returned are 张三 (95.5) and then 王五 (92.5), in non-increasing
order of score, both with a score >= that of 李四, who is not returned. -/
theorem getTopStudents_returns_the_best_witness :
    (∀ s ∈ demoManager.Students, demoManager.scoreOf s.ID ≠ F64.nan)
    ∧ (demoManager.GetTopStudents Slices.insertionSortCmpFunc 2).2 = some [zhangSan, wangWu]
    ∧ [zhangSan, wangWu].Pairwise
        (fun a b => (demoManager.scoreOf a.ID).ge (demoManager.scoreOf b.ID) = true)
    ∧ (∀ a ∈ [zhangSan, wangWu],
        (demoManager.scoreOf a.ID).ge (demoManager.scoreOf liSi.ID) = true) := by
  have hnan : ∀ s ∈ demoManager.Students, demoManager.scoreOf s.ID ≠ F64.nan := by decide
  have heval : (demoManager.GetTopStudents Slices.insertionSortCmpFunc 2).2
      = some [zhangSan, wangWu] := by
    rw [getTopStudents_eq _ _ _ (by decide) (by decide)]
    show some (List.take _ (Slices.insertionSortCmpFunc demoManager.cmp [zhangSan, liSi, wangWu]))
      = some [zhangSan, wangWu]
    rw [demo_sorted]
    rfl
  obtain ⟨top, rest, h1, _, h3, _, h5⟩ :=
    (getTopStudents_returns_the_best Slices.insertionSortCmpFunc Slices.insertionSortCmpFunc_spec
      demoManager 2).2.2 (by decide) (by decide)
  have htop : top = [zhangSan, wangWu] := by
    rw [heval] at h1
    exact (Option.some.inj h1).symm
  subst htop
  have hli : liSi ∈ rest := by
    have hmem : liSi ∈ [zhangSan, wangWu] ++ rest := h3.mem_iff.mpr (by decide)
    rcases List.mem_append.mp hmem with h | h
    · exact absurd h (by decide)
    · exact h
  exact ⟨hnan, heval, (h5 hnan).1, fun a ha => (h5 hnan).2 a ha liSi hli⟩

end CompositeTypes.Exercise

end GolangStudy
